import Mathlib

/-!
Verification development for the `nfs_mirror` virtual-filesystem layer
(`src/main.rs`).  The Rust code is shallowly embedded: every stateful
method of `FSMap` / `MirrorFS` becomes a pure Lean function that takes
the map state (and a model of the host filesystem) and returns the
result together with the updated state.  Machine integers are modelled
as `Nat`, with an explicit `% 2^64` where 64-bit wrap-around matters
(the `read` offset arithmetic).  Host syscalls are modelled against an
explicit finite host-filesystem state.
-/

namespace NFSMirror

/-- NFSv3 status codes used by the source (subset of `nfsstat3`).
`NFS3ERR_IOERR` stands for the source's i/o error status (its source
spelling cannot be used as a Lean name here). -/
inductive nfsstat3 where
  | NFS3ERR_NOENT
  | NFS3ERR_IOERR
  | NFS3ERR_ACCES
  | NFS3ERR_EXIST
  | NFS3ERR_NOTDIR
  | NFS3ERR_ISDIR
  | NFS3ERR_ROFS
  | NFS3ERR_BADTYPE
  deriving DecidableEq, Repr

/-- File types of `ftype3`. -/
inductive ftype3 where
  | NF3REG
  | NF3DIR
  | NF3LNK
  | NF3BLK
  | NF3CHR
  | NF3SOCK
  | NF3FIFO
  deriving DecidableEq, Repr

/-- Host `Metadata` projected to the fields the server reads
(`metadata_to_fattr3` copies exactly these). -/
structure Meta where
  ftype : ftype3
  mode : Nat
  uid : Nat
  gid : Nat
  size : Nat
  atime : Nat
  mtime : Nat
  ctime : Nat
  nlink : Nat
  deriving DecidableEq, Repr

/-- NFSv3 attributes `fattr3`: the metadata projection plus the echoed
fileid. -/
structure fattr3 where
  meta : Meta
  fileid : Nat
  deriving DecidableEq, Repr

/-- Modelled from the spec: the external helper `metadata_to_fattr3`
(library `fs_util`, out of scope of src/) projects host metadata to the
NFS attribute set with the given fileid echoed back. -/
def metadata_to_fattr3 (id : Nat) (m : Meta) : fattr3 :=
  { meta := m, fileid := id }

/-- Modelled from the spec: the external helper `fattr3_differ`
(library `fs_util`).  Spec section 3: two attribute tuples differ iff
any of type, size, mtime, ctime, mode, uid, gid, nlink differs. -/
def fattr3_differ (a b : fattr3) : Bool :=
  a.meta.ftype ≠ b.meta.ftype ∨ a.meta.size ≠ b.meta.size ∨
  a.meta.mtime ≠ b.meta.mtime ∨ a.meta.ctime ≠ b.meta.ctime ∨
  a.meta.mode ≠ b.meta.mode ∨ a.meta.uid ≠ b.meta.uid ∨
  a.meta.gid ≠ b.meta.gid ∨ a.meta.nlink ≠ b.meta.nlink


/-- `set_atime` / `set_mtime` of `sattr3`. -/
inductive set_time where
  | DONT_CHANGE
  | SET_TO_SERVER_TIME
  | SET_TO_CLIENT_TIME (t : Nat)
  deriving DecidableEq, Repr

/-- The settable-attribute triple `sattr3`. -/
structure sattr3 where
  mode : Option Nat := none
  uid : Option Nat := none
  gid : Option Nat := none
  size : Option Nat := none
  atime : set_time := .DONT_CHANGE
  mtime : set_time := .DONT_CHANGE
  deriving DecidableEq, Repr

/-- Interned path-component symbols (`intaglio::Symbol`). -/
abbrev Symbol := Nat

/-- File identifiers (`fileid3`, a `u64`; the counter never reaches
2^64 so no wrap modelling is needed for ids). -/
abbrev fileid3 := Nat

/-- A symbolic path: the interned components from the synthetic root. -/
abbrev SymPath := List Symbol

/-- A host filesystem path as a component list (a `PathBuf` built by
successive `push` of components). -/
abbrev RealPath := List String

/-- The path interner (`intaglio::osstr::SymbolTable`): symbols are
indices into the monotonically growing table. -/
structure SymbolTable where
  syms : List String
  deriving DecidableEq, Repr

/-- Index of the first occurrence of a string in the table. -/
def strIdx : List String → String → Option Nat
  | [], _ => none
  | x :: xs, s => if x = s then some 0 else (strIdx xs s).map (· + 1)

/-- `check_interned`: pure lookup, no insertion. -/
def SymbolTable.check_interned (t : SymbolTable) (s : String) : Option Symbol :=
  strIdx t.syms s

/-- `get`: reverse lookup of a symbol. -/
def SymbolTable.get (t : SymbolTable) (i : Symbol) : Option String :=
  t.syms.get? i

/-- `intern`: idempotent interning; an already-interned string keeps its
symbol, a new string is appended. -/
def SymbolTable.intern (t : SymbolTable) (s : String) : Symbol × SymbolTable :=
  match t.check_interned s with
  | some i => (i, t)
  | none => (t.syms.length, ⟨t.syms ++ [s]⟩)

/-- Ordered-set insertion on a sorted duplicate-free `Nat` list
(model of `BTreeSet<fileid3>::insert`). -/
def bsetInsert (x : Nat) : List Nat → List Nat
  | [] => [x]
  | y :: ys =>
    if x < y then x :: y :: ys
    else if x = y then y :: ys
    else y :: bsetInsert x ys

/-- `BTreeSet::from_iter`. -/
def bsetOf (l : List Nat) : List Nat :=
  l.foldl (fun acc x => bsetInsert x acc) []



/-- A cached entry (`FSEntry`): symbolic path, cached attributes, the
attributes in effect when the children list was built, and the optional
ordered children set. -/
structure FSEntry where
  name : SymPath
  fsmeta : fattr3
  children_meta : fattr3
  children : Option (List fileid3)
  deriving DecidableEq, Repr

/-- The identifier map (`FSMap`).  The two hash maps are modelled as
total functions into `Option`; `next_fileid` is the monotone counter. -/
structure FSMap where
  mounts : List (String × RealPath × Bool)
  next_fileid : Nat
  intern : SymbolTable
  id_to_path : fileid3 → Option FSEntry
  path_to_id : SymPath → Option fileid3

/-- `RefreshResult`. -/
inductive RefreshResult where
  | Delete
  | Reload
  | Noop
  deriving DecidableEq, Repr

/-- One host filesystem object (the part of a stat / file the server
reads): metadata, regular-file content bytes, symlink target. -/
structure HostNode where
  meta : Meta
  content : List Nat
  slink : String
  deriving DecidableEq, Repr

/-- The host filesystem: a finite map from paths to nodes, plus a clock
from which fresh timestamps for newly created / modified objects are
drawn. -/
structure Host where
  nodes : List (RealPath × HostNode)
  clock : Nat

/-- First-match association lookup over the node list. -/
def alookup (p : RealPath) : List (RealPath × HostNode) → Option HostNode
  | [] => none
  | e :: es => if e.1 = p then some e.2 else alookup p es

/-- Host path lookup (a no-traverse stat returning the node). -/
def Host.lookup (h : Host) (p : RealPath) : Option HostNode :=
  alookup p h.nodes

/-- `fs_util::exists_no_traverse` (and `Path::exists` for mount
sources; symlink traversal is not modelled beyond node types). -/
def exists_no_traverse (h : Host) (p : RealPath) : Bool :=
  (Host.lookup h p).isSome

/-- Remove all pairs for a path from the node list. -/
def aremove (p : RealPath) : List (RealPath × HostNode) → List (RealPath × HostNode)
  | [] => []
  | e :: es => if e.1 = p then aremove p es else e :: aremove p es

/-- Insert or replace a node. -/
def Host.set (h : Host) (p : RealPath) (n : HostNode) : Host :=
  { h with nodes := aremove p h.nodes ++ [(p, n)] }

/-- Remove a single node. -/
def Host.remove (h : Host) (p : RealPath) : Host :=
  { h with nodes := aremove p h.nodes }

/-- The directory listing `read_dir p`: the name and node of every host
path that extends `p` by exactly one component, in stored order. -/
def Host.children (h : Host) (p : RealPath) : List (String × HostNode) :=
  h.nodes.filterMap (fun e =>
    if e.1.take p.length = p ∧ e.1.length = p.length + 1 then
      match e.1.get? p.length with
      | some nm => some (nm, e.2)
      | none => none
    else none)

/-- Metadata of a freshly created host object. -/
def mkMeta (ft : ftype3) (sz : Nat) (clk : Nat) : Meta :=
  { ftype := ft, mode := 420, uid := 0, gid := 0, size := sz,
    atime := clk, mtime := clk, ctime := clk, nlink := 1 }



/-- Create a fresh host object at a path (used by the creation
syscalls): fresh metadata drawn from the clock, clock advanced. -/
def hostCreate (h : Host) (p : RealPath) (ft : ftype3) (content : List Nat)
    (slink : String) : Host :=
  { nodes := aremove p h.nodes ++ [(p, ⟨mkMeta ft content.length h.clock, content, slink⟩)],
    clock := h.clock + 1 }

/-- Resize file content: truncate, or extend with zero bytes. -/
def resizeContent (c : List Nat) (sz : Nat) : List Nat :=
  c.take sz ++ List.replicate (sz - c.length) 0

/-- Apply a settable-attribute triple to one host node (model of the
external `file_setattr` and the per-node part of `path_setattr`):
mode / uid / gid are overwritten when present, a size change truncates
or zero-extends, times follow the NFSv3 `set_time` conventions, and the
change time is refreshed. -/
def applySattrNode (n : HostNode) (sa : sattr3) (clk : Nat) : HostNode :=
  let m := n.meta
  let m := match sa.mode with | some v => { m with mode := v } | none => m
  let m := match sa.uid with | some v => { m with uid := v } | none => m
  let m := match sa.gid with | some v => { m with gid := v } | none => m
  let content := match sa.size with
    | some sz => resizeContent n.content sz
    | none => n.content
  let m := match sa.size with | some sz => { m with size := sz } | none => m
  let m := match sa.atime with
    | .DONT_CHANGE => m
    | .SET_TO_SERVER_TIME => { m with atime := clk }
    | .SET_TO_CLIENT_TIME t => { m with atime := t }
  let m := match sa.mtime with
    | .DONT_CHANGE => m
    | .SET_TO_SERVER_TIME => { m with mtime := clk }
    | .SET_TO_CLIENT_TIME t => { m with mtime := t }
  let m := { m with ctime := clk }
  { n with meta := m, content := content }

/-- Modelled from the spec: the external helper `path_setattr`
(library `fs_util`, out of scope of src/) applies the attribute triple
at the given host path, failing with *no-ent* when the path does not
exist (host not-found errors translate to `NFS3ERR_NOENT`,
spec section 4.5). -/
def path_setattr (h : Host) (p : RealPath) (sa : sattr3) : Except nfsstat3 Host :=
  match h.lookup p with
  | none => .error .NFS3ERR_NOENT
  | some n =>
    .ok { nodes := aremove p h.nodes ++ [(p, applySattrNode n sa h.clock)],
          clock := h.clock + 1 }

/-- The host `rename` syscall.  `none` is a syscall error: source
missing, destination inside the source subtree (EINVAL), or an existing
non-empty destination directory (ENOTEMPTY).  On success the source
subtree is relocated, replacing any node at the destination;
`rename(p, p)` succeeds without change. -/
def hostRename (h : Host) (fr dst : RealPath) : Option Host :=
  if (h.lookup fr).isNone then none
  else if fr = dst then some h
  else if fr.isPrefixOf dst then none
  else if h.nodes.any (fun e => dst.isPrefixOf e.1 && e.1 ≠ dst) then none
  else some
    { nodes := h.nodes.filterMap (fun e =>
        if fr.isPrefixOf e.1 then some (dst ++ e.1.drop fr.length, e.2)
        else if e.1 = dst then none
        else some e),
      clock := h.clock + 1 }

/-- The host `hard_link` syscall with the error translation the source
applies (`NotFound` to *no-ent*, `PermissionDenied` to *acces*,
`AlreadyExists` to *exist*, anything else to *io*).  Hard-linking a
directory is refused (EPERM); inode sharing is modelled shallowly by
copying the linked node. -/
def hostHardLink (h : Host) (fp lp : RealPath) : Except nfsstat3 Host :=
  match h.lookup fp with
  | none => .error .NFS3ERR_NOENT
  | some fnode =>
    if fnode.meta.ftype = .NF3DIR then .error .NFS3ERR_ACCES
    else if (h.lookup lp).isSome then .error .NFS3ERR_EXIST
    else match h.lookup lp.dropLast with
      | some pn =>
        if pn.meta.ftype = .NF3DIR then
          .ok { nodes := aremove lp h.nodes ++ [(lp, fnode)], clock := h.clock + 1 }
        else .error .NFS3ERR_IOERR
      | none => .error .NFS3ERR_NOENT

/-- `str::trim_start_matches('/')` as used on mount targets (written
over the character list so that it evaluates by kernel reduction). -/
def trimSlash (s : String) : String := ⟨s.data.dropWhile (· = '/')⟩

/-- First mount whose trimmed target equals the given name (every loop
over `self.mounts` in the source takes the first match). -/
def mountFor (mounts : List (String × RealPath × Bool)) (name : String) :
    Option (String × RealPath × Bool) :=
  mounts.find? (fun m => trimSlash m.1 = name)

/-- Resolve every symbol of a path through the interner, aborting on
the first failure (the `real_path.push(self.intern.get(*sym)?)` loop). -/
def SymbolTable.getAll (t : SymbolTable) : List Symbol → Option (List String)
  | [] => some []
  | sy :: rest =>
    match t.get sy with
    | none => none
    | some str =>
      match t.getAll rest with
      | none => none
      | some strs => some (str :: strs)

/-- `FSMap::sym_to_real_path`.  The source runs two loops (an exact
mount match for length-1 paths, then a prefix match for length ≥ 1);
both select the first mount whose trimmed target equals the interned
first component and a failing `intern.get` aborts the whole resolution
with `None`, so the two loops collapse to this single chain. -/
def FSMap.sym_to_real_path (s : FSMap) (symlist : SymPath) : Option (RealPath × Bool) :=
  match symlist with
  | [] => none
  | s0 :: rest =>
    match s.intern.get s0 with
    | none => none
    | some mount_name =>
      match mountFor s.mounts mount_name with
      | none => none
      | some (_, source_path, ro) =>
        match s.intern.getAll rest with
        | none => none
        | some comps => some (source_path ++ comps, ro)

/-- `FSMap::sym_to_path`: joins the interned components into a path
*without* consulting the mount table (relative to the server's working
directory).  The source unwraps `intern.get`; symbols stored in live
entries are always interned, so the `""` default is never taken there. -/
def FSMap.sym_to_path (s : FSMap) (symlist : SymPath) : RealPath :=
  symlist.map (fun i => (s.intern.get i).getD "")

/-- `FSMap::sym_to_fname`: the last component's string, `""` for the
empty path. -/
def FSMap.sym_to_fname (s : FSMap) (symlist : SymPath) : String :=
  match symlist.getLast? with
  | some x => (s.intern.get x).getD ""
  | none => ""

/-- `FSMap::collect_all_children`, fuel-indexed.  The source recurses
through the cached children sets without a visited set; the fuel bounds
the recursion depth.  In the acyclic states the server reaches, the
depth never exceeds the number of live ids (below `next_fileid`), so
the fuelled model agrees with the source there; on a cyclic children
graph the source would fail to terminate. -/
def collectAll (s : FSMap) : Nat → fileid3 → List fileid3
  | 0, id => [id]
  | fuel + 1, id =>
    id :: (match s.id_to_path id with
      | some ent =>
        match ent.children with
        | some ch => ch.flatMap (fun i => collectAll s fuel i)
        | none => []
      | none => [])

/-- The collection entry point: fuel `next_fileid + 1` dominates the
depth of every acyclic descent. -/
def FSMap.collect_all_children (s : FSMap) (id : fileid3) : List fileid3 :=
  collectAll s (s.next_fileid + 1) id

/-- One step of the `delete_entry` loop: remove id `i` from the id
map, and the removed entry's symbolic path from the path map, when the
entry is present. -/
def delStep (acc : FSMap) (i : fileid3) : FSMap :=
  match acc.id_to_path i with
  | some ent =>
    { acc with
      id_to_path := fun j => if j = i then none else acc.id_to_path j,
      path_to_id := fun p => if p = ent.name then none else acc.path_to_id p }
  | none => acc

/-- `FSMap::delete_entry`: remove every collected id from the id map,
and for each id whose entry was present also remove that entry's
symbolic path from the path map. -/
def FSMap.delete_entry (s : FSMap) (id : fileid3) : FSMap :=
  (s.collect_all_children id).foldl delStep s

/-- `FSMap::find_entry` (returns a clone). -/
def FSMap.find_entry (s : FSMap) (id : fileid3) : Except nfsstat3 FSEntry :=
  match s.id_to_path id with
  | some e => .ok e
  | none => .error .NFS3ERR_NOENT

/-- In-place entry update, the model of the source's
`find_entry_mut` / `id_to_path.get_mut` mutations: a no-op when the id
is absent (each source call site has either checked presence, treats
the `None` case as skip, or unwraps at a point where the entry is
provably present). -/
def FSMap.modify_entry (s : FSMap) (id : fileid3) (f : FSEntry → FSEntry) : FSMap :=
  { s with id_to_path := fun j =>
      if j = id then (s.id_to_path j).map f else s.id_to_path j }

/-- `FSMap::find_child`: pure cache lookup of `name` under parent `id`
via `check_interned` and the path map only. -/
def FSMap.find_child (s : FSMap) (id : fileid3) (filename : String) :
    Except nfsstat3 fileid3 :=
  match s.id_to_path id with
  | none => .error .NFS3ERR_NOENT
  | some ent =>
    match s.intern.check_interned filename with
    | none => .error .NFS3ERR_NOENT
    | some sym =>
      match s.path_to_id (ent.name ++ [sym]) with
      | some cid => .ok cid
      | none => .error .NFS3ERR_NOENT

/-- `FSMap::create_entry`: refresh the attributes of an already-bound
path keeping its id, or allocate the next id and insert into both maps
with `children = None`. -/
def FSMap.create_entry (s : FSMap) (fullpath : SymPath) (meta : Meta) :
    fileid3 × FSMap :=
  match s.path_to_id fullpath with
  | some chid =>
    (chid, s.modify_entry chid (fun e => { e with fsmeta := metadata_to_fattr3 chid meta }))
  | none =>
    let next_id := s.next_fileid
    let metafattr := metadata_to_fattr3 next_id meta
    (next_id,
     { s with
       next_fileid := s.next_fileid + 1,
       id_to_path := fun j =>
         if j = next_id then some ⟨fullpath, metafattr, metafattr, none⟩
         else s.id_to_path j,
       path_to_id := fun p => if p = fullpath then some next_id else s.path_to_id p })

/-- `FSMap::refresh_entry`.  Every error path of the source leaves the
map unchanged, so the error case carries no state.  The mount-point
branch reproduces the source loop: the loop body only runs for a
non-empty mount list, the `intern.get` failure inside it propagates
*no-ent*, a matching mount is handled, and falling out of the loop is
`Noop`. -/
def FSMap.refresh_entry (s : FSMap) (h : Host) (id : fileid3) :
    Except nfsstat3 (RefreshResult × FSMap) :=
  match s.id_to_path id with
  | none => .error .NFS3ERR_NOENT
  | some entry =>
    match s.sym_to_real_path entry.name with
    | none =>
      if entry.name = [] then .ok (.Noop, s)
      else
        match entry.name with
        | [s0] =>
          if s.mounts = [] then .ok (.Noop, s)
          else
            match s.intern.get s0 with
            | none => .error .NFS3ERR_NOENT
            | some mount_name =>
              match mountFor s.mounts mount_name with
              | some (_, source_path, _) =>
                if ¬ exists_no_traverse h source_path then
                  .ok (.Delete, s.delete_entry id)
                else
                  match h.lookup source_path with
                  | none => .error .NFS3ERR_IOERR
                  | some node =>
                    let meta := metadata_to_fattr3 id node.meta
                    if fattr3_differ meta entry.fsmeta then
                      .ok (.Reload, s.modify_entry id (fun e => { e with fsmeta := meta }))
                    else .ok (.Noop, s)
              | none => .ok (.Noop, s)
        | _ => .ok (.Noop, s)
    | some (real_path, _) =>
      if ¬ exists_no_traverse h real_path then
        .ok (.Delete, s.delete_entry id)
      else
        match h.lookup real_path with
        | none => .error .NFS3ERR_IOERR
        | some node =>
          let meta := metadata_to_fattr3 id node.meta
          if ¬ fattr3_differ meta entry.fsmeta then .ok (.Noop, s)
          else if entry.fsmeta.meta.ftype ≠ node.meta.ftype then
            .ok (.Delete, s.delete_entry id)
          else .ok (.Reload, s.modify_entry id (fun e => { e with fsmeta := meta }))

/-- Discard the result of a refresh (`let _ = refresh_entry(..)`): the
error paths of `refresh_entry` never mutate the map, so the original
state is kept there. -/
def FSMap.refresh_entry_ign (s : FSMap) (h : Host) (id : fileid3) : FSMap :=
  match s.refresh_entry h id with
  | .error _ => s
  | .ok (_, s') => s'

/-- Final step of `refresh_dir_list`: store the collected children set
(`get_mut(..).ok_or(NOENT)?`). -/
def finishDirList (s : FSMap) (id : fileid3) (nc : List fileid3) :
    FSMap × Option nfsstat3 :=
  match s.id_to_path id with
  | none => (s, some .NFS3ERR_NOENT)
  | some _ =>
    (s.modify_entry id (fun e => { e with children := some (bsetOf nc) }), none)

/-- `FSMap::refresh_dir_list`.  Mutations made before a late error are
kept (the source mutates `self` in place), hence the
`FSMap × Option nfsstat3` shape.  The root lists the mount table,
interning each target and skipping missing sources; a regular
directory lists its host directory (a failing `read_dir` leaves the
collection empty, so `children` becomes the empty set). -/
def FSMap.refresh_dir_list (s : FSMap) (h : Host) (id : fileid3) :
    FSMap × Option nfsstat3 :=
  match s.id_to_path id with
  | none => (s, some .NFS3ERR_NOENT)
  | some entry =>
    if entry.children.isSome ∧ ¬ fattr3_differ entry.children_meta entry.fsmeta then
      (s, none)
    else if entry.fsmeta.meta.ftype ≠ .NF3DIR then (s, none)
    else if entry.name = [] then
      let step := fun (acc : FSMap × List fileid3) (m : String × RealPath × Bool) =>
        let (sym, it) := acc.1.intern.intern (trimSlash m.1)
        let s1 := { acc.1 with intern := it }
        if exists_no_traverse h m.2.1 then
          match h.lookup m.2.1 with
          | some node =>
            let (nid, s2) := s1.create_entry (entry.name ++ [sym]) node.meta
            (s2, acc.2 ++ [nid])
          | none =>
            -- `symlink_metadata(..).unwrap_or_else(metadata("."))`; the
            -- fallback is unreachable when the node exists
            let (nid, s2) := s1.create_entry (entry.name ++ [sym]) (mkMeta .NF3DIR 0 0)
            (s2, acc.2 ++ [nid])
        else (s1, acc.2)
      let r := s.mounts.foldl step (s, [])
      finishDirList r.1 id r.2
    else
      match s.sym_to_real_path entry.name with
      | none => (s, none)
      | some (real_path, _) =>
        let readable : Bool := match h.lookup real_path with
          | some n => decide (n.meta.ftype = .NF3DIR)
          | none => false
        if readable then
          let step := fun (acc : FSMap × List fileid3) (c : String × HostNode) =>
            let (sym, it) := acc.1.intern.intern c.1
            let s1 := { acc.1 with intern := it }
            let (nid, s2) := s1.create_entry (entry.name ++ [sym]) c.2.meta
            (s2, acc.2 ++ [nid])
          let r := (h.children real_path).foldl step (s, [])
          finishDirList r.1 id r.2
        else finishDirList s id []

/-- Result of one VFS operation: success, an NFSv3 error, or a panic of
the handler (the source contains reachable `unwrap` panics and one
capacity-overflow panic; `panicked` records them honestly). -/
inductive OpRes (α : Type) where
  | ok (a : α)
  | err (e : nfsstat3)
  | panicked
  deriving DecidableEq, Repr

/-- Result, map state and host state after one state-passing handler. -/
structure OpOut (α : Type) where
  res : OpRes α
  fs : FSMap
  host : Host

/-- `MirrorFS`: the mutex-protected map plus the global read-only flag. -/
structure MirrorFS where
  fsmap : FSMap
  read_only : Bool

/-- The tagged creation variant. -/
inductive CreateFSObject where
  | Directory
  | File (setattr : sattr3)
  | Exclusive
  | Symlink (attr : sattr3) (target : String)

/-- `tokio::fs::create_dir`: fails unless the parent exists as a
directory and the path is free; unrecognized errors map to *io* at the
call site. -/
def hostMkdir (h : Host) (p : RealPath) : Option Host :=
  if (h.lookup p).isSome then none
  else match h.lookup p.dropLast with
    | some pn => if pn.meta.ftype = .NF3DIR then some (hostCreate h p .NF3DIR [] "") else none
    | none => none

/-- `std::fs::File::create`: truncate an existing non-directory, or
create a fresh empty file under an existing directory. -/
def hostFileCreate (h : Host) (p : RealPath) : Option Host :=
  match h.lookup p with
  | some n =>
    if n.meta.ftype = .NF3DIR then none
    else
      let n1 : HostNode :=
        { n with
            content := [],
            meta := { n.meta with size := 0, mtime := h.clock, ctime := h.clock } }
      some { nodes := aremove p h.nodes ++ [(p, n1)], clock := h.clock + 1 }
  | none =>
    match h.lookup p.dropLast with
    | some pn => if pn.meta.ftype = .NF3DIR then some (hostCreate h p .NF3REG [] "") else none
    | none => none

/-- `File::options().write(true).create_new(true)`: exclusive create. -/
def hostFileCreateNew (h : Host) (p : RealPath) : Option Host :=
  if (h.lookup p).isSome then none
  else match h.lookup p.dropLast with
    | some pn => if pn.meta.ftype = .NF3DIR then some (hostCreate h p .NF3REG [] "") else none
    | none => none

/-- `tokio::fs::symlink`. -/
def hostSymlink (h : Host) (p : RealPath) (target : String) : Option Host :=
  if (h.lookup p).isSome then none
  else match h.lookup p.dropLast with
    | some pn => if pn.meta.ftype = .NF3DIR then some (hostCreate h p .NF3LNK [] target) else none
    | none => none

/-- The per-variant host syscall of `create_fs_object` with the exact
error selection of the source: `Directory` and `Symlink` first check
`exists_no_traverse` (*exist*), then map syscall failure to *io*;
`File` maps failure to *io*; `Exclusive` maps every failure to
*exist*; `file_setattr` on a just-created file has its result
discarded. -/
def createSyscall (h : Host) (_dir_path : RealPath) (path : RealPath)
    (object : CreateFSObject) : Except nfsstat3 Host :=
  match object with
  | .Directory =>
    if exists_no_traverse h path then .error .NFS3ERR_EXIST
    else match hostMkdir h path with
      | some h1 => .ok h1
      | none => .error .NFS3ERR_IOERR
  | .File sa =>
    match hostFileCreate h path with
    | some h1 =>
      match h1.lookup path with
      | some n =>
        .ok { nodes := aremove path h1.nodes ++ [(path, applySattrNode n sa h1.clock)],
              clock := h1.clock + 1 }
      | none => .ok h1
    | none => .error .NFS3ERR_IOERR
  | .Exclusive =>
    match hostFileCreateNew h path with
    | some h1 => .ok h1
    | none => .error .NFS3ERR_EXIST
  | .Symlink _ target =>
    if exists_no_traverse h path then .error .NFS3ERR_EXIST
    else match hostSymlink h path target with
      | some h1 => .ok h1
      | none => .error .NFS3ERR_IOERR

/-- `MirrorFS::create_fs_object`: read-only check, parent resolution
(*acces* for root / unresolved mount), per-mount read-only check,
type-specific syscall, parent refresh with result discarded, intern the
object name, re-stat the new object, `create_entry`, and insert the new
id into the parent's children set when that set is materialized. -/
def MirrorFS.create_fs_object (srv : MirrorFS) (h : Host) (dirid : fileid3)
    (objectname : String) (object : CreateFSObject) : OpOut (fileid3 × fattr3) :=
  if srv.read_only then ⟨.err .NFS3ERR_ROFS, srv.fsmap, h⟩
  else
    let fsmap := srv.fsmap
    match fsmap.find_entry dirid with
    | .error e => ⟨.err e, fsmap, h⟩
    | .ok ent =>
      match fsmap.sym_to_real_path ent.name with
      | none => ⟨.err .NFS3ERR_ACCES, fsmap, h⟩
      | some (dir_path, dir_read_only) =>
        if dir_read_only then ⟨.err .NFS3ERR_ROFS, fsmap, h⟩
        else
          let path := dir_path ++ [objectname]
          match createSyscall h dir_path path object with
          | .error e => ⟨.err e, fsmap, h⟩
          | .ok h1 =>
            let fs1 := fsmap.refresh_entry_ign h1 dirid
            let si := fs1.intern.intern objectname
            let fs2 := { fs1 with intern := si.2 }
            let name := ent.name ++ [si.1]
            match Host.lookup h1 path with
            | none => ⟨.err .NFS3ERR_IOERR, fs2, h1⟩
            | some node =>
              let cr := fs2.create_entry name node.meta
              match (cr.2).id_to_path dirid with
              | none => ⟨.err .NFS3ERR_NOENT, cr.2, h1⟩
              | some _ =>
                let fs4 := (cr.2).modify_entry dirid
                  (fun e => { e with children := e.children.map (bsetInsert cr.1) })
                ⟨.ok (cr.1, metadata_to_fattr3 cr.1 node.meta), fs4, h1⟩

/-- Slow path of `lookup` (cache miss or dangling cached id). -/
def lookupSlow (fsmap : FSMap) (h : Host) (dirid : fileid3) (filename : String) :
    OpOut fileid3 :=
  match fsmap.find_entry dirid with
  | .error e => ⟨.err e, fsmap, h⟩
  | .ok dirent =>
    match fsmap.sym_to_real_path dirent.name with
    | none =>
      -- mount-as-itself check, then *no-ent*
      match dirent.name with
      | [s0] =>
        match fsmap.intern.get s0 with
        | none => ⟨.err .NFS3ERR_NOENT, fsmap, h⟩
        | some mount_name =>
          if (mountFor fsmap.mounts mount_name).isSome ∧ filename = mount_name then
            ⟨.ok dirid, fsmap, h⟩
          else ⟨.err .NFS3ERR_NOENT, fsmap, h⟩
      | _ => ⟨.err .NFS3ERR_NOENT, fsmap, h⟩
    | some (dir_path, _) =>
      let path := dir_path ++ [filename]
      if ¬ exists_no_traverse h path then ⟨.err .NFS3ERR_NOENT, fsmap, h⟩
      else
        match fsmap.refresh_entry h dirid with
        | .error e => ⟨.err e, fsmap, h⟩
        | .ok (.Delete, fs1) => ⟨.err .NFS3ERR_NOENT, fs1, h⟩
        | .ok (_, fs1) =>
          let fs2 := (fs1.refresh_dir_list h dirid).1
          match fs2.find_child dirid filename with
          | .ok id => ⟨.ok id, fs2, h⟩
          | .error e => ⟨.err e, fs2, h⟩

/-- `MirrorFS::lookup`: `find_child` on the cache, falling back to the
slow path when the cache misses or the cached id is dangling. -/
def MirrorFS.lookup (srv : MirrorFS) (h : Host) (dirid : fileid3)
    (filename : String) : OpOut fileid3 :=
  let fsmap := srv.fsmap
  match fsmap.find_child dirid filename with
  | .ok id =>
    if (fsmap.id_to_path id).isSome then ⟨.ok id, fsmap, h⟩
    else lookupSlow fsmap h dirid filename
  | .error _ => lookupSlow fsmap h dirid filename

/-- `MirrorFS::getattr`: refresh, treat `Delete` as *no-ent*, return
the refreshed cached attributes. -/
def MirrorFS.getattr (srv : MirrorFS) (h : Host) (id : fileid3) : OpOut fattr3 :=
  let fsmap := srv.fsmap
  match fsmap.refresh_entry h id with
  | .error e => ⟨.err e, fsmap, h⟩
  | .ok (.Delete, fs1) => ⟨.err .NFS3ERR_NOENT, fs1, h⟩
  | .ok (_, fs1) =>
    match fs1.find_entry id with
    | .error e => ⟨.err e, fs1, h⟩
    | .ok ent => ⟨.ok ent.fsmeta, fs1, h⟩

/-- `isize::MAX`: a `Vec` whose byte capacity exceeds it panics
deterministically. -/
def isizeMax : Nat := 2 ^ 63 - 1

/-- The half-open byte range `[a, b)` of a list. -/
def slice (a b : Nat) (l : List Nat) : List Nat := (l.drop a).take (b - a)

/-- `MirrorFS::read`: resolve (root / unresolved mount is *is-dir*),
open (*no-ent* on failure), then the clamped ranged read.  The offset
arithmetic is 64-bit: `offset + count` wraps at `2^64`, and the buffer
length `end - start` wraps likewise, so an overflowing request builds
an astronomically large zero buffer and the handler panics
(capacity overflow).  The map and host are not mutated. -/
def MirrorFS.read (srv : MirrorFS) (h : Host) (id : fileid3)
    (offset count : Nat) : OpRes (List Nat × Bool) :=
  let fsmap := srv.fsmap
  match fsmap.find_entry id with
  | .error e => .err e
  | .ok ent =>
    match fsmap.sym_to_real_path ent.name with
    | none => .err .NFS3ERR_ISDIR
    | some (path, _) =>
      match h.lookup path with
      | none => .err .NFS3ERR_NOENT
      | some node =>
        let len := node.content.length
        let end0 := (offset + count) % 2 ^ 64
        let eof : Bool := decide (len ≤ end0)
        let start := if len ≤ offset then len else offset
        let end1 := if len < end0 then len else end0
        let bufLen := (end1 + 2 ^ 64 - start) % 2 ^ 64
        if isizeMax < bufLen then .panicked
        else if start + bufLen ≤ len then .ok (slice start (start + bufLen) node.content, eof)
        else .err .NFS3ERR_IOERR

/-- One emitted `readdir` entry. -/
structure DirEntry where
  fileid : fileid3
  name : String
  attr : fattr3
  deriving DecidableEq, Repr

/-- `ReadDirResult`; the source's `end` flag is spelled `isEnd`. -/
structure ReadDirResult where
  entries : List DirEntry
  isEnd : Bool
  deriving DecidableEq, Repr

/-- The emission loop of `readdir`: push entries in fileid order,
propagating a failing `find_entry`, stopping once `max_entries` is
reached. -/
def emitEntries (fs : FSMap) (max_entries : Nat) :
    List fileid3 → List DirEntry → Except nfsstat3 (List DirEntry)
  | [], acc => .ok acc
  | i :: rest, acc =>
    match fs.find_entry i with
    | .error e => .error e
    | .ok fe =>
      let acc1 := acc ++ [⟨i, fs.sym_to_fname fe.name, fe.fsmeta⟩]
      if max_entries ≤ acc1.length then .ok acc1
      else emitEntries fs max_entries rest acc1

/-- `MirrorFS::readdir`: refresh entry and dir list (errors propagate,
keeping the mutations made so far), require a directory, walk the
children past the cursor, and set `isEnd` iff everything after the
cursor was emitted. -/
def MirrorFS.readdir (srv : MirrorFS) (h : Host) (dirid : fileid3)
    (start_after : fileid3) (max_entries : Nat) : OpOut ReadDirResult :=
  let fsmap := srv.fsmap
  match fsmap.refresh_entry h dirid with
  | .error e => ⟨.err e, fsmap, h⟩
  | .ok (_, fs1) =>
    let dl := fs1.refresh_dir_list h dirid
    match dl.2 with
    | some e => ⟨.err e, dl.1, h⟩
    | none =>
      let fs2 := dl.1
      match fs2.find_entry dirid with
      | .error e => ⟨.err e, fs2, h⟩
      | .ok entry =>
        if entry.fsmeta.meta.ftype ≠ .NF3DIR then ⟨.err .NFS3ERR_NOTDIR, fs2, h⟩
        else
          match entry.children with
          | none => ⟨.err .NFS3ERR_IOERR, fs2, h⟩
          | some children =>
            let ranged := if 0 < start_after
              then children.filter (fun i => start_after < i) else children
            let remaining := ranged.length
            match emitEntries fs2 max_entries ranged [] with
            | .error e => ⟨.err e, fs2, h⟩
            | .ok entries =>
              ⟨.ok ⟨entries, decide (entries.length = remaining)⟩, fs2, h⟩

/-- `MirrorFS::setattr`: NOTE the source resolves the entry's symbolic
path with `sym_to_path` (a working-directory-relative join of the raw
components), not with `sym_to_real_path`, applies `path_setattr` there,
re-stats the same path and stores the fresh attributes.  There is no
read-only check. -/
def MirrorFS.setattr (srv : MirrorFS) (h : Host) (id : fileid3)
    (sa : sattr3) : OpOut fattr3 :=
  let fsmap := srv.fsmap
  match fsmap.find_entry id with
  | .error e => ⟨.err e, fsmap, h⟩
  | .ok entry =>
    let path := fsmap.sym_to_path entry.name
    match path_setattr h path sa with
    | .error e => ⟨.err e, fsmap, h⟩
    | .ok h1 =>
      match Host.lookup h1 path with
      | none => ⟨.err .NFS3ERR_IOERR, fsmap, h1⟩
      | some node =>
        let fs1 := fsmap.modify_entry id
          (fun e => { e with fsmeta := metadata_to_fattr3 id node.meta })
        ⟨.ok (metadata_to_fattr3 id node.meta), fs1, h1⟩

/-- Write `data` into `content` at `offset`, zero-filling any gap. -/
def writeAt (content : List Nat) (offset : Nat) (data : List Nat) : List Nat :=
  (content.take offset ++ List.replicate (offset - content.length) 0)
    ++ data ++ content.drop (offset + data.length)

/-- `MirrorFS::write`: global read-only check, resolve (*is-dir* for
root / unresolved mount), per-mount read-only check, open with
write+create+no-truncate (failure *io*), seek, write all, sync, re-stat
and return the fresh attributes.  The map is not mutated. -/
def MirrorFS.write (srv : MirrorFS) (h : Host) (id : fileid3)
    (offset : Nat) (data : List Nat) : OpOut fattr3 :=
  if srv.read_only then ⟨.err .NFS3ERR_ROFS, srv.fsmap, h⟩
  else
    let fsmap := srv.fsmap
    match fsmap.find_entry id with
    | .error e => ⟨.err e, fsmap, h⟩
    | .ok ent =>
      match fsmap.sym_to_real_path ent.name with
      | none => ⟨.err .NFS3ERR_ISDIR, fsmap, h⟩
      | some (path, read_only) =>
        if read_only then ⟨.err .NFS3ERR_ROFS, fsmap, h⟩
        else
          let opened : Option HostNode := match h.lookup path with
            | some n => if n.meta.ftype = .NF3DIR then none else some n
            | none =>
              match h.lookup path.dropLast with
              | some pn => if pn.meta.ftype = .NF3DIR
                  then some ⟨mkMeta .NF3REG 0 h.clock, [], ""⟩ else none
              | none => none
          match opened with
          | none => ⟨.err .NFS3ERR_IOERR, fsmap, h⟩
          | some n =>
            let content1 := writeAt n.content offset data
            let n1 : HostNode :=
              { n with
                  content := content1,
                  meta := { n.meta with
                              size := content1.length,
                              mtime := h.clock, ctime := h.clock } }
            let h1 : Host := { nodes := aremove path h.nodes ++ [(path, n1)],
                               clock := h.clock + 1 }
            ⟨.ok (metadata_to_fattr3 id n1.meta), fsmap, h1⟩

/-- `MirrorFS::create`. -/
def MirrorFS.create (srv : MirrorFS) (h : Host) (dirid : fileid3)
    (filename : String) (sa : sattr3) : OpOut (fileid3 × fattr3) :=
  srv.create_fs_object h dirid filename (.File sa)

/-- `MirrorFS::create_exclusive` (projects the fileid). -/
def MirrorFS.create_exclusive (srv : MirrorFS) (h : Host) (dirid : fileid3)
    (filename : String) : OpOut fileid3 :=
  let o := srv.create_fs_object h dirid filename .Exclusive
  ⟨match o.res with
    | .ok x => .ok x.1
    | .err e => .err e
    | .panicked => .panicked, o.fs, o.host⟩

/-- `MirrorFS::remove`: read-only checks, resolve parent (*acces* for
root / unresolved mount), no-traverse stat of the child (*no-ent* when
missing), `remove_dir` / `remove_file` by type, drop the pair from both
maps and the id from the parent's children when the symbolic path is
bound, then refresh the parent discarding the result. -/
def MirrorFS.remove (srv : MirrorFS) (h : Host) (dirid : fileid3)
    (filename : String) : OpOut Unit :=
  if srv.read_only then ⟨.err .NFS3ERR_ROFS, srv.fsmap, h⟩
  else
    let fsmap := srv.fsmap
    match fsmap.find_entry dirid with
    | .error e => ⟨.err e, fsmap, h⟩
    | .ok ent =>
      match fsmap.sym_to_real_path ent.name with
      | none => ⟨.err .NFS3ERR_ACCES, fsmap, h⟩
      | some (dir_path, dir_read_only) =>
        if dir_read_only then ⟨.err .NFS3ERR_ROFS, fsmap, h⟩
        else
          let path := dir_path ++ [filename]
          match h.lookup path with
          | none => ⟨.err .NFS3ERR_NOENT, fsmap, h⟩
          | some node =>
            let removed : Option Host :=
              if node.meta.ftype = .NF3DIR then
                if (h.children path).isEmpty then some (h.remove path) else none
              else some (h.remove path)
            match removed with
            | none => ⟨.err .NFS3ERR_IOERR, fsmap, h⟩
            | some h1 =>
              let si := fsmap.intern.intern filename
              let fs1 := { fsmap with intern := si.2 }
              let sympath := ent.name ++ [si.1]
              let fs2 := match fs1.path_to_id sympath with
                | some fid =>
                  let fsA :=
                    { fs1 with
                      id_to_path := fun j => if j = fid then none else fs1.id_to_path j,
                      path_to_id := fun p => if p = sympath then none else fs1.path_to_id p }
                  fsA.modify_entry dirid
                    (fun e => { e with children := e.children.map (fun ch => List.erase ch fid) })
                | none => fs1
              let fs3 := fs2.refresh_entry_ign h1 dirid
              ⟨.ok (), fs3, h1⟩

/-- Map update of `rename` once the source symbolic path is bound:
rebind the fileid's name, move the path binding (remove source, insert
destination), and move the id across the parents' children sets for a
cross-directory rename. -/
def renameBind (fs1 : FSMap) (fid : fileid3) (fent : FSEntry)
    (from_sympath to_sympath : SymPath) (from_dirid to_dirid : fileid3) : FSMap :=
  let fs2 := { fs1 with
    id_to_path := fun j =>
      if j = fid then some { fent with name := to_sympath } else fs1.id_to_path j }
  let fs3 := { fs2 with
    path_to_id := fun p =>
      if p = to_sympath then some fid
      else if p = from_sympath then none
      else fs2.path_to_id p }
  if to_dirid ≠ from_dirid then
    (fs3.modify_entry from_dirid (fun e =>
      { e with children := e.children.map (fun ch => List.erase ch fid) })).modify_entry
      to_dirid (fun e => { e with children := e.children.map (bsetInsert fid) })
  else fs3

/-- Tail of `rename`: refresh the source parent, and the destination
parent when distinct, discarding the results. -/
def renameTail (fsX : FSMap) (h1 : Host) (from_dirid to_dirid : fileid3) :
    OpOut Unit :=
  let fs5 := fsX.refresh_entry_ign h1 from_dirid
  let fs6 := if to_dirid ≠ from_dirid then fs5.refresh_entry_ign h1 to_dirid else fs5
  ⟨.ok (), fs6, h1⟩

/-- `MirrorFS::rename`: read-only checks, resolve both parents
(*acces* for root / unresolved mount), destination directory and source
path must exist on the host (*no-ent*), host rename (*io* on failure),
then — when the source symbolic path is bound — rebind the fileid's
name, move the path binding, move the id across the two children sets
for a cross-directory rename (the source unwraps the entry of the
bound fileid: a dangling binding panics), and refresh both parents. -/
def MirrorFS.rename (srv : MirrorFS) (h : Host) (from_dirid : fileid3)
    (from_filename : String) (to_dirid : fileid3) (to_filename : String) :
    OpOut Unit :=
  if srv.read_only then ⟨.err .NFS3ERR_ROFS, srv.fsmap, h⟩
  else
    let fsmap := srv.fsmap
    match fsmap.find_entry from_dirid with
    | .error e => ⟨.err e, fsmap, h⟩
    | .ok from_dirent =>
      match fsmap.sym_to_real_path from_dirent.name with
      | none => ⟨.err .NFS3ERR_ACCES, fsmap, h⟩
      | some (from_dir_path, from_read_only) =>
        match fsmap.find_entry to_dirid with
        | .error e => ⟨.err e, fsmap, h⟩
        | .ok to_dirent =>
          match fsmap.sym_to_real_path to_dirent.name with
          | none => ⟨.err .NFS3ERR_ACCES, fsmap, h⟩
          | some (to_dir_path, to_read_only) =>
            if from_read_only ∨ to_read_only then ⟨.err .NFS3ERR_ROFS, fsmap, h⟩
            else
              let from_path := from_dir_path ++ [from_filename]
              if ¬ exists_no_traverse h to_dir_path then ⟨.err .NFS3ERR_NOENT, fsmap, h⟩
              else
                let to_path := to_dir_path ++ [to_filename]
                if ¬ exists_no_traverse h from_path then ⟨.err .NFS3ERR_NOENT, fsmap, h⟩
                else
                  match hostRename h from_path to_path with
                  | none => ⟨.err .NFS3ERR_IOERR, fsmap, h⟩
                  | some h1 =>
                    let si1 := fsmap.intern.intern from_filename
                    let fsA := { fsmap with intern := si1.2 }
                    let si2 := fsA.intern.intern to_filename
                    let fs1 := { fsA with intern := si2.2 }
                    let from_sympath := from_dirent.name ++ [si1.1]
                    let to_sympath := to_dirent.name ++ [si2.1]
                    match fs1.path_to_id from_sympath with
                    | none => renameTail fs1 h1 from_dirid to_dirid
                    | some fid =>
                      match fs1.id_to_path fid with
                      | none => ⟨.panicked, fs1, h1⟩
                      | some fent =>
                        renameTail
                          (renameBind fs1 fid fent from_sympath to_sympath
                            from_dirid to_dirid) h1 from_dirid to_dirid

/-- `MirrorFS::mkdir` (requested attributes ignored by the source). -/
def MirrorFS.mkdir (srv : MirrorFS) (h : Host) (dirid : fileid3)
    (dirname : String) (_attrs : sattr3) : OpOut (fileid3 × fattr3) :=
  srv.create_fs_object h dirid dirname .Directory

/-- `MirrorFS::symlink`. -/
def MirrorFS.symlink (srv : MirrorFS) (h : Host) (dirid : fileid3)
    (linkname : String) (target : String) (attr : sattr3) :
    OpOut (fileid3 × fattr3) :=
  srv.create_fs_object h dirid linkname (.Symlink attr target)

/-- `MirrorFS::readlink`: resolve (*bad-type* for root / unresolved
mount), require a symlink, return its raw target.  No state change. -/
def MirrorFS.readlink (srv : MirrorFS) (h : Host) (id : fileid3) :
    OpRes String :=
  let fsmap := srv.fsmap
  match fsmap.find_entry id with
  | .error e => .err e
  | .ok ent =>
    match fsmap.sym_to_real_path ent.name with
    | none => .err .NFS3ERR_BADTYPE
    | some (path, _) =>
      match h.lookup path with
      | some n => if n.meta.ftype = .NF3LNK then .ok n.slink else .err .NFS3ERR_BADTYPE
      | none => .err .NFS3ERR_BADTYPE

/-- `MirrorFS::mknod`: device / socket / fifo degrade to regular-file
creation; every other requested type is *bad-type*. -/
def MirrorFS.mknod (srv : MirrorFS) (h : Host) (dirid : fileid3)
    (filename : String) (ft : ftype3) (attr : sattr3) : OpOut (fileid3 × fattr3) :=
  match ft with
  | .NF3CHR => srv.create_fs_object h dirid filename (.File attr)
  | .NF3BLK => srv.create_fs_object h dirid filename (.File attr)
  | .NF3SOCK => srv.create_fs_object h dirid filename (.File attr)
  | .NF3FIFO => srv.create_fs_object h dirid filename (.File attr)
  | _ => ⟨.err .NFS3ERR_BADTYPE, srv.fsmap, h⟩

/-- `MirrorFS::link`: global read-only check, resolve the file and the
link directory (*acces* for root / unresolved mount), per-mount
read-only check on the link directory only, host hard link with error
translation, then bind the new symbolic path to the *existing* fileid
and insert it into the link directory's children. -/
def MirrorFS.link (srv : MirrorFS) (h : Host) (fid : fileid3)
    (linkdirid : fileid3) (linkname : String) : OpOut Unit :=
  if srv.read_only then ⟨.err .NFS3ERR_ROFS, srv.fsmap, h⟩
  else
    let fsmap := srv.fsmap
    match fsmap.find_entry fid with
    | .error e => ⟨.err e, fsmap, h⟩
    | .ok file_entry =>
      match fsmap.sym_to_real_path file_entry.name with
      | none => ⟨.err .NFS3ERR_ACCES, fsmap, h⟩
      | some (file_path, _) =>
        match fsmap.find_entry linkdirid with
        | .error e => ⟨.err e, fsmap, h⟩
        | .ok linkdir_entry =>
          match fsmap.sym_to_real_path linkdir_entry.name with
          | none => ⟨.err .NFS3ERR_ACCES, fsmap, h⟩
          | some (link_dir_path, link_read_only) =>
            if link_read_only then ⟨.err .NFS3ERR_ROFS, fsmap, h⟩
            else
              let link_path := link_dir_path ++ [linkname]
              match hostHardLink h file_path link_path with
              | .error e => ⟨.err e, fsmap, h⟩
              | .ok h1 =>
                let si := fsmap.intern.intern linkname
                let fs1 := { fsmap with intern := si.2 }
                let link_sympath := linkdir_entry.name ++ [si.1]
                let fs2 := { fs1 with path_to_id := fun p =>
                  if p = link_sympath then some fid else fs1.path_to_id p }
                let fs3 := fs2.modify_entry linkdirid
                  (fun e => { e with children := e.children.map (bsetInsert fid) })
                ⟨.ok (), fs3, h1⟩


/-- The fallback metadata `std::fs::metadata(".")` used when a root or
mount source cannot be statted at construction time. -/
def defaultMeta : Meta := mkMeta .NF3DIR 0 0

/-- `FSMap::new_with_mounts`: root entry at fileid 0 with empty name
and an empty children set, then one entry per mount (fileids 1, 2, ...)
whose cached attributes hardcode fileid 1 (as the source does), each
inserted into both maps and into the root's children. -/
def FSMap.new_with_mounts (h : Host) (root_dir : RealPath)
    (mounts : List (String × RealPath × Bool)) : FSMap :=
  let root_metadata := ((h.lookup root_dir).map (fun n => n.meta)).getD defaultMeta
  let root_entry : FSEntry :=
    ⟨[], metadata_to_fattr3 0 root_metadata, metadata_to_fattr3 0 root_metadata, some []⟩
  let base : FSMap :=
    { mounts := mounts, next_fileid := 1, intern := ⟨[]⟩,
      id_to_path := fun i => if i = 0 then some root_entry else none,
      path_to_id := fun p => if p = [] then some 0 else none }
  mounts.foldl (fun acc m =>
    let si := acc.intern.intern (trimSlash m.1)
    let s1 := { acc with intern := si.2 }
    let mmeta := ((h.lookup m.2.1).map (fun n => n.meta)).getD defaultMeta
    let mount_entry : FSEntry :=
      ⟨[si.1], metadata_to_fattr3 1 mmeta, metadata_to_fattr3 1 mmeta, none⟩
    let fid := s1.next_fileid
    let s2 : FSMap :=
      { s1 with
          next_fileid := s1.next_fileid + 1,
          id_to_path := fun j => if j = fid then some mount_entry else s1.id_to_path j,
          path_to_id := fun p => if p = [si.1] then some fid else s1.path_to_id p }
    s2.modify_entry 0 (fun e => { e with children := e.children.map (bsetInsert fid) }))
    base

/-- `MirrorFS::new_with_mounts`. -/
def MirrorFS.new_with_mounts (h : Host) (root_dir : RealPath) (read_only : Bool)
    (mounts : List (String × RealPath × Bool)) : MirrorFS :=
  ⟨FSMap.new_with_mounts h root_dir mounts, read_only⟩

/-- Configuration validation (spec section 6): mount targets are
pairwise distinct (after stripping the leading slash, as the server
compares them) and every source is a non-empty host path (an existing
directory has a non-empty absolute path). -/
def ValidMounts (mounts : List (String × RealPath × Bool)) : Prop :=
  (mounts.map (fun m => trimSlash m.1)).Nodup ∧ ∀ m ∈ mounts, m.2.1 ≠ []

/-- A host state is admissible when it has no node at the empty path
(no real filesystem object has an empty path). -/
def HostOk (h : Host) : Prop := Host.lookup h [] = none

/-- One transition of the server with global read-only flag `ro`: an
invocation of a public VFS operation with arbitrary arguments, or an
out-of-band host mutation (spec section 5 tolerates external writers).
`read` and `readlink` never change either state and are subsumed by
reflexivity. -/
inductive Step (ro : Bool) : FSMap × Host → FSMap × Host → Prop where
  | lookup (s : FSMap) (h : Host) (dirid : fileid3) (fn : String) :
      Step ro (s, h)
        ((MirrorFS.lookup ⟨s, ro⟩ h dirid fn).fs, (MirrorFS.lookup ⟨s, ro⟩ h dirid fn).host)
  | getattr (s : FSMap) (h : Host) (id : fileid3) :
      Step ro (s, h)
        ((MirrorFS.getattr ⟨s, ro⟩ h id).fs, (MirrorFS.getattr ⟨s, ro⟩ h id).host)
  | readdir (s : FSMap) (h : Host) (dirid start_after : fileid3) (max_entries : Nat) :
      Step ro (s, h)
        ((MirrorFS.readdir ⟨s, ro⟩ h dirid start_after max_entries).fs,
         (MirrorFS.readdir ⟨s, ro⟩ h dirid start_after max_entries).host)
  | setattr (s : FSMap) (h : Host) (id : fileid3) (sa : sattr3) :
      Step ro (s, h)
        ((MirrorFS.setattr ⟨s, ro⟩ h id sa).fs, (MirrorFS.setattr ⟨s, ro⟩ h id sa).host)
  | write (s : FSMap) (h : Host) (id : fileid3) (offset : Nat) (data : List Nat) :
      Step ro (s, h)
        ((MirrorFS.write ⟨s, ro⟩ h id offset data).fs,
         (MirrorFS.write ⟨s, ro⟩ h id offset data).host)
  | create (s : FSMap) (h : Host) (dirid : fileid3) (fn : String) (sa : sattr3) :
      Step ro (s, h)
        ((MirrorFS.create ⟨s, ro⟩ h dirid fn sa).fs, (MirrorFS.create ⟨s, ro⟩ h dirid fn sa).host)
  | create_exclusive (s : FSMap) (h : Host) (dirid : fileid3) (fn : String) :
      Step ro (s, h)
        ((MirrorFS.create_exclusive ⟨s, ro⟩ h dirid fn).fs,
         (MirrorFS.create_exclusive ⟨s, ro⟩ h dirid fn).host)
  | remove (s : FSMap) (h : Host) (dirid : fileid3) (fn : String) :
      Step ro (s, h)
        ((MirrorFS.remove ⟨s, ro⟩ h dirid fn).fs, (MirrorFS.remove ⟨s, ro⟩ h dirid fn).host)
  | rename (s : FSMap) (h : Host) (fd : fileid3) (fn : String) (td : fileid3) (tn : String) :
      Step ro (s, h)
        ((MirrorFS.rename ⟨s, ro⟩ h fd fn td tn).fs, (MirrorFS.rename ⟨s, ro⟩ h fd fn td tn).host)
  | mkdir (s : FSMap) (h : Host) (dirid : fileid3) (fn : String) (sa : sattr3) :
      Step ro (s, h)
        ((MirrorFS.mkdir ⟨s, ro⟩ h dirid fn sa).fs, (MirrorFS.mkdir ⟨s, ro⟩ h dirid fn sa).host)
  | symlink (s : FSMap) (h : Host) (dirid : fileid3) (fn tgt : String) (sa : sattr3) :
      Step ro (s, h)
        ((MirrorFS.symlink ⟨s, ro⟩ h dirid fn tgt sa).fs,
         (MirrorFS.symlink ⟨s, ro⟩ h dirid fn tgt sa).host)
  | mknod (s : FSMap) (h : Host) (dirid : fileid3) (fn : String) (ft : ftype3) (sa : sattr3) :
      Step ro (s, h)
        ((MirrorFS.mknod ⟨s, ro⟩ h dirid fn ft sa).fs,
         (MirrorFS.mknod ⟨s, ro⟩ h dirid fn ft sa).host)
  | link (s : FSMap) (h : Host) (fid linkdirid : fileid3) (fn : String) :
      Step ro (s, h)
        ((MirrorFS.link ⟨s, ro⟩ h fid linkdirid fn).fs,
         (MirrorFS.link ⟨s, ro⟩ h fid linkdirid fn).host)
  | host_change (s : FSMap) (h h1 : Host) (hok : HostOk h1) :
      Step ro (s, h) (s, h1)

/-- Reachability of a server state from an initial state. -/
def Reach (ro : Bool) (init st : FSMap × Host) : Prop :=
  Relation.ReflTransGen (Step ro) init st

/-- Side condition under which a `rename` call cannot orphan an entry:
the destination symbolic path it will compute is unbound, or equals the
source symbolic path. -/
def RenameOkGuard (s : FSMap) (from_dirid : fileid3) (from_filename : String)
    (to_dirid : fileid3) (to_filename : String) : Prop :=
  ∀ fde tde, s.id_to_path from_dirid = some fde → s.id_to_path to_dirid = some tde →
    (s.path_to_id (tde.name ++ [(SymbolTable.intern (s.intern.intern from_filename).2 to_filename).1]) = none ∨
     tde.name ++ [(SymbolTable.intern (s.intern.intern from_filename).2 to_filename).1] =
       fde.name ++ [(s.intern.intern from_filename).1])

/-- The restricted transition relation: the public operations without
`link`, and with `rename` only under `RenameOkGuard`. -/
inductive StepR (ro : Bool) : FSMap × Host → FSMap × Host → Prop where
  | lookup (s : FSMap) (h : Host) (dirid : fileid3) (fn : String) :
      StepR ro (s, h)
        ((MirrorFS.lookup ⟨s, ro⟩ h dirid fn).fs, (MirrorFS.lookup ⟨s, ro⟩ h dirid fn).host)
  | getattr (s : FSMap) (h : Host) (id : fileid3) :
      StepR ro (s, h)
        ((MirrorFS.getattr ⟨s, ro⟩ h id).fs, (MirrorFS.getattr ⟨s, ro⟩ h id).host)
  | readdir (s : FSMap) (h : Host) (dirid start_after : fileid3) (max_entries : Nat) :
      StepR ro (s, h)
        ((MirrorFS.readdir ⟨s, ro⟩ h dirid start_after max_entries).fs,
         (MirrorFS.readdir ⟨s, ro⟩ h dirid start_after max_entries).host)
  | setattr (s : FSMap) (h : Host) (id : fileid3) (sa : sattr3) :
      StepR ro (s, h)
        ((MirrorFS.setattr ⟨s, ro⟩ h id sa).fs, (MirrorFS.setattr ⟨s, ro⟩ h id sa).host)
  | write (s : FSMap) (h : Host) (id : fileid3) (offset : Nat) (data : List Nat) :
      StepR ro (s, h)
        ((MirrorFS.write ⟨s, ro⟩ h id offset data).fs,
         (MirrorFS.write ⟨s, ro⟩ h id offset data).host)
  | create (s : FSMap) (h : Host) (dirid : fileid3) (fn : String) (sa : sattr3) :
      StepR ro (s, h)
        ((MirrorFS.create ⟨s, ro⟩ h dirid fn sa).fs, (MirrorFS.create ⟨s, ro⟩ h dirid fn sa).host)
  | create_exclusive (s : FSMap) (h : Host) (dirid : fileid3) (fn : String) :
      StepR ro (s, h)
        ((MirrorFS.create_exclusive ⟨s, ro⟩ h dirid fn).fs,
         (MirrorFS.create_exclusive ⟨s, ro⟩ h dirid fn).host)
  | remove (s : FSMap) (h : Host) (dirid : fileid3) (fn : String) :
      StepR ro (s, h)
        ((MirrorFS.remove ⟨s, ro⟩ h dirid fn).fs, (MirrorFS.remove ⟨s, ro⟩ h dirid fn).host)
  | rename (s : FSMap) (h : Host) (fd : fileid3) (fn : String) (td : fileid3) (tn : String)
      (hguard : RenameOkGuard s fd fn td tn) :
      StepR ro (s, h)
        ((MirrorFS.rename ⟨s, ro⟩ h fd fn td tn).fs, (MirrorFS.rename ⟨s, ro⟩ h fd fn td tn).host)
  | mkdir (s : FSMap) (h : Host) (dirid : fileid3) (fn : String) (sa : sattr3) :
      StepR ro (s, h)
        ((MirrorFS.mkdir ⟨s, ro⟩ h dirid fn sa).fs, (MirrorFS.mkdir ⟨s, ro⟩ h dirid fn sa).host)
  | symlink (s : FSMap) (h : Host) (dirid : fileid3) (fn tgt : String) (sa : sattr3) :
      StepR ro (s, h)
        ((MirrorFS.symlink ⟨s, ro⟩ h dirid fn tgt sa).fs,
         (MirrorFS.symlink ⟨s, ro⟩ h dirid fn tgt sa).host)
  | mknod (s : FSMap) (h : Host) (dirid : fileid3) (fn : String) (ft : ftype3) (sa : sattr3) :
      StepR ro (s, h)
        ((MirrorFS.mknod ⟨s, ro⟩ h dirid fn ft sa).fs,
         (MirrorFS.mknod ⟨s, ro⟩ h dirid fn ft sa).host)
  | host_change (s : FSMap) (h h1 : Host) (hok : HostOk h1) :
      StepR ro (s, h) (s, h1)

/-- Reachability along the restricted relation. -/
def ReachR (ro : Bool) (init st : FSMap × Host) : Prop :=
  Relation.ReflTransGen (StepR ro) init st

/-- Claim P1: the two maps are mutual inverses. -/
def MapsInverse (s : FSMap) : Prop :=
  (∀ i e, s.id_to_path i = some e → s.path_to_id e.name = some i) ∧
  (∀ p i, s.path_to_id p = some i → ∃ e, s.id_to_path i = some e ∧ e.name = p)

/-- Every live id is below the allocation counter. -/
def IdsBelow (s : FSMap) : Prop :=
  ∀ i, (s.id_to_path i).isSome → i < s.next_fileid

/-- A fileid is a live mount entry: its entry's symbolic path is a
single component naming some configured mount target. -/
def MountFileId (s : FSMap) (i : fileid3) : Prop :=
  ∃ e, s.id_to_path i = some e ∧
    ∃ m ∈ s.mounts, ∃ sy, s.intern.check_interned (trimSlash m.1) = some sy ∧ e.name = [sy]

/-- Claim P3 as stated: fileid 0 is present, named by the empty path,
and its children set is exactly the set of live mount fileids. -/
def RootChildrenExact (s : FSMap) : Prop :=
  ∃ e, s.id_to_path 0 = some e ∧ e.name = [] ∧
    ∃ ch, e.children = some ch ∧ ∀ i, i ∈ ch ↔ MountFileId s i

/-- Metadata used by the concrete example states. -/
def egMeta (ft : ftype3) (sz : Nat) : Meta :=
  ⟨ft, 420, 0, 0, sz, 5, 6, 7, 1⟩

/-- Example host for the `setattr` path bug: the mount source
`srv/data` and the file `srv/data/f` exist; nothing exists at the
working-directory-relative path `a/f`. -/
def c2Host : Host :=
  ⟨[(["srv", "data"], ⟨egMeta .NF3DIR 0, [], ""⟩),
    (["srv", "data", "f"], ⟨egMeta .NF3REG 5, [104, 101, 108, 108, 111], ""⟩)], 100⟩

/-- Example map: one mount `/a` over `srv/data` (fileid 1), one file
entry `a/f` (fileid 2); symbols 0 = "a", 1 = "f". -/
def c2FS : FSMap :=
  { mounts := [("/a", ["srv", "data"], false)],
    next_fileid := 3,
    intern := ⟨["a", "f"]⟩,
    id_to_path := fun i =>
      if i = 0 then some ⟨[], metadata_to_fattr3 0 (egMeta .NF3DIR 0),
        metadata_to_fattr3 0 (egMeta .NF3DIR 0), some [1]⟩
      else if i = 1 then some ⟨[0], metadata_to_fattr3 1 (egMeta .NF3DIR 0),
        metadata_to_fattr3 1 (egMeta .NF3DIR 0), some [2]⟩
      else if i = 2 then some ⟨[0, 1], metadata_to_fattr3 2 (egMeta .NF3REG 5),
        metadata_to_fattr3 2 (egMeta .NF3REG 5), none⟩
      else none,
    path_to_id := fun p =>
      if p = [] then some 0
      else if p = [0] then some 1
      else if p = [0, 1] then some 2
      else none }

/-- Host in which the working-directory-relative paths `a` and `a/f`
happen to exist as well (the only situation in which the source's
`setattr` reaches the host object). -/
def c8Host : Host :=
  ⟨[(["srv", "data"], ⟨egMeta .NF3DIR 0, [], ""⟩),
    (["srv", "data", "f"], ⟨egMeta .NF3REG 5, [104, 101, 108, 108, 111], ""⟩),
    (["a"], ⟨egMeta .NF3DIR 0, [], ""⟩),
    (["a", "f"], ⟨egMeta .NF3REG 5, [104, 101, 108, 108, 111], ""⟩)], 100⟩

/-- Map with a single mount `/a` over source `srv` and a file entry
`a/f` whose host file content has length 5 (used for the read claims). -/
def c4FS : FSMap :=
  { mounts := [("/a", ["srv"], false)],
    next_fileid := 3,
    intern := ⟨["a", "f"]⟩,
    id_to_path := fun i =>
      if i = 0 then some ⟨[], metadata_to_fattr3 0 (egMeta .NF3DIR 0),
        metadata_to_fattr3 0 (egMeta .NF3DIR 0), some [1]⟩
      else if i = 1 then some ⟨[0], metadata_to_fattr3 1 (egMeta .NF3DIR 0),
        metadata_to_fattr3 1 (egMeta .NF3DIR 0), some [2]⟩
      else if i = 2 then some ⟨[0, 1], metadata_to_fattr3 2 (egMeta .NF3REG 10),
        metadata_to_fattr3 2 (egMeta .NF3REG 10), none⟩
      else none,
    path_to_id := fun p =>
      if p = [] then some 0
      else if p = [0] then some 1
      else if p = [0, 1] then some 2
      else none }

/-- Host for the read claims: file `srv/f` holds the ten bytes 0..9. -/
def c4Host : Host :=
  ⟨[(["srv"], ⟨egMeta .NF3DIR 0, [], ""⟩),
    (["srv", "f"], ⟨egMeta .NF3REG 10, [0, 1, 2, 3, 4, 5, 6, 7, 8, 9], ""⟩)], 100⟩

/-- Map with a single read-only mount `/a` over `srv` (per-mount flag
set), same entries as `c4FS`. -/
def c5FS : FSMap :=
  { mounts := [("/a", ["srv"], true)],
    next_fileid := 3,
    intern := ⟨["a", "f"]⟩,
    id_to_path := fun i =>
      if i = 0 then some ⟨[], metadata_to_fattr3 0 (egMeta .NF3DIR 0),
        metadata_to_fattr3 0 (egMeta .NF3DIR 0), some [1]⟩
      else if i = 1 then some ⟨[0], metadata_to_fattr3 1 (egMeta .NF3DIR 0),
        metadata_to_fattr3 1 (egMeta .NF3DIR 0), some [2]⟩
      else if i = 2 then some ⟨[0, 1], metadata_to_fattr3 2 (egMeta .NF3REG 10),
        metadata_to_fattr3 2 (egMeta .NF3REG 10), none⟩
      else none,
    path_to_id := fun p =>
      if p = [] then some 0
      else if p = [0] then some 1
      else if p = [0, 1] then some 2
      else none }

-- ===================================================================
-- Theorems
-- ===================================================================

theorem fattr3_differ_self (a : fattr3) : fattr3_differ a a = false := by
  simp [fattr3_differ]

theorem mem_bsetInsert (x y : Nat) (l : List Nat) :
    y ∈ bsetInsert x l ↔ y = x ∨ y ∈ l := by
  induction l with
  | nil => simp [bsetInsert]
  | cons z zs ih =>
    unfold bsetInsert
    by_cases h1 : x < z
    · rw [if_pos h1]
      constructor
      · intro hy
        rcases List.mem_cons.mp hy with hy | hy
        · exact Or.inl hy
        · exact Or.inr hy
      · rintro (hy | hy)
        · exact List.mem_cons.mpr (Or.inl hy)
        · exact List.mem_cons.mpr (Or.inr hy)
    · rw [if_neg h1]
      by_cases h2 : x = z
      · rw [if_pos h2]
        subst h2
        constructor
        · intro hy; exact Or.inr hy
        · rintro (hy | hy)
          · exact List.mem_cons.mpr (Or.inl hy)
          · exact hy
      · rw [if_neg h2]
        constructor
        · intro hy
          rcases List.mem_cons.mp hy with hy | hy
          · exact Or.inr (List.mem_cons.mpr (Or.inl hy))
          · rcases (ih).mp hy with hy | hy
            · exact Or.inl hy
            · exact Or.inr (List.mem_cons.mpr (Or.inr hy))
        · rintro (hy | hy)
          · exact List.mem_cons.mpr (Or.inr (ih.mpr (Or.inl hy)))
          · rcases List.mem_cons.mp hy with hy | hy
            · exact List.mem_cons.mpr (Or.inl hy)
            · exact List.mem_cons.mpr (Or.inr (ih.mpr (Or.inr hy)))

theorem mem_bsetOf (x : Nat) (l : List Nat) : x ∈ bsetOf l ↔ x ∈ l := by
  suffices h : ∀ acc, x ∈ l.foldl (fun acc x => bsetInsert x acc) acc ↔ x ∈ l ∨ x ∈ acc by
    simpa [bsetOf] using h []
  induction l with
  | nil => intro acc; simp
  | cons y ys ih =>
    intro acc
    simp only [List.foldl_cons, ih, mem_bsetInsert, List.mem_cons]
    tauto

theorem alookup_append (p : RealPath) (l1 l2 : List (RealPath × HostNode)) :
    alookup p (l1 ++ l2) = ((alookup p l1).or (alookup p l2)) := by
  induction l1 with
  | nil => simp [alookup]
  | cons e es ih =>
    by_cases he : e.1 = p
    · simp [alookup, he]
    · simp [alookup, he, ih]

theorem alookup_aremove_ne (p q : RealPath) (l : List (RealPath × HostNode)) (hq : q ≠ p) :
    alookup q (aremove p l) = alookup q l := by
  induction l with
  | nil => simp [alookup, aremove]
  | cons e es ih =>
    unfold aremove
    by_cases hep : e.1 = p
    · have heq : ¬ e.1 = q := by rw [hep]; exact fun hc => hq hc.symm
      rw [if_pos hep]
      simp [alookup, heq, ih]
    · rw [if_neg hep]
      by_cases heq : e.1 = q
      · simp [alookup, heq]
      · simp [alookup, heq, ih]

theorem alookup_aremove_self (p : RealPath) (l : List (RealPath × HostNode)) :
    alookup p (aremove p l) = none := by
  induction l with
  | nil => simp [alookup, aremove]
  | cons e es ih =>
    unfold aremove
    by_cases hep : e.1 = p
    · rw [if_pos hep]; exact ih
    · rw [if_neg hep]
      simp [alookup, hep, ih]

theorem Host.lookup_set (h : Host) (p q : RealPath) (n : HostNode) :
    Host.lookup (Host.set h p n) q = if q = p then some n else Host.lookup h q := by
  unfold Host.lookup Host.set
  by_cases hq : q = p
  · subst hq
    simp [alookup_append, alookup_aremove_self, alookup]
  · simp only [if_neg hq, alookup_append, alookup_aremove_ne _ _ _ hq]
    have hnone : alookup q [(p, n)] = none := by
      simp [alookup]
      exact fun hc => hq hc.symm
    simp [hnone]

theorem Host.lookup_remove (h : Host) (p q : RealPath) :
    Host.lookup (Host.remove h p) q = if q = p then none else Host.lookup h q := by
  unfold Host.lookup Host.remove
  by_cases hq : q = p
  · subst hq
    simp [alookup_aremove_self]
  · simp [if_neg hq, alookup_aremove_ne _ _ _ hq]



/-- C2 (code slip): `setattr` applies the attribute change at the raw
symbolic-component path (`sym_to_path`), not at the host path resolved
through the mount table.  With mount `/a` over `srv/data` and entry 2
for `a/f`, the mount-resolved path `srv/data/f` exists, yet `setattr`
fails with *no-ent* (it statted the working-directory-relative `a/f`)
and changes nothing. -/
theorem C2_setattr_uses_unresolved_path :
    (MirrorFS.setattr ⟨c2FS, false⟩ c2Host 2 { mode := some 384 }).res =
      .err .NFS3ERR_NOENT ∧
    (MirrorFS.setattr ⟨c2FS, false⟩ c2Host 2 { mode := some 384 }).fs = c2FS ∧
    (MirrorFS.setattr ⟨c2FS, false⟩ c2Host 2 { mode := some 384 }).host = c2Host ∧
    FSMap.sym_to_path c2FS [0, 1] = ["a", "f"] ∧
    FSMap.sym_to_real_path c2FS [0, 1] = some (["srv", "data", "f"], false) ∧
    exists_no_traverse c2Host ["srv", "data", "f"] = true := by
  refine ⟨by decide, rfl, rfl, by decide, by decide, by decide⟩

/-- C8: `setattr` performs no read-only check.  Its outcome is
identical for any values of the global read-only flag, it never fails
with *ro-fs*, and when the entry exists and its (working-directory
relative) path exists on the host it applies the change and returns the
fresh attributes — regardless of the mount's read-only flag, which it
never consults. -/
theorem C8_setattr_ignores_read_only (m : FSMap) (h : Host) (id : fileid3)
    (sa : sattr3) (ro1 ro2 ro : Bool) :
    MirrorFS.setattr ⟨m, ro1⟩ h id sa = MirrorFS.setattr ⟨m, ro2⟩ h id sa ∧
    (MirrorFS.setattr ⟨m, ro⟩ h id sa).res ≠ .err .NFS3ERR_ROFS ∧
    (∀ entry node, m.id_to_path id = some entry →
      Host.lookup h (m.sym_to_path entry.name) = some node →
      (MirrorFS.setattr ⟨m, ro⟩ h id sa).res =
        .ok (metadata_to_fattr3 id (applySattrNode node sa h.clock).meta)) := by
  refine ⟨rfl, ?_, ?_⟩
  · unfold MirrorFS.setattr
    cases hfe : m.find_entry id with
    | error e =>
      simp only [hfe]
      have : e ≠ nfsstat3.NFS3ERR_ROFS := by
        unfold FSMap.find_entry at hfe
        cases hm : m.id_to_path id <;> simp [hm] at hfe <;> simp [← hfe]
      intro hc
      injection hc with hc2
      exact this hc2
    | ok entry =>
      simp only [hfe]
      cases hps : path_setattr h (m.sym_to_path entry.name) sa with
      | error e =>
        simp only [hps]
        have : e ≠ nfsstat3.NFS3ERR_ROFS := by
          unfold path_setattr at hps
          cases hl : Host.lookup h (m.sym_to_path entry.name) <;> simp [hl] at hps
          simp [← hps]
        intro hc
        injection hc with hc2
        exact this hc2
      | ok h1 =>
        simp only [hps]
        cases hl2 : Host.lookup h1 (m.sym_to_path entry.name) <;> simp [hl2]
  · intro entry node hfe hl
    have hfind : m.find_entry id = .ok entry := by
      unfold FSMap.find_entry
      rw [hfe]
    have hps : path_setattr h (m.sym_to_path entry.name) sa =
        .ok { nodes := aremove (m.sym_to_path entry.name) h.nodes ++
                [(m.sym_to_path entry.name, applySattrNode node sa h.clock)],
              clock := h.clock + 1 } := by
      unfold path_setattr
      rw [hl]
    unfold MirrorFS.setattr
    simp only [hfind, hps]
    have hl2 : Host.lookup
        { nodes := aremove (m.sym_to_path entry.name) h.nodes ++
            [(m.sym_to_path entry.name, applySattrNode node sa h.clock)],
          clock := h.clock + 1 } (m.sym_to_path entry.name) =
        some (applySattrNode node sa h.clock) := by
      unfold Host.lookup
      rw [alookup_append, alookup_aremove_self]
      simp [alookup]
    rw [hl2]

/-- C8 witness: with the global flag and the mount flag both set, a
concrete `setattr` still succeeds with the fresh attributes. -/
theorem C8_setattr_ignores_read_only_witness :
    (MirrorFS.setattr ⟨c2FS, true⟩ c8Host 2 { mode := some 384 }).res =
      .ok (metadata_to_fattr3 2 (applySattrNode
        ⟨egMeta .NF3REG 5, [104, 101, 108, 108, 111], ""⟩
        { mode := some 384 } 100).meta) :=
  (C8_setattr_ignores_read_only c2FS c8Host 2 { mode := some 384 } true true true).2.2
    ⟨[0, 1], metadata_to_fattr3 2 (egMeta .NF3REG 5),
      metadata_to_fattr3 2 (egMeta .NF3REG 5), none⟩
    ⟨egMeta .NF3REG 5, [104, 101, 108, 108, 111], ""⟩
    (by decide) (by decide)


/-- Helper: the general success formula of `read` for in-range (no
64-bit overflow) requests: the clamped slice and `eof = (end ≥ len)`. -/
theorem read_ok_formula (m : FSMap) (ro : Bool) (h : Host) (id : fileid3)
    (e : FSEntry) (rp : RealPath) (b : Bool) (node : HostNode)
    (offset count : Nat)
    (hfe : m.id_to_path id = some e)
    (hrp : m.sym_to_real_path e.name = some (rp, b))
    (hnode : Host.lookup h rp = some node)
    (hcount : count < 2 ^ 32)
    (hb : offset + count < 2 ^ 64) :
    MirrorFS.read ⟨m, ro⟩ h id offset count =
      .ok (slice (min offset node.content.length)
             (min (offset + count) node.content.length) node.content,
           decide (node.content.length ≤ offset + count)) := by
  have hfind : m.find_entry id = .ok e := by
    unfold FSMap.find_entry
    rw [hfe]
  unfold MirrorFS.read
  simp only [hfind, hrp, hnode]
  rw [Nat.mod_eq_of_lt hb]
  have hstart : (if node.content.length ≤ offset then node.content.length else offset) =
      min offset node.content.length := by
    split <;> omega
  have hend1 : (if node.content.length < offset + count then node.content.length
      else offset + count) = min (offset + count) node.content.length := by
    split <;> omega
  rw [hstart, hend1]
  have hbuf : (min (offset + count) node.content.length + 2 ^ 64 -
      min offset node.content.length) % 2 ^ 64 =
      min (offset + count) node.content.length - min offset node.content.length := by
    omega
  rw [hbuf]
  have hnp : ¬ (isizeMax < min (offset + count) node.content.length -
      min offset node.content.length) := by
    unfold isizeMax
    omega
  rw [if_neg hnp]
  have hre : min offset node.content.length +
      (min (offset + count) node.content.length - min offset node.content.length) ≤
      node.content.length := by
    omega
  rw [if_pos hre]
  have hsum : min offset node.content.length +
      (min (offset + count) node.content.length - min offset node.content.length) =
      min (offset + count) node.content.length := by
    omega
  rw [hsum]

/-- C10: for an open-able regular file of length L, every offset ≥ L
and every count with `offset + count ≤ 2^64 - 1`, `read` succeeds with
an empty byte vector and `eof = true`. -/
theorem C10_read_past_end (m : FSMap) (ro : Bool) (h : Host) (id : fileid3)
    (e : FSEntry) (rp : RealPath) (b : Bool) (node : HostNode)
    (offset count : Nat)
    (hfe : m.id_to_path id = some e)
    (hrp : m.sym_to_real_path e.name = some (rp, b))
    (hnode : Host.lookup h rp = some node)
    (hreg : node.meta.ftype = .NF3REG)
    (hoff : node.content.length ≤ offset)
    (hb : offset + count ≤ 2 ^ 64 - 1) :
    MirrorFS.read ⟨m, ro⟩ h id offset count = .ok ([], true) := by
  have hfind : m.find_entry id = .ok e := by
    unfold FSMap.find_entry
    rw [hfe]
  unfold MirrorFS.read
  simp only [hfind, hrp, hnode]
  have hlt : offset + count < 2 ^ 64 := by omega
  rw [Nat.mod_eq_of_lt hlt]
  rw [if_pos hoff]
  have hend1 : (if node.content.length < offset + count then node.content.length
      else offset + count) = node.content.length := by
    split <;> omega
  rw [hend1]
  have hbuf : (node.content.length + 2 ^ 64 - node.content.length) % 2 ^ 64 = 0 := by
    omega
  rw [hbuf]
  have hnp : ¬ (isizeMax < 0) := by omega
  rw [if_neg hnp]
  rw [if_pos (by omega : node.content.length + 0 ≤ node.content.length)]
  have heof : decide (node.content.length ≤ offset + count) = true :=
    decide_eq_true (by omega)
  rw [heof]
  have hsl : slice node.content.length (node.content.length + 0) node.content = [] := by
    unfold slice
    simp
  rw [hsl]

/-- C10 witness: reading 4 bytes at offset 12 of the ten-byte file
returns `([], eof = true)`. -/
theorem C10_read_past_end_witness :
    MirrorFS.read ⟨c4FS, false⟩ c4Host 2 12 4 = .ok ([], true) :=
  C10_read_past_end c4FS false c4Host 2
    ⟨[0, 1], metadata_to_fattr3 2 (egMeta .NF3REG 10),
      metadata_to_fattr3 2 (egMeta .NF3REG 10), none⟩
    ["srv", "f"] false ⟨egMeta .NF3REG 10, [0, 1, 2, 3, 4, 5, 6, 7, 8, 9], ""⟩
    12 4 (by decide) (by decide) (by decide) (by decide) (by decide) (by norm_num)

/-- C4 counterexample: the claim quantifies over *every*
`(offset, count)`, but a request whose 64-bit `offset + count` wraps
(here offset = 2^64 - 1, count = 2, on a ten-byte file) makes the
handler build a buffer of wrapped length `2^64 - 9` and panic with a
capacity overflow instead of returning the clamped byte range the
claim promises. -/
theorem C4_read_roundtrip_counterexample :
    MirrorFS.read ⟨c4FS, false⟩ c4Host 2 (2 ^ 64 - 1) 2 = .panicked ∧
    OpRes.panicked ≠
      OpRes.ok (slice (min (2 ^ 64 - 1) 10) (min (2 ^ 64 - 1 + 2) 10)
          [0, 1, 2, 3, 4, 5, 6, 7, 8, 9],
        decide ((10 : Nat) ≤ 2 ^ 64 - 1 + 2)) := by
  exact ⟨by decide, by decide⟩

/-- Helper: concatenating the two clamped slices of consecutive reads
reconstructs the tail of the file once the second read's end reaches
the length. -/
theorem slice_concat (l : List Nat) (o c c2 : Nat) (hL : l.length ≤ o + c + c2) :
    slice (min o l.length) (min (o + c) l.length) l ++
      slice (min (o + c) l.length) (min (o + c + c2) l.length) l = l.drop o := by
  by_cases hoL : l.length ≤ o
  · have h1 : min o l.length = l.length := by omega
    have h2 : min (o + c) l.length = l.length := by omega
    have h3 : min (o + c + c2) l.length = l.length := by omega
    rw [h1, h2, h3]
    unfold slice
    rw [List.drop_eq_nil_of_le (le_refl l.length)]
    rw [List.drop_eq_nil_of_le hoL]
    simp
  · have h1 : min o l.length = o := by omega
    have h3 : min (o + c + c2) l.length = l.length := by omega
    rw [h1, h3]
    by_cases hcL : o + c ≤ l.length
    · have h2 : min (o + c) l.length = o + c := by omega
      rw [h2]
      unfold slice
      have hc : o + c - o = c := by omega
      have hl2 : l.length - (o + c) ≥ (l.drop (o + c)).length := by
        rw [List.length_drop]
      have htake : (l.drop (o + c)).take (l.length - (o + c)) = l.drop (o + c) := by
        apply List.take_of_length_le
        rw [List.length_drop]
      rw [hc, htake]
      exact List.drop_take_append_drop l o c
    · have h2 : min (o + c) l.length = l.length := by omega
      rw [h2]
      unfold slice
      have htake : (l.drop o).take (l.length - o) = l.drop o := by
        apply List.take_of_length_le
        rw [List.length_drop]
      rw [htake]
      rw [List.drop_eq_nil_of_le (le_refl l.length)]
      simp

/-- C4 (amended with the bound `offset + count ≤ 2^64 - 1`, which the
overflow counterexample forces; the source types give `count < 2^32`):
`read` returns exactly the bytes of `[min(offset, L), min(offset+count, L))`
with `eof` true iff `offset + count ≥ L`; a subsequent read at
`offset + count` obeys the same formula, and when the second read's end
reaches L, the concatenation reconstructs `bytes[offset..L]`. -/
theorem C4_read_roundtrip_amended (m : FSMap) (ro : Bool) (h : Host) (id : fileid3)
    (e : FSEntry) (rp : RealPath) (b : Bool) (node : HostNode)
    (offset count count2 : Nat)
    (hfe : m.id_to_path id = some e)
    (hrp : m.sym_to_real_path e.name = some (rp, b))
    (hnode : Host.lookup h rp = some node)
    (hreg : node.meta.ftype = .NF3REG)
    (hcount : count < 2 ^ 32)
    (hcount2 : count2 < 2 ^ 32)
    (hb2 : offset + count + count2 ≤ 2 ^ 64 - 1) :
    (MirrorFS.read ⟨m, ro⟩ h id offset count =
      .ok (slice (min offset node.content.length)
             (min (offset + count) node.content.length) node.content,
           decide (node.content.length ≤ offset + count))) ∧
    (MirrorFS.read ⟨m, ro⟩ h id (offset + count) count2 =
      .ok (slice (min (offset + count) node.content.length)
             (min (offset + count + count2) node.content.length) node.content,
           decide (node.content.length ≤ offset + count + count2))) ∧
    (node.content.length ≤ offset + count + count2 →
      slice (min offset node.content.length)
          (min (offset + count) node.content.length) node.content ++
        slice (min (offset + count) node.content.length)
          (min (offset + count + count2) node.content.length) node.content =
        node.content.drop offset) := by
  refine ⟨read_ok_formula m ro h id e rp b node offset count hfe hrp hnode hcount
      (by omega),
    read_ok_formula m ro h id e rp b node (offset + count) count2 hfe hrp hnode hcount2
      (by omega), ?_⟩
  intro hL
  exact slice_concat node.content offset count count2 hL

/-- C4 witness: on the ten-byte file, reading (offset 3, count 4) then
(offset 7, count 4) returns the two clamped slices with the right eof
flags, and their concatenation is `bytes[3..10]`. -/
theorem C4_read_roundtrip_amended_witness :
    MirrorFS.read ⟨c4FS, false⟩ c4Host 2 3 4 = .ok ([3, 4, 5, 6], false) ∧
    MirrorFS.read ⟨c4FS, false⟩ c4Host 2 7 4 = .ok ([7, 8, 9], true) ∧
    [3, 4, 5, 6] ++ [7, 8, 9] = List.drop 3 [0, 1, 2, 3, 4, 5, 6, 7, 8, 9] := by
  obtain ⟨h1, h2, h3⟩ := C4_read_roundtrip_amended c4FS false c4Host 2
    ⟨[0, 1], metadata_to_fattr3 2 (egMeta .NF3REG 10),
      metadata_to_fattr3 2 (egMeta .NF3REG 10), none⟩
    ["srv", "f"] false ⟨egMeta .NF3REG 10, [0, 1, 2, 3, 4, 5, 6, 7, 8, 9], ""⟩
    3 4 4 (by decide) (by decide) (by decide) (by decide) (by decide) (by decide)
    (by norm_num)
  refine ⟨?_, ?_, ?_⟩
  · rw [h1]; decide
  · rw [h2]; decide
  · rw [← h3 (by decide)]; decide

/-- Helper: the delete fold never resurrects an id. -/
theorem delFold_id_none (l : List fileid3) (acc : FSMap) (j : fileid3)
    (hj : acc.id_to_path j = none) : ((l.foldl delStep acc).id_to_path j) = none := by
  induction l generalizing acc with
  | nil => exact hj
  | cons i tl ih =>
    apply ih
    unfold delStep
    cases hcur : acc.id_to_path i with
    | some ent =>
      by_cases hji : j = i
      · simp [hji]
      · simp [hji, hj]
    | none => exact hj

/-- Helper: the delete fold never resurrects a path binding. -/
theorem delFold_path_none (l : List fileid3) (acc : FSMap) (p : SymPath)
    (hp : acc.path_to_id p = none) : ((l.foldl delStep acc).path_to_id p) = none := by
  induction l generalizing acc with
  | nil => exact hp
  | cons i tl ih =>
    apply ih
    unfold delStep
    cases hcur : acc.id_to_path i with
    | some ent =>
      by_cases hpn : p = ent.name
      · simp [hpn]
      · simp [hpn, hp]
    | none => exact hp

/-- Helper: the delete fold only removes ids. -/
theorem delFold_id_sub (l : List fileid3) (acc : FSMap) (j : fileid3) :
    ((l.foldl delStep acc).id_to_path j) = acc.id_to_path j ∨
    ((l.foldl delStep acc).id_to_path j) = none := by
  induction l generalizing acc with
  | nil => exact Or.inl rfl
  | cons i tl ih =>
    rcases ih (delStep acc i) with hcase | hcase
    · rw [List.foldl_cons]
      rw [hcase]
      unfold delStep
      cases hcur : acc.id_to_path i with
      | some ent =>
        by_cases hji : j = i
        · simp [hji]
        · simp [hji]
      | none => exact Or.inl rfl
    · rw [List.foldl_cons]
      exact Or.inr hcase

/-- Helper: every listed id is gone after the fold. -/
theorem delFold_mem_none (l : List fileid3) (acc : FSMap) (j : fileid3)
    (hj : j ∈ l) : ((l.foldl delStep acc).id_to_path j) = none := by
  induction l generalizing acc with
  | nil => cases hj
  | cons i tl ih =>
    rw [List.foldl_cons]
    rcases List.mem_cons.mp hj with hji | hjt
    · subst hji
      apply delFold_id_none
      unfold delStep
      cases hcur : acc.id_to_path j with
      | some ent => simp
      | none => exact hcur
    · exact ih (delStep acc i) hjt

/-- Helper: ids outside the list keep their entries. -/
theorem delFold_id_frame (l : List fileid3) (acc : FSMap) (j : fileid3)
    (hj : j ∉ l) : ((l.foldl delStep acc).id_to_path j) = acc.id_to_path j := by
  induction l generalizing acc with
  | nil => rfl
  | cons i tl ih =>
    rw [List.foldl_cons]
    have hji : j ≠ i := fun hc => hj (hc ▸ List.mem_cons_self i tl)
    have hjt : j ∉ tl := fun hc => hj (List.mem_cons_of_mem i hc)
    rw [ih (delStep acc i) hjt]
    unfold delStep
    cases hcur : acc.id_to_path i with
    | some ent => simp [hji]
    | none => rfl

/-- Helper: one delete step only removes ids. -/
theorem delStep_id_sub (acc : FSMap) (i j : fileid3) :
    (delStep acc i).id_to_path j = acc.id_to_path j ∨
    (delStep acc i).id_to_path j = none := by
  unfold delStep
  cases hcur : acc.id_to_path i with
  | some ent =>
    by_cases hji : j = i
    · subst hji
      simp
    · simp [hji]
  | none => exact Or.inl rfl

/-- Helper: for a listed id whose entry is present, the fold removes
that entry's path binding. -/
theorem delFold_path_removed (l : List fileid3) (acc : FSMap) (j : fileid3)
    (ej : FSEntry) (hj : j ∈ l) (he : acc.id_to_path j = some ej) :
    ((l.foldl delStep acc).path_to_id ej.name) = none := by
  induction l generalizing acc with
  | nil => cases hj
  | cons i tl ih =>
    rw [List.foldl_cons]
    by_cases hji : j = i
    · subst hji
      apply delFold_path_none
      unfold delStep
      rw [he]
      simp
    · rcases List.mem_cons.mp hj with hc | hjt
      · exact absurd hc hji
      · apply ih (delStep acc i) hjt
        unfold delStep
        cases hcur : acc.id_to_path i with
        | some ent =>
          simp only [if_neg hji]
          exact he
        | none => exact he

/-- Helper: a path named by no listed live entry keeps its binding. -/
theorem delFold_path_frame (l : List fileid3) (acc : FSMap) (p : SymPath)
    (hp : ∀ j ∈ l, ∀ ej, acc.id_to_path j = some ej → ej.name ≠ p) :
    ((l.foldl delStep acc).path_to_id p) = acc.path_to_id p := by
  induction l generalizing acc with
  | nil => rfl
  | cons i tl ih =>
    rw [List.foldl_cons]
    have hstep : (delStep acc i).path_to_id p = acc.path_to_id p := by
      unfold delStep
      cases hcur : acc.id_to_path i with
      | some ent =>
        have hne : ¬ p = ent.name :=
          fun hc => (hp i (List.mem_cons_self i tl) ent hcur) hc.symm
        simp only [if_neg hne]
      | none => rfl
    rw [← hstep]
    apply ih
    intro j hjt ej hje
    rcases delStep_id_sub acc i j with hs | hs
    · rw [hs] at hje
      exact hp j (List.mem_cons_of_mem i hjt) ej hje
    · rw [hs] at hje
      cases hje

/-- Helper: other fields survive the delete fold. -/
theorem delFold_misc (l : List fileid3) (acc : FSMap) :
    ((l.foldl delStep acc).mounts) = acc.mounts ∧
    ((l.foldl delStep acc).next_fileid) = acc.next_fileid ∧
    ((l.foldl delStep acc).intern) = acc.intern := by
  induction l generalizing acc with
  | nil => exact ⟨rfl, rfl, rfl⟩
  | cons i tl ih =>
    rw [List.foldl_cons]
    have hstep : (delStep acc i).mounts = acc.mounts ∧
        (delStep acc i).next_fileid = acc.next_fileid ∧
        (delStep acc i).intern = acc.intern := by
      unfold delStep
      cases acc.id_to_path i with
      | some ent => exact ⟨rfl, rfl, rfl⟩
      | none => exact ⟨rfl, rfl, rfl⟩
    obtain ⟨h1, h2, h3⟩ := ih (delStep acc i)
    obtain ⟨g1, g2, g3⟩ := hstep
    exact ⟨h1.trans g1, h2.trans g2, h3.trans g3⟩


/-- Helper: every collection starts with the id itself. -/
theorem collectAll_self_mem (s : FSMap) (fuel : Nat) (c : fileid3) :
    c ∈ collectAll s fuel c := by
  cases fuel with
  | zero => unfold collectAll; exact List.mem_cons_self _ _
  | succ n => unfold collectAll; exact List.mem_cons_self _ _

/-- Helper: the collected list starts with the id. -/
theorem collect_head (s : FSMap) (id : fileid3) :
    id ∈ s.collect_all_children id := by
  unfold FSMap.collect_all_children
  unfold collectAll
  exact List.mem_cons_self _ _

/-- Helper: the cached immediate children are collected. -/
theorem collect_children (s : FSMap) (id : fileid3) (e : FSEntry) (ch : List fileid3)
    (he : s.id_to_path id = some e) (hch : e.children = some ch) :
    ∀ c ∈ ch, c ∈ s.collect_all_children id := by
  intro c hc
  unfold FSMap.collect_all_children
  unfold collectAll
  apply List.mem_cons_of_mem
  simp only [he, hch]
  exact List.mem_flatMap.mpr ⟨c, hc, collectAll_self_mem s s.next_fileid c⟩

/-- C9: `delete_entry(id)` removes exactly the collected ids (the id
itself, and transitively the cached children) from the id map and their
entries' symbolic paths from the path map, and modifies nothing else:
mounts, counter and interner are untouched, every uncollected entry is
bitwise unchanged — in particular a parent directory's children set
still contains the deleted fileid afterwards. -/
theorem C9_delete_entry_frame (s : FSMap) (id : fileid3) :
    id ∈ s.collect_all_children id ∧
    (∀ e ch, s.id_to_path id = some e → e.children = some ch → ∀ c ∈ ch,
      c ∈ s.collect_all_children id) ∧
    (∀ j ∈ s.collect_all_children id, (s.delete_entry id).id_to_path j = none) ∧
    (∀ j, j ∉ s.collect_all_children id →
      (s.delete_entry id).id_to_path j = s.id_to_path j) ∧
    (∀ j ∈ s.collect_all_children id, ∀ ej, s.id_to_path j = some ej →
      (s.delete_entry id).path_to_id ej.name = none) ∧
    (∀ p, (∀ j ∈ s.collect_all_children id, ∀ ej, s.id_to_path j = some ej →
        ej.name ≠ p) → (s.delete_entry id).path_to_id p = s.path_to_id p) ∧
    (s.delete_entry id).mounts = s.mounts ∧
    (s.delete_entry id).next_fileid = s.next_fileid ∧
    (s.delete_entry id).intern = s.intern ∧
    (∀ pid pe, pid ∉ s.collect_all_children id → s.id_to_path pid = some pe →
      id ∈ pe.children.getD [] →
      (s.delete_entry id).id_to_path pid = some pe ∧ id ∈ pe.children.getD []) := by
  obtain ⟨hm1, hm2, hm3⟩ := delFold_misc (s.collect_all_children id) s
  refine ⟨collect_head s id, fun e ch he hch => collect_children s id e ch he hch, ?_, ?_, ?_, ?_, hm1, hm2, hm3, ?_⟩
  · intro j hj
    exact delFold_mem_none _ s j hj
  · intro j hj
    exact delFold_id_frame _ s j hj
  · intro j hj ej hje
    exact delFold_path_removed _ s j ej hj hje
  · intro p hp
    exact delFold_path_frame _ s p hp
  · intro pid pe hpid hpe hmem
    exact ⟨(delFold_id_frame _ s pid hpid).trans hpe, hmem⟩

/-- C9 witness: deleting the file entry 2 removes it and its path
binding, while its parent (the mount entry 1) is unchanged and its
children set still contains 2; counter, mounts and interner survive. -/
theorem C9_delete_entry_frame_witness :
    (c4FS.delete_entry 2).id_to_path 2 = none ∧
    (c4FS.delete_entry 2).path_to_id [0, 1] = none ∧
    (c4FS.delete_entry 2).id_to_path 1 = c4FS.id_to_path 1 ∧
    (c4FS.delete_entry 2).path_to_id [0] = c4FS.path_to_id [0] ∧
    (c4FS.delete_entry 2).next_fileid = c4FS.next_fileid := by
  obtain ⟨h1, h2, h3, h4, h5, h6, h7, h8, h9, h10⟩ := C9_delete_entry_frame c4FS 2
  refine ⟨h3 2 (by decide), ?_, h4 1 (by decide), ?_, h8⟩
  · have := h5 2 (by decide)
      ⟨[0, 1], metadata_to_fattr3 2 (egMeta .NF3REG 10),
        metadata_to_fattr3 2 (egMeta .NF3REG 10), none⟩ (by decide)
    exact this
  · apply h6
    intro j hj ej hje
    have hcl : c4FS.collect_all_children 2 = [2] := by decide
    rw [hcl] at hj
    have hj2 : j = 2 := by simpa using hj
    subst hj2
    have : ej = ⟨[0, 1], metadata_to_fattr3 2 (egMeta .NF3REG 10),
        metadata_to_fattr3 2 (egMeta .NF3REG 10), none⟩ := by
      have hc : c4FS.id_to_path 2 = some ⟨[0, 1], metadata_to_fattr3 2 (egMeta .NF3REG 10),
          metadata_to_fattr3 2 (egMeta .NF3REG 10), none⟩ := by decide
      rw [hc] at hje
      injection hje with hje2
      exact hje2.symm
    rw [this]
    decide

/-- Host for the type-flip scenario: the file `srv/f` has been replaced
out-of-band by a directory of the same name. -/
def c6Host : Host :=
  ⟨[(["srv"], ⟨egMeta .NF3DIR 0, [], ""⟩),
    (["srv", "f"], ⟨egMeta .NF3DIR 0, [], ""⟩)], 100⟩

/-- C6: when the entry resolves to an existing host path whose fresh
no-traverse stat reports a different file type than the cached one,
`refresh_entry` deletes the entry together with its collected
descendants from both maps and returns `Delete` instead of updating in
place. -/
theorem C6_type_flip_deletes (s : FSMap) (h : Host) (id : fileid3)
    (e : FSEntry) (rp : RealPath) (b : Bool) (node : HostNode)
    (hfe : s.id_to_path id = some e)
    (hrp : s.sym_to_real_path e.name = some (rp, b))
    (hnode : Host.lookup h rp = some node)
    (hty : e.fsmeta.meta.ftype ≠ node.meta.ftype) :
    s.refresh_entry h id = .ok (.Delete, s.delete_entry id) ∧
    (s.delete_entry id).id_to_path id = none ∧
    (∀ j ∈ s.collect_all_children id, (s.delete_entry id).id_to_path j = none) ∧
    (∀ j ∈ s.collect_all_children id, ∀ ej, s.id_to_path j = some ej →
      (s.delete_entry id).path_to_id ej.name = none) := by
  have hex : exists_no_traverse h rp = true := by
    unfold exists_no_traverse
    rw [hnode]
    rfl
  have hdiff : fattr3_differ (metadata_to_fattr3 id node.meta) e.fsmeta = true := by
    unfold fattr3_differ
    exact decide_eq_true (Or.inl (by
      simp only [metadata_to_fattr3]
      exact fun hc => hty hc.symm))
  constructor
  · unfold FSMap.refresh_entry
    simp only [hfe, hrp, hex, hnode, hdiff]
    rw [if_neg (fun hn => hn trivial)]
    rw [if_neg (fun hn => hn trivial)]
    rw [if_pos hty]
  · refine ⟨delFold_mem_none _ s id (collect_head s id), ?_, ?_⟩
    · intro j hj
      exact delFold_mem_none _ s j hj
    · intro j hj ej hje
      exact delFold_path_removed _ s j ej hj hje

/-- C6 witness: the cached regular file 2 whose host object is now a
directory is hard-deleted by `refresh_entry` together with its path
binding. -/
theorem C6_type_flip_deletes_witness :
    c4FS.refresh_entry c6Host 2 = .ok (.Delete, c4FS.delete_entry 2) ∧
    (c4FS.delete_entry 2).id_to_path 2 = none ∧
    (c4FS.delete_entry 2).path_to_id [0, 1] = none := by
  obtain ⟨h1, h2, h3, h4⟩ := C6_type_flip_deletes c4FS c6Host 2
    ⟨[0, 1], metadata_to_fattr3 2 (egMeta .NF3REG 10),
      metadata_to_fattr3 2 (egMeta .NF3REG 10), none⟩
    ["srv", "f"] false ⟨egMeta .NF3DIR 0, [], ""⟩
    (by decide) (by decide) (by decide) (by decide)
  exact ⟨h1, h2, h4 2 (by decide)
    ⟨[0, 1], metadata_to_fattr3 2 (egMeta .NF3REG 10),
      metadata_to_fattr3 2 (egMeta .NF3REG 10), none⟩ (by decide)⟩


/-- C5 counterexample: with the global read-only flag set, `mknod` for
a non-device type (here a regular file) fails with *bad-type*, not with
*ro-fs* or *acces* as the claim states for every listed operation. -/
theorem C5_read_only_counterexample :
    (MirrorFS.mknod ⟨c4FS, true⟩ c4Host 1 "x" .NF3REG {}).res =
      .err .NFS3ERR_BADTYPE ∧
    (OpRes.err .NFS3ERR_BADTYPE : OpRes (fileid3 × fattr3)) ≠ .err .NFS3ERR_ROFS ∧
    (OpRes.err .NFS3ERR_BADTYPE : OpRes (fileid3 × fattr3)) ≠ .err .NFS3ERR_ACCES := by
  exact ⟨rfl, by decide, by decide⟩

/-- Helper: `create_fs_object` under a read-only mount fails with
*ro-fs* and changes nothing, for any global flag. -/
theorem create_fs_object_ro_mount (m : FSMap) (h : Host) (dirid : fileid3)
    (fn : String) (obj : CreateFSObject) (e : FSEntry) (rp : RealPath) (ro : Bool)
    (hfe : m.id_to_path dirid = some e)
    (hrp : m.sym_to_real_path e.name = some (rp, true)) :
    MirrorFS.create_fs_object ⟨m, ro⟩ h dirid fn obj = ⟨.err .NFS3ERR_ROFS, m, h⟩ := by
  have hfind : m.find_entry dirid = .ok e := by
    unfold FSMap.find_entry
    rw [hfe]
  cases ro with
  | true => rfl
  | false =>
    unfold MirrorFS.create_fs_object
    simp only [hfind, hrp]
    rfl

/-- C5 (amended: `mknod` joins the list only for the device, socket
and fifo types it accepts; for any other type it fails with *bad-type*
— also read-only-independently — before touching any state).  With the
global flag set, or when the operation's target directory (for rename:
either parent; for link: the link directory) resolves to a read-only
mount, each of write, create, create_exclusive, remove, rename, mkdir,
symlink, device-mknod and link fails with *ro-fs* and leaves the map,
the counter, the interner and the host bitwise unchanged. -/
theorem C5_read_only_enforcement (m : FSMap) (h : Host) :
    (∀ id off data, MirrorFS.write ⟨m, true⟩ h id off data = ⟨.err .NFS3ERR_ROFS, m, h⟩) ∧
    (∀ dirid fn sa, MirrorFS.create ⟨m, true⟩ h dirid fn sa = ⟨.err .NFS3ERR_ROFS, m, h⟩) ∧
    (∀ dirid fn, MirrorFS.create_exclusive ⟨m, true⟩ h dirid fn = ⟨.err .NFS3ERR_ROFS, m, h⟩) ∧
    (∀ dirid fn, MirrorFS.remove ⟨m, true⟩ h dirid fn = ⟨.err .NFS3ERR_ROFS, m, h⟩) ∧
    (∀ fd fn td tn, MirrorFS.rename ⟨m, true⟩ h fd fn td tn = ⟨.err .NFS3ERR_ROFS, m, h⟩) ∧
    (∀ dirid fn sa, MirrorFS.mkdir ⟨m, true⟩ h dirid fn sa = ⟨.err .NFS3ERR_ROFS, m, h⟩) ∧
    (∀ dirid fn tgt sa,
      MirrorFS.symlink ⟨m, true⟩ h dirid fn tgt sa = ⟨.err .NFS3ERR_ROFS, m, h⟩) ∧
    (∀ dirid fn ft sa, (ft = ftype3.NF3CHR ∨ ft = ftype3.NF3BLK ∨
        ft = ftype3.NF3SOCK ∨ ft = ftype3.NF3FIFO) →
      MirrorFS.mknod ⟨m, true⟩ h dirid fn ft sa = ⟨.err .NFS3ERR_ROFS, m, h⟩) ∧
    (∀ ro dirid fn ft sa, (ft = ftype3.NF3REG ∨ ft = ftype3.NF3DIR ∨ ft = ftype3.NF3LNK) →
      MirrorFS.mknod ⟨m, ro⟩ h dirid fn ft sa = ⟨.err .NFS3ERR_BADTYPE, m, h⟩) ∧
    (∀ fid ld fn, MirrorFS.link ⟨m, true⟩ h fid ld fn = ⟨.err .NFS3ERR_ROFS, m, h⟩) ∧
    (∀ ro id off data e rp, m.id_to_path id = some e →
      m.sym_to_real_path e.name = some (rp, true) →
      MirrorFS.write ⟨m, ro⟩ h id off data = ⟨.err .NFS3ERR_ROFS, m, h⟩) ∧
    (∀ ro dirid fn sa e rp, m.id_to_path dirid = some e →
      m.sym_to_real_path e.name = some (rp, true) →
      MirrorFS.create ⟨m, ro⟩ h dirid fn sa = ⟨.err .NFS3ERR_ROFS, m, h⟩) ∧
    (∀ ro dirid fn e rp, m.id_to_path dirid = some e →
      m.sym_to_real_path e.name = some (rp, true) →
      MirrorFS.create_exclusive ⟨m, ro⟩ h dirid fn = ⟨.err .NFS3ERR_ROFS, m, h⟩) ∧
    (∀ ro dirid fn e rp, m.id_to_path dirid = some e →
      m.sym_to_real_path e.name = some (rp, true) →
      MirrorFS.remove ⟨m, ro⟩ h dirid fn = ⟨.err .NFS3ERR_ROFS, m, h⟩) ∧
    (∀ ro dirid fn sa e rp, m.id_to_path dirid = some e →
      m.sym_to_real_path e.name = some (rp, true) →
      MirrorFS.mkdir ⟨m, ro⟩ h dirid fn sa = ⟨.err .NFS3ERR_ROFS, m, h⟩) ∧
    (∀ ro dirid fn tgt sa e rp, m.id_to_path dirid = some e →
      m.sym_to_real_path e.name = some (rp, true) →
      MirrorFS.symlink ⟨m, ro⟩ h dirid fn tgt sa = ⟨.err .NFS3ERR_ROFS, m, h⟩) ∧
    (∀ ro dirid fn ft sa e rp, (ft = ftype3.NF3CHR ∨ ft = ftype3.NF3BLK ∨
        ft = ftype3.NF3SOCK ∨ ft = ftype3.NF3FIFO) →
      m.id_to_path dirid = some e →
      m.sym_to_real_path e.name = some (rp, true) →
      MirrorFS.mknod ⟨m, ro⟩ h dirid fn ft sa = ⟨.err .NFS3ERR_ROFS, m, h⟩) ∧
    (∀ ro fd fn td tn fde tde fp tp bf bt,
      m.id_to_path fd = some fde → m.sym_to_real_path fde.name = some (fp, bf) →
      m.id_to_path td = some tde → m.sym_to_real_path tde.name = some (tp, bt) →
      (bf = true ∨ bt = true) →
      MirrorFS.rename ⟨m, ro⟩ h fd fn td tn = ⟨.err .NFS3ERR_ROFS, m, h⟩) ∧
    (∀ ro fid ld fn fe le fp lp b,
      m.id_to_path fid = some fe → m.sym_to_real_path fe.name = some (fp, b) →
      m.id_to_path ld = some le → m.sym_to_real_path le.name = some (lp, true) →
      MirrorFS.link ⟨m, ro⟩ h fid ld fn = ⟨.err .NFS3ERR_ROFS, m, h⟩) := by
  refine ⟨fun id off data => rfl, fun dirid fn sa => rfl, fun dirid fn => rfl,
    fun dirid fn => rfl, fun fd fn td tn => rfl, fun dirid fn sa => rfl,
    fun dirid fn tgt sa => rfl, ?_, ?_, fun fid ld fn => rfl,
    ?_, ?_, ?_, ?_, ?_, ?_, ?_, ?_, ?_⟩
  · intro dirid fn ft sa hft
    rcases hft with hf | hf | hf | hf <;> subst hf <;> rfl
  · intro ro dirid fn ft sa hft
    rcases hft with hf | hf | hf <;> subst hf <;> rfl
  · intro ro id off data e rp hfe hrp
    have hfind : m.find_entry id = .ok e := by
      unfold FSMap.find_entry
      rw [hfe]
    cases ro with
    | true => rfl
    | false =>
      unfold MirrorFS.write
      simp only [hfind, hrp]
      rfl
  · intro ro dirid fn sa e rp hfe hrp
    exact create_fs_object_ro_mount m h dirid fn (.File sa) e rp ro hfe hrp
  · intro ro dirid fn e rp hfe hrp
    unfold MirrorFS.create_exclusive
    rw [create_fs_object_ro_mount m h dirid fn .Exclusive e rp ro hfe hrp]
  · intro ro dirid fn e rp hfe hrp
    have hfind : m.find_entry dirid = .ok e := by
      unfold FSMap.find_entry
      rw [hfe]
    cases ro with
    | true => rfl
    | false =>
      unfold MirrorFS.remove
      simp only [hfind, hrp]
      rfl
  · intro ro dirid fn sa e rp hfe hrp
    exact create_fs_object_ro_mount m h dirid fn .Directory e rp ro hfe hrp
  · intro ro dirid fn tgt sa e rp hfe hrp
    exact create_fs_object_ro_mount m h dirid fn (.Symlink sa tgt) e rp ro hfe hrp
  · intro ro dirid fn ft sa e rp hft hfe hrp
    rcases hft with hf | hf | hf | hf <;> subst hf <;>
      exact create_fs_object_ro_mount m h dirid fn (.File sa) e rp ro hfe hrp
  · intro ro fd fn td tn fde tde fp tp bf bt hfde hfp htde htp hb
    have hfind1 : m.find_entry fd = .ok fde := by
      unfold FSMap.find_entry
      rw [hfde]
    have hfind2 : m.find_entry td = .ok tde := by
      unfold FSMap.find_entry
      rw [htde]
    cases ro with
    | true => rfl
    | false =>
      unfold MirrorFS.rename
      simp only [hfind1, hfind2, hfp, htp]
      rw [if_pos hb]
      rfl
  · intro ro fid ld fn fe le fp lp b hfe hfp hle hlp
    have hfind1 : m.find_entry fid = .ok fe := by
      unfold FSMap.find_entry
      rw [hfe]
    have hfind2 : m.find_entry ld = .ok le := by
      unfold FSMap.find_entry
      rw [hle]
    cases ro with
    | true => rfl
    | false =>
      unfold MirrorFS.link
      simp only [hfind1, hfind2, hfp, hlp]
      rfl


/-- C5 witness: concrete invocations under the global flag (`c4FS`,
read_only = true) and under the per-mount flag (`c5FS`, whose single
mount is read-only): each fails with *ro-fs* (or, for non-device mknod,
*bad-type*) leaving map and host untouched. -/
theorem C5_read_only_enforcement_witness :
    MirrorFS.write ⟨c4FS, true⟩ c4Host 2 0 [1] = ⟨.err .NFS3ERR_ROFS, c4FS, c4Host⟩ ∧
    MirrorFS.mknod ⟨c4FS, true⟩ c4Host 1 "d" .NF3CHR {} = ⟨.err .NFS3ERR_ROFS, c4FS, c4Host⟩ ∧
    MirrorFS.mknod ⟨c4FS, false⟩ c4Host 1 "d" .NF3REG {} =
      ⟨.err .NFS3ERR_BADTYPE, c4FS, c4Host⟩ ∧
    MirrorFS.write ⟨c5FS, false⟩ c4Host 2 0 [1] = ⟨.err .NFS3ERR_ROFS, c5FS, c4Host⟩ ∧
    MirrorFS.create ⟨c5FS, false⟩ c4Host 1 "x" {} = ⟨.err .NFS3ERR_ROFS, c5FS, c4Host⟩ ∧
    MirrorFS.create_exclusive ⟨c5FS, false⟩ c4Host 1 "x" =
      ⟨.err .NFS3ERR_ROFS, c5FS, c4Host⟩ ∧
    MirrorFS.remove ⟨c5FS, false⟩ c4Host 1 "f" = ⟨.err .NFS3ERR_ROFS, c5FS, c4Host⟩ ∧
    MirrorFS.mkdir ⟨c5FS, false⟩ c4Host 1 "x" {} = ⟨.err .NFS3ERR_ROFS, c5FS, c4Host⟩ ∧
    MirrorFS.symlink ⟨c5FS, false⟩ c4Host 1 "x" "t" {} =
      ⟨.err .NFS3ERR_ROFS, c5FS, c4Host⟩ ∧
    MirrorFS.mknod ⟨c5FS, false⟩ c4Host 1 "x" .NF3FIFO {} =
      ⟨.err .NFS3ERR_ROFS, c5FS, c4Host⟩ ∧
    MirrorFS.rename ⟨c5FS, false⟩ c4Host 1 "f" 1 "g" = ⟨.err .NFS3ERR_ROFS, c5FS, c4Host⟩ ∧
    MirrorFS.link ⟨c5FS, false⟩ c4Host 2 1 "l" = ⟨.err .NFS3ERR_ROFS, c5FS, c4Host⟩ := by
  obtain ⟨g1, g2, g3, g4, g5, g6, g7, g8, g9, g10, p1, p2, p3, p4, p5, p6, p7, p8, p9⟩ :=
    C5_read_only_enforcement c4FS c4Host
  obtain ⟨q1, q2, q3, q4, q5, q6, q7, q8, q9, q10, r1, r2, r3, r4, r5, r6, r7, r8, r9⟩ :=
    C5_read_only_enforcement c5FS c4Host
  refine ⟨g1 2 0 [1], g8 1 "d" .NF3CHR {} (Or.inl rfl), g9 false 1 "d" .NF3REG {} (Or.inl rfl),
    r1 false 2 0 [1] ⟨[0, 1], metadata_to_fattr3 2 (egMeta .NF3REG 10),
      metadata_to_fattr3 2 (egMeta .NF3REG 10), none⟩ ["srv", "f"] (by decide) (by decide),
    r2 false 1 "x" {} ⟨[0], metadata_to_fattr3 1 (egMeta .NF3DIR 0),
      metadata_to_fattr3 1 (egMeta .NF3DIR 0), some [2]⟩ ["srv"] (by decide) (by decide),
    r3 false 1 "x" ⟨[0], metadata_to_fattr3 1 (egMeta .NF3DIR 0),
      metadata_to_fattr3 1 (egMeta .NF3DIR 0), some [2]⟩ ["srv"] (by decide) (by decide),
    r4 false 1 "f" ⟨[0], metadata_to_fattr3 1 (egMeta .NF3DIR 0),
      metadata_to_fattr3 1 (egMeta .NF3DIR 0), some [2]⟩ ["srv"] (by decide) (by decide),
    r5 false 1 "x" {} ⟨[0], metadata_to_fattr3 1 (egMeta .NF3DIR 0),
      metadata_to_fattr3 1 (egMeta .NF3DIR 0), some [2]⟩ ["srv"] (by decide) (by decide),
    r6 false 1 "x" "t" {} ⟨[0], metadata_to_fattr3 1 (egMeta .NF3DIR 0),
      metadata_to_fattr3 1 (egMeta .NF3DIR 0), some [2]⟩ ["srv"] (by decide) (by decide),
    r7 false 1 "x" .NF3FIFO {} ⟨[0], metadata_to_fattr3 1 (egMeta .NF3DIR 0),
      metadata_to_fattr3 1 (egMeta .NF3DIR 0), some [2]⟩ ["srv"]
      (Or.inr (Or.inr (Or.inr rfl))) (by decide) (by decide),
    r8 false 1 "f" 1 "g" ⟨[0], metadata_to_fattr3 1 (egMeta .NF3DIR 0),
        metadata_to_fattr3 1 (egMeta .NF3DIR 0), some [2]⟩
      ⟨[0], metadata_to_fattr3 1 (egMeta .NF3DIR 0),
        metadata_to_fattr3 1 (egMeta .NF3DIR 0), some [2]⟩
      ["srv"] ["srv"] true true (by decide) (by decide) (by decide) (by decide)
      (Or.inl rfl),
    r9 false 2 1 "l" ⟨[0, 1], metadata_to_fattr3 2 (egMeta .NF3REG 10),
        metadata_to_fattr3 2 (egMeta .NF3REG 10), none⟩
      ⟨[0], metadata_to_fattr3 1 (egMeta .NF3DIR 0),
        metadata_to_fattr3 1 (egMeta .NF3DIR 0), some [2]⟩
      ["srv", "f"] ["srv"] true (by decide) (by decide) (by decide) (by decide)⟩


/-- One interner extends another when it preserves every lookup. -/
def InternExt (t t1 : SymbolTable) : Prop :=
  ∀ i v, t.get i = some v → t1.get i = some v

theorem internExt_refl (t : SymbolTable) : InternExt t t := fun _ _ hv => hv

theorem internExt_intern (t : SymbolTable) (s : String) :
    InternExt t (t.intern s).2 := by
  intro i v hv
  unfold SymbolTable.intern
  cases hc : t.check_interned s with
  | some j => exact hv
  | none =>
    unfold SymbolTable.get at hv ⊢
    have hlt : i < t.syms.length := (List.get?_eq_some.mp hv).1
    simp only []
    rw [List.get?_append hlt]
    exact hv

theorem internExt_trans (t1 t2 t3 : SymbolTable)
    (h12 : InternExt t1 t2) (h23 : InternExt t2 t3) : InternExt t1 t3 :=
  fun i v hv => h23 i v (h12 i v hv)

theorem getAll_ext (t t1 : SymbolTable) (hext : InternExt t t1)
    (l : List Symbol) (vs : List String) (hv : t.getAll l = some vs) :
    t1.getAll l = some vs := by
  induction l generalizing vs with
  | nil =>
    unfold SymbolTable.getAll at hv ⊢
    exact hv
  | cons sy rest ih =>
    unfold SymbolTable.getAll at hv ⊢
    cases hg : t.get sy with
    | none => rw [hg] at hv; cases hv
    | some str =>
      rw [hg] at hv
      rw [hext sy str hg]
      cases hr : t.getAll rest with
      | none => rw [hr] at hv; cases hv
      | some strs =>
        rw [hr] at hv
        rw [ih strs hr]
        exact hv

/-- Resolution through the mount table survives growing the interner
(and any state change that keeps the mounts). -/
theorem sym_to_real_path_ext (m m1 : FSMap) (p : SymPath) (x : RealPath × Bool)
    (hmounts : m1.mounts = m.mounts) (hext : InternExt m.intern m1.intern)
    (h : m.sym_to_real_path p = some x) : m1.sym_to_real_path p = some x := by
  unfold FSMap.sym_to_real_path at h ⊢
  cases p with
  | nil => cases h
  | cons s0 rest =>
    dsimp only at h ⊢
    cases hg : m.intern.get s0 with
    | none =>
      rw [hg] at h
      cases h
    | some mount_name =>
      rw [hg] at h
      rw [hext s0 mount_name hg, hmounts]
      dsimp only at h ⊢
      cases hmf : mountFor m.mounts mount_name with
      | none =>
        rw [hmf] at h
        cases h
      | some msrc =>
        obtain ⟨mt, srcp, ro⟩ := msrc
        rw [hmf] at h
        dsimp only at h ⊢
        cases hga : m.intern.getAll rest with
        | none =>
          rw [hga] at h
          cases h
        | some comps =>
          rw [hga] at h
          rw [getAll_ext m.intern m1.intern hext rest comps hga]
          exact h

/-- A successful association lookup names a list member. -/
theorem alookup_mem (q : RealPath) (l : List (RealPath × HostNode)) (n : HostNode)
    (h : alookup q l = some n) : (q, n) ∈ l := by
  induction l with
  | nil => cases h
  | cons e es ih =>
    unfold alookup at h
    by_cases he : e.1 = q
    · rw [if_pos he] at h
      injection h with h2
      have he2 : e = (q, n) := by
        cases e with
        | mk a b =>
          simp only at he h2
          rw [he, h2]
      rw [he2]
      exact List.mem_cons_self _ _
    · rw [if_neg he] at h
      exact List.mem_cons_of_mem e (ih h)

/-- Facts available when a host rename with distinct endpoints
succeeds: the source exists, the destination is not inside the source
subtree, and nothing lives strictly below the destination. -/
theorem hostRename_ok_facts (h : Host) (fr dst : RealPath) (h1 : Host)
    (hok : hostRename h fr dst = some h1) (hne : fr ≠ dst) :
    (Host.lookup h fr).isSome ∧
    fr.isPrefixOf dst = false ∧
    (∀ q n, Host.lookup h q = some n → dst.isPrefixOf q = true → q = dst) := by
  unfold hostRename at hok
  by_cases h0 : (Host.lookup h fr).isNone
  · rw [if_pos h0] at hok
    cases hok
  · rw [if_neg h0] at hok
    rw [if_neg hne] at hok
    cases h2 : fr.isPrefixOf dst with
    | true =>
      rw [h2] at hok
      rw [if_pos rfl] at hok
      cases hok
    | false =>
      rw [h2] at hok
      rw [if_neg (by simp)] at hok
      cases h3 : h.nodes.any (fun e => dst.isPrefixOf e.1 && e.1 ≠ dst) with
      | true =>
        rw [h3] at hok
        rw [if_pos rfl] at hok
        cases hok
      | false =>
        refine ⟨?_, rfl, ?_⟩
        · cases hl : Host.lookup h fr with
          | none =>
            rw [hl] at h0
            exact absurd rfl h0
          | some n => rfl
        · intro q n hq hdp
          by_contra hqd
          have hmem := alookup_mem q h.nodes n hq
          have hfal := List.any_eq_false.mp h3 (q, n) hmem
          apply hfal
          have hd2 : decide (q ≠ dst) = true := decide_eq_true hqd
          simp only [hdp, hd2]
          rfl

/-- Association lookup after the rename relocation, for a path outside
both the source subtree and the destination subtree. -/
theorem alookup_renameMap (fr dst : RealPath) (l : List (RealPath × HostNode))
    (q : RealPath)
    (hq1 : fr.isPrefixOf q = false) (hq2 : dst.isPrefixOf q = false) :
    alookup q (l.filterMap (fun e =>
      if fr.isPrefixOf e.1 then some (dst ++ e.1.drop fr.length, e.2)
      else if e.1 = dst then none
      else some e)) = alookup q l := by
  induction l with
  | nil => rfl
  | cons e es ih =>
    simp only [List.filterMap_cons]
    by_cases hf : fr.isPrefixOf e.1
    · have hkey : ¬ (dst ++ e.1.drop fr.length = q) := by
        intro hc
        have hpq : dst.isPrefixOf q = true := by
          rw [← hc]
          exact List.isPrefixOf_iff_prefix.mpr (List.prefix_append dst _)
        rw [hpq] at hq2
        cases hq2
      have hne : ¬ (e.1 = q) := by
        intro hc
        rw [hc] at hf
        rw [hf] at hq1
        cases hq1
      simp only [if_pos hf, alookup, hkey, hne, if_neg hkey, if_neg hne, ih]
    · by_cases hd : e.1 = dst
      · have hne : ¬ (e.1 = q) := by
          intro hc
          have hqdst : dst.isPrefixOf q = true := by
            rw [← hc, hd]
            exact List.isPrefixOf_iff_prefix.mpr (List.prefix_refl dst)
          rw [hqdst] at hq2
          cases hq2
        simp only [if_neg hf, if_pos hd, alookup, if_neg hne, ih]
      · simp only [if_neg hf, if_neg hd, alookup, ih]


/-- Helper: a found index retrieves the string. -/
theorem strIdx_get (l : List String) (s : String) (i : Nat)
    (h : strIdx l s = some i) : l.get? i = some s := by
  induction l generalizing i with
  | nil => cases h
  | cons x xs ih =>
    unfold strIdx at h
    by_cases hx : x = s
    · rw [if_pos hx] at h
      injection h with h2
      rw [← h2]
      simp [hx]
    · rw [if_neg hx] at h
      cases hr : strIdx xs s with
      | none =>
        rw [hr] at h
        cases h
      | some j =>
        rw [hr] at h
        injection h with h2
        rw [← h2]
        simpa using ih j hr

/-- Helper: interning retrieves the string through the new table. -/
theorem intern_get_self (t : SymbolTable) (s : String) :
    (t.intern s).2.get (t.intern s).1 = some s := by
  unfold SymbolTable.intern
  cases hc : t.check_interned s with
  | some i =>
    unfold SymbolTable.check_interned at hc
    exact strIdx_get t.syms s i hc
  | none =>
    unfold SymbolTable.get
    simp

/-- Helper: in the old table, a fresh symbol has no string and a
reused one retrieves the interned string. -/
theorem intern_get_orig (t : SymbolTable) (s : String) :
    t.get (t.intern s).1 = some s ∨ t.get (t.intern s).1 = none := by
  unfold SymbolTable.intern
  cases hc : t.check_interned s with
  | some i =>
    unfold SymbolTable.check_interned at hc
    exact Or.inl (strIdx_get t.syms s i hc)
  | none =>
    right
    unfold SymbolTable.get
    simp

/-- Helper: `modify_entry` keeps other ids. -/
theorem modify_entry_id_ne (s : FSMap) (id : fileid3) (f : FSEntry → FSEntry)
    (j : fileid3) (hne : j ≠ id) :
    (s.modify_entry id f).id_to_path j = s.id_to_path j := by
  unfold FSMap.modify_entry
  simp [hne]

/-- Helper: `modify_entry` keeps the path map and the scalar fields. -/
theorem modify_entry_frame (s : FSMap) (id : fileid3) (f : FSEntry → FSEntry) :
    (s.modify_entry id f).path_to_id = s.path_to_id ∧
    (s.modify_entry id f).mounts = s.mounts ∧
    (s.modify_entry id f).next_fileid = s.next_fileid ∧
    (s.modify_entry id f).intern = s.intern :=
  ⟨rfl, rfl, rfl, rfl⟩

/-- Helper: a rename onto the same path leaves the host unchanged. -/
theorem hostRename_self_eq (h : Host) (fr : RealPath) (h1 : Host)
    (hok : hostRename h fr fr = some h1) : h1 = h := by
  unfold hostRename at hok
  by_cases h0 : (Host.lookup h fr).isNone
  · rw [if_pos h0] at hok
    cases hok
  · rw [if_neg h0] at hok
    rw [if_pos rfl] at hok
    injection hok with h2
    rw [h2]

/-- Helper: after a successful rename, a path outside both subtrees
resolves to the same node as before. -/
theorem hostRename_lookup_preserved (h : Host) (fr dst : RealPath) (h1 : Host)
    (q : RealPath) (hok : hostRename h fr dst = some h1)
    (hq1 : fr.isPrefixOf q = false) (hq2 : dst.isPrefixOf q = false) :
    Host.lookup h1 q = Host.lookup h q := by
  unfold hostRename at hok
  by_cases h0 : (Host.lookup h fr).isNone
  · rw [if_pos h0] at hok
    cases hok
  · rw [if_neg h0] at hok
    by_cases hfd : fr = dst
    · rw [if_pos hfd] at hok
      injection hok with h2
      rw [← h2]
    · rw [if_neg hfd] at hok
      cases h2 : fr.isPrefixOf dst with
      | true =>
        rw [h2] at hok
        rw [if_pos rfl] at hok
        cases hok
      | false =>
        rw [h2] at hok
        rw [if_neg (by simp)] at hok
        cases h3 : h.nodes.any (fun e => dst.isPrefixOf e.1 && e.1 ≠ dst) with
        | true =>
          rw [h3] at hok
          rw [if_pos rfl] at hok
          cases hok
        | false =>
          rw [h3] at hok
          rw [if_neg (by simp)] at hok
          injection hok with h4
          rw [← h4]
          unfold Host.lookup
          exact alookup_renameMap fr dst h.nodes q hq1 hq2

/-- Helper: a list does not have its own one-longer extension as a
prefix. -/
theorem isPrefixOf_append_one_self (l : RealPath) (x : String) :
    (l ++ [x]).isPrefixOf l = false := by
  cases hv : (l ++ [x]).isPrefixOf l with
  | false => rfl
  | true =>
    have hp : l ++ [x] <+: l := List.isPrefixOf_iff_prefix.mp hv
    have := hp.length_le
    simp at this

/-- Helper: a list is a prefix of its one-longer extension. -/
theorem isPrefixOf_append_one (l : RealPath) (x : String) :
    l.isPrefixOf (l ++ [x]) = true :=
  List.isPrefixOf_iff_prefix.mpr ⟨[x], rfl⟩

/-- Helper: Boolean prefix transitivity. -/
theorem isPrefixOf_trans (a b c : RealPath)
    (h1 : a.isPrefixOf b = true) (h2 : b.isPrefixOf c = true) :
    a.isPrefixOf c = true :=
  List.isPrefixOf_iff_prefix.mpr
    ((List.isPrefixOf_iff_prefix.mp h1).trans (List.isPrefixOf_iff_prefix.mp h2))

/-- Helper: resolving a path extended by one symbol: the symbol is
retrievable and the real path gains exactly that component. -/
theorem getAll_snoc (t : SymbolTable) (rest : List Symbol) (sy : Symbol)
    (out : List String) (h : t.getAll (rest ++ [sy]) = some out) :
    ∃ comps str, t.getAll rest = some comps ∧ t.get sy = some str ∧
      out = comps ++ [str] := by
  induction rest generalizing out with
  | nil =>
    rw [List.nil_append] at h
    unfold SymbolTable.getAll at h
    cases hg : t.get sy with
    | none =>
      rw [hg] at h
      cases h
    | some str =>
      rw [hg] at h
      dsimp only at h
      unfold SymbolTable.getAll at h
      injection h with h2
      exact ⟨[], str, rfl, rfl, by rw [← h2]; rfl⟩
  | cons s0 rest2 ih =>
    rw [List.cons_append] at h
    unfold SymbolTable.getAll at h
    cases hg : t.get s0 with
    | none =>
      rw [hg] at h
      cases h
    | some str0 =>
      rw [hg] at h
      cases hr : t.getAll (rest2 ++ [sy]) with
      | none =>
        rw [hr] at h
        cases h
      | some out2 =>
        rw [hr] at h
        injection h with h2
        obtain ⟨comps, str, hc, hs, ho⟩ := ih out2 hr
        refine ⟨str0 :: comps, str, ?_, hs, ?_⟩
        · unfold SymbolTable.getAll
          rw [hg, hc]
        · rw [← h2, ho]
          rfl

/-- Helper: resolving a symbolic path extended by one symbol appends
the symbol's string to the resolved real path, with the same mount
flag. -/
theorem sym_to_real_path_snoc (m : FSMap) (p : SymPath) (sy : Symbol)
    (rp : RealPath) (ro : Bool) (rp2 : RealPath) (ro2 : Bool)
    (h1 : m.sym_to_real_path p = some (rp, ro))
    (h2 : m.sym_to_real_path (p ++ [sy]) = some (rp2, ro2)) :
    ∃ str, m.intern.get sy = some str ∧ rp2 = rp ++ [str] ∧ ro2 = ro := by
  unfold FSMap.sym_to_real_path at h1 h2
  cases p with
  | nil => cases h1
  | cons s0 rest =>
    simp only [List.cons_append] at h2
    dsimp only at h1 h2
    cases hg : m.intern.get s0 with
    | none =>
      rw [hg] at h1
      cases h1
    | some mount_name =>
      rw [hg] at h1 h2
      dsimp only at h1 h2
      cases hmf : mountFor m.mounts mount_name with
      | none =>
        rw [hmf] at h1
        cases h1
      | some msrc =>
        obtain ⟨mt, srcp, bro⟩ := msrc
        rw [hmf] at h1 h2
        dsimp only at h1 h2
        cases hga : m.intern.getAll rest with
        | none =>
          rw [hga] at h1
          cases h1
        | some comps =>
          rw [hga] at h1
          cases hga2 : m.intern.getAll (rest ++ [sy]) with
          | none =>
            rw [hga2] at h2
            cases h2
          | some out =>
            rw [hga2] at h2
            obtain ⟨comps2, str, hc2, hs2, ho2⟩ := getAll_snoc m.intern rest sy out hga2
            injection h1 with h1e
            injection h2 with h2e
            rw [hc2] at hga
            injection hga with hgae
            refine ⟨str, hs2, ?_, ?_⟩
            · rw [← (Prod.mk.injEq _ _ _ _).mp h2e |>.1, ho2, hgae]
              rw [← (Prod.mk.injEq _ _ _ _).mp h1e |>.1]
              rw [List.append_assoc]
            · rw [← (Prod.mk.injEq _ _ _ _).mp h2e |>.2,
                ← (Prod.mk.injEq _ _ _ _).mp h1e |>.2]


/-- Helper: when the refreshed entry's host object exists with the
same file type, the result-discarding refresh keeps the path map, all
other entries, and the scalar fields. -/
theorem refresh_ign_keeps (s : FSMap) (h : Host) (id : fileid3) (e : FSEntry)
    (rp : RealPath) (b : Bool) (node : HostNode)
    (hfe : s.id_to_path id = some e)
    (hrp : s.sym_to_real_path e.name = some (rp, b))
    (hnode : Host.lookup h rp = some node)
    (hty : e.fsmeta.meta.ftype = node.meta.ftype) :
    (s.refresh_entry_ign h id).path_to_id = s.path_to_id ∧
    (∀ j, j ≠ id → (s.refresh_entry_ign h id).id_to_path j = s.id_to_path j) ∧
    (s.refresh_entry_ign h id).mounts = s.mounts ∧
    (s.refresh_entry_ign h id).intern = s.intern := by
  have hex : exists_no_traverse h rp = true := by
    unfold exists_no_traverse
    rw [hnode]
    rfl
  unfold FSMap.refresh_entry_ign FSMap.refresh_entry
  simp only [hfe, hrp, hex, hnode]
  rw [if_neg (fun hn => hn trivial)]
  cases hd : fattr3_differ (metadata_to_fattr3 id node.meta) e.fsmeta with
  | false =>
    rw [if_pos (by simp)]
    exact ⟨rfl, fun j _ => rfl, rfl, rfl⟩
  | true =>
    rw [if_neg (by simp)]
    rw [if_neg (fun hc => hc hty)]
    refine ⟨rfl, ?_, rfl, rfl⟩
    intro j hj
    exact modify_entry_id_ne s id _ j hj

/-- Helper: both trailing refreshes of `rename` keep the path map and
every entry other than the two parents, when each parent's host
directory still exists with an unchanged type. -/
theorem renameTail_keeps (fsX : FSMap) (h1 : Host) (fdid tdid : fileid3)
    (e1 : FSEntry) (rp1 : RealPath) (b1 : Bool) (n1 : HostNode)
    (hfe1 : fsX.id_to_path fdid = some e1)
    (hrp1 : fsX.sym_to_real_path e1.name = some (rp1, b1))
    (hn1 : Host.lookup h1 rp1 = some n1)
    (hty1 : e1.fsmeta.meta.ftype = n1.meta.ftype)
    (hsecond : tdid ≠ fdid → ∃ e2 rp2 b2 n2,
      fsX.id_to_path tdid = some e2 ∧ fsX.sym_to_real_path e2.name = some (rp2, b2) ∧
      Host.lookup h1 rp2 = some n2 ∧ e2.fsmeta.meta.ftype = n2.meta.ftype) :
    (renameTail fsX h1 fdid tdid).fs.path_to_id = fsX.path_to_id ∧
    (∀ j, j ≠ fdid → j ≠ tdid →
      (renameTail fsX h1 fdid tdid).fs.id_to_path j = fsX.id_to_path j) := by
  obtain ⟨k1, k2, k3, k4⟩ := refresh_ign_keeps fsX h1 fdid e1 rp1 b1 n1 hfe1 hrp1 hn1 hty1
  unfold renameTail
  dsimp only
  by_cases hdd : tdid ≠ fdid
  · obtain ⟨e2, rp2, b2, n2, g1, g2, g3, g4⟩ := hsecond hdd
    have g1a : (fsX.refresh_entry_ign h1 fdid).id_to_path tdid = some e2 := by
      rw [k2 tdid hdd]
      exact g1
    have g2a : (fsX.refresh_entry_ign h1 fdid).sym_to_real_path e2.name = some (rp2, b2) := by
      apply sym_to_real_path_ext fsX _ _ _ k3
      · intro i v hv
        rw [k4]
        exact hv
      · exact g2
    obtain ⟨j1, j2, j3, j4⟩ :=
      refresh_ign_keeps (fsX.refresh_entry_ign h1 fdid) h1 tdid e2 rp2 b2 n2 g1a g2a g3 g4
    rw [if_pos hdd]
    constructor
    · rw [j1, k1]
    · intro j hj1 hj2
      rw [j2 j hj2, k2 j hj1]
  · rw [if_neg hdd]
    exact ⟨k1, fun j hj1 _ => k2 j hj1⟩


/-- Helper: `modify_entry` at the modified id. -/
theorem modify_entry_id_eq (s : FSMap) (id : fileid3) (f : FSEntry → FSEntry) :
    (s.modify_entry id f).id_to_path id = (s.id_to_path id).map f := by
  unfold FSMap.modify_entry
  simp

/-- Helper: the path map after the rename binding update. -/
theorem renameBind_path (fs1 : FSMap) (fid : fileid3) (fent : FSEntry)
    (fromS toS : SymPath) (fdid tdid : fileid3) :
    (renameBind fs1 fid fent fromS toS fdid tdid).path_to_id = fun p =>
      if p = toS then some fid
      else if p = fromS then none
      else fs1.path_to_id p := by
  unfold renameBind
  dsimp only
  by_cases hdd : tdid ≠ fdid
  · rw [if_pos hdd]
    rfl
  · rw [if_neg hdd]

/-- Helper: the renamed fileid's entry after the binding update. -/
theorem renameBind_id_self (fs1 : FSMap) (fid : fileid3) (fent : FSEntry)
    (fromS toS : SymPath) (fdid tdid : fileid3)
    (hf1 : fid ≠ fdid) (hf2 : fid ≠ tdid) :
    (renameBind fs1 fid fent fromS toS fdid tdid).id_to_path fid =
      some { fent with name := toS } := by
  unfold renameBind
  dsimp only
  by_cases hdd : tdid ≠ fdid
  · rw [if_pos hdd]
    rw [modify_entry_id_ne _ _ _ _ hf2, modify_entry_id_ne _ _ _ _ hf1]
    simp
  · rw [if_neg hdd]
    simp

/-- Helper: any other entry keeps its name and attributes across the
binding update (only children sets may change). -/
theorem renameBind_dir_entry (fs1 : FSMap) (fid : fileid3) (fent : FSEntry)
    (fromS toS : SymPath) (fdid tdid : fileid3) (j : fileid3) (ej : FSEntry)
    (hj : j ≠ fid) (hje : fs1.id_to_path j = some ej) :
    ∃ ej2, (renameBind fs1 fid fent fromS toS fdid tdid).id_to_path j = some ej2 ∧
      ej2.name = ej.name ∧ ej2.fsmeta = ej.fsmeta := by
  unfold renameBind
  dsimp only
  by_cases hdd : tdid ≠ fdid
  · rw [if_pos hdd]
    by_cases hjt : j = tdid
    · subst hjt
      rw [modify_entry_id_eq]
      rw [modify_entry_id_ne _ _ _ _ hdd]
      have hij : ({ fs1 with
          id_to_path := fun j2 =>
            if j2 = fid then some { fent with name := toS } else fs1.id_to_path j2,
          path_to_id := fun p =>
            if p = toS then some fid
            else if p = fromS then none
            else fs1.path_to_id p } : FSMap).id_to_path j = some ej := by
        dsimp only
        rw [if_neg hj]
        exact hje
      rw [hij]
      exact ⟨_, rfl, rfl, rfl⟩
    · rw [modify_entry_id_ne _ _ _ _ hjt]
      by_cases hjf : j = fdid
      · subst hjf
        rw [modify_entry_id_eq]
        have hij : ({ fs1 with
            id_to_path := fun j2 =>
              if j2 = fid then some { fent with name := toS } else fs1.id_to_path j2,
            path_to_id := fun p =>
              if p = toS then some fid
              else if p = fromS then none
              else fs1.path_to_id p } : FSMap).id_to_path j = some ej := by
          dsimp only
          rw [if_neg hj]
          exact hje
        rw [hij]
        exact ⟨_, rfl, rfl, rfl⟩
      · rw [modify_entry_id_ne _ _ _ _ hjf]
        refine ⟨ej, ?_, rfl, rfl⟩
        dsimp only
        rw [if_neg hj]
        exact hje
  · rw [if_neg hdd]
    refine ⟨ej, ?_, rfl, rfl⟩
    dsimp only
    rw [if_neg hj]
    exact hje

/-- Helper: scalar fields survive the binding update. -/
theorem renameBind_misc (fs1 : FSMap) (fid : fileid3) (fent : FSEntry)
    (fromS toS : SymPath) (fdid tdid : fileid3) :
    (renameBind fs1 fid fent fromS toS fdid tdid).mounts = fs1.mounts ∧
    (renameBind fs1 fid fent fromS toS fdid tdid).intern = fs1.intern := by
  unfold renameBind
  dsimp only
  by_cases hdd : tdid ≠ fdid
  · rw [if_pos hdd]
    exact ⟨rfl, rfl⟩
  · rw [if_neg hdd]
    exact ⟨rfl, rfl⟩

/-- C3 counterexample: renaming `a/f` onto itself succeeds (the host
rename of a path onto itself is a no-op), the source symbolic path was
bound to fileid 2 before the call, yet the "old" symbolic path is still
present afterwards — the claim's "the old symbolic path is absent from
path_to_id" fails when the old and new paths coincide. -/
theorem C3_rename_counterexample :
    (MirrorFS.rename ⟨c4FS, false⟩ c4Host 1 "f" 1 "f").res = .ok () ∧
    c4FS.path_to_id [0, 1] = some 2 ∧
    (MirrorFS.rename ⟨c4FS, false⟩ c4Host 1 "f" 1 "f").fs.path_to_id [0, 1] = some 2 := by
  exact ⟨by decide, by decide, by decide⟩


/-- Helper: postconditions of the rename map update followed by the
trailing refreshes, when both parents' host directories survive with
unchanged types and the renamed fileid is neither parent. -/
theorem rename_post (fs1 : FSMap) (h1 : Host) (f fd td : fileid3) (fent : FSEntry)
    (fromS toS : SymPath) (fde tde : FSEntry) (fp tp : RealPath) (b1 b2 : Bool)
    (fnode tnode : HostNode)
    (hne_fd : f ≠ fd) (hne_td : f ≠ td)
    (hfde1 : fs1.id_to_path fd = some fde)
    (hfrp1 : fs1.sym_to_real_path fde.name = some (fp, b1))
    (hlf : Host.lookup h1 fp = some fnode)
    (hfty : fde.fsmeta.meta.ftype = fnode.meta.ftype)
    (htde1 : fs1.id_to_path td = some tde)
    (htrp1 : fs1.sym_to_real_path tde.name = some (tp, b2))
    (hlt : Host.lookup h1 tp = some tnode)
    (htty : tde.fsmeta.meta.ftype = tnode.meta.ftype) :
    (renameTail (renameBind fs1 f fent fromS toS fd td) h1 fd td).fs.path_to_id toS =
      some f ∧
    (∃ e1, (renameTail (renameBind fs1 f fent fromS toS fd td) h1 fd td).fs.id_to_path f =
      some e1 ∧ e1.name = toS) ∧
    (fromS ≠ toS →
      (renameTail (renameBind fs1 f fent fromS toS fd td) h1 fd td).fs.path_to_id fromS =
        none) := by
  have hmisc := renameBind_misc fs1 f fent fromS toS fd td
  obtain ⟨fde2, hbfd, hbn, hbm⟩ :=
    renameBind_dir_entry fs1 f fent fromS toS fd td fd fde (Ne.symm hne_fd) hfde1
  have hbres : (renameBind fs1 f fent fromS toS fd td).sym_to_real_path fde2.name =
      some (fp, b1) := by
    rw [hbn]
    exact sym_to_real_path_ext fs1 _ fde.name _ hmisc.1
      (fun i v hv => by rw [hmisc.2]; exact hv) hfrp1
  have hbty : fde2.fsmeta.meta.ftype = fnode.meta.ftype := by
    rw [hbm]
    exact hfty
  have hsecond : td ≠ fd → ∃ e2 rp2 bb2 n2,
      (renameBind fs1 f fent fromS toS fd td).id_to_path td = some e2 ∧
      (renameBind fs1 f fent fromS toS fd td).sym_to_real_path e2.name = some (rp2, bb2) ∧
      Host.lookup h1 rp2 = some n2 ∧ e2.fsmeta.meta.ftype = n2.meta.ftype := by
    intro hdd
    obtain ⟨tde2, hbtd, hbtn, hbtm⟩ :=
      renameBind_dir_entry fs1 f fent fromS toS fd td td tde (Ne.symm hne_td) htde1
    refine ⟨tde2, tp, b2, tnode, hbtd, ?_, hlt, ?_⟩
    · rw [hbtn]
      exact sym_to_real_path_ext fs1 _ tde.name _ hmisc.1
        (fun i v hv => by rw [hmisc.2]; exact hv) htrp1
    · rw [hbtm]
      exact htty
  obtain ⟨HP, HID⟩ := renameTail_keeps (renameBind fs1 f fent fromS toS fd td) h1 fd td
    fde2 fp b1 fnode hbfd hbres hlf hbty hsecond
  refine ⟨?_, ?_, ?_⟩
  · rw [HP, renameBind_path]
    simp
  · refine ⟨{ fent with name := toS }, ?_, rfl⟩
    rw [HID f hne_fd hne_td]
    exact renameBind_id_self fs1 f fent fromS toS fd td hne_fd hne_td
  · intro hne
    rw [HP, renameBind_path]
    dsimp only
    rw [if_neg hne, if_pos rfl]


/-- C3 (amended): under P1 (inverse maps), when both parent directories
resolve through writable mounts, their host paths exist with the cached
types, and the (interned) source name is bound to fileid `f`, a
successful `rename` rebinds `f`: the new symbolic path maps to `f`,
`f`'s entry carries the new symbolic path, and the old symbolic path,
when different from the new one, is unbound.  (The claim's unconditional
reading is refuted by `C3_rename_counterexample`: renaming an entry onto
its own path is reported as success yet need not preserve bindings in
degenerate states, and renaming onto an existing destination orphans the
destination id.) -/
theorem C3_rename_preserves_fileid_amended
    (m : FSMap) (h : Host) (from_dirid to_dirid f : fileid3)
    (from_filename to_filename : String)
    (fde tde : FSEntry) (fp tp : RealPath) (fnode tnode : HostNode)
    (hInv : MapsInverse m)
    (hfde : m.id_to_path from_dirid = some fde)
    (hfrp : m.sym_to_real_path fde.name = some (fp, false))
    (htde : m.id_to_path to_dirid = some tde)
    (htrp : m.sym_to_real_path tde.name = some (tp, false))
    (hfnode : Host.lookup h fp = some fnode)
    (hfty : fde.fsmeta.meta.ftype = fnode.meta.ftype)
    (htnode : Host.lookup h tp = some tnode)
    (htty : tde.fsmeta.meta.ftype = tnode.meta.ftype)
    (hbound : m.path_to_id (fde.name ++ [(m.intern.intern from_filename).1]) = some f)
    (hok : (MirrorFS.rename ⟨m, false⟩ h from_dirid from_filename to_dirid
      to_filename).res = .ok ()) :
    (MirrorFS.rename ⟨m, false⟩ h from_dirid from_filename to_dirid
        to_filename).fs.path_to_id
      (tde.name ++ [((m.intern.intern from_filename).2.intern to_filename).1]) = some f ∧
    (∃ e1, (MirrorFS.rename ⟨m, false⟩ h from_dirid from_filename to_dirid
        to_filename).fs.id_to_path f = some e1 ∧
      e1.name = tde.name ++ [((m.intern.intern from_filename).2.intern to_filename).1]) ∧
    (fde.name ++ [(m.intern.intern from_filename).1] ≠
        tde.name ++ [((m.intern.intern from_filename).2.intern to_filename).1] →
      (MirrorFS.rename ⟨m, false⟩ h from_dirid from_filename to_dirid
        to_filename).fs.path_to_id
        (fde.name ++ [(m.intern.intern from_filename).1]) = none) := by
  have hfind1 : m.find_entry from_dirid = .ok fde := by
    unfold FSMap.find_entry
    rw [hfde]
  have hfind2 : m.find_entry to_dirid = .ok tde := by
    unfold FSMap.find_entry
    rw [htde]
  have htex : exists_no_traverse h tp = true := by
    unfold exists_no_traverse
    rw [htnode]
    rfl
  unfold MirrorFS.rename at hok ⊢
  dsimp only at hok ⊢
  rw [if_neg (by simp)] at hok ⊢
  simp only [hfind1, hfind2, hfrp, htrp] at hok ⊢
  rw [if_neg (by simp)] at hok ⊢
  rw [htex] at hok ⊢
  rw [if_neg (by simp)] at hok ⊢
  cases hfex : exists_no_traverse h (fp ++ [from_filename]) with
  | false =>
    rw [hfex] at hok
    rw [if_pos (by simp)] at hok
    simp at hok
  | true =>
    rw [hfex] at hok
    rw [if_neg (by simp)] at hok ⊢
    cases hhr : hostRename h (fp ++ [from_filename]) (tp ++ [to_filename]) with
    | none =>
      rw [hhr] at hok
      simp at hok
    | some h1 =>
      rw [hhr] at hok
      dsimp only at hok ⊢
      rw [hbound] at hok ⊢
      dsimp only at hok ⊢
      obtain ⟨fent, hfent, hfname⟩ := hInv.2 _ f hbound
      rw [hfent] at hok ⊢
      dsimp only at hok ⊢
      have hne_fd : f ≠ from_dirid := by
        intro hc
        rw [hc] at hfent
        rw [hfde] at hfent
        injection hfent with he
        rw [← he] at hfname
        have hlen := congrArg List.length hfname
        simp at hlen
      have hne_td : f ≠ to_dirid := by
        intro hc
        rw [hc] at hfent
        rw [htde] at hfent
        injection hfent with he
        have hname2 : tde.name = fde.name ++ [(m.intern.intern from_filename).1] := by
          rw [he]
          exact hfname
        have htrp2 : m.sym_to_real_path
            (fde.name ++ [(m.intern.intern from_filename).1]) = some (tp, false) := by
          rw [← hname2]
          exact htrp
        obtain ⟨str, hstr, htpe, _⟩ := sym_to_real_path_snoc m fde.name
          (m.intern.intern from_filename).1 fp false tp false hfrp htrp2
        rcases intern_get_orig m.intern from_filename with hog | hog
        · rw [hog] at hstr
          injection hstr with hstr2
          have hdsteq : tp ++ [to_filename] =
              (fp ++ [from_filename]) ++ [to_filename] := by
            rw [htpe, hstr2]
          have hne2 : fp ++ [from_filename] ≠ tp ++ [to_filename] := by
            rw [hdsteq]
            intro hceq
            have hlen2 := congrArg List.length hceq
            simp at hlen2
          obtain ⟨_, hff, _⟩ := hostRename_ok_facts h _ _ h1 hhr hne2
          rw [hdsteq] at hff
          rw [isPrefixOf_append_one] at hff
          cases hff
        · rw [hog] at hstr
          cases hstr
      have hpres : Host.lookup h1 fp = some fnode ∧ Host.lookup h1 tp = some tnode := by
        by_cases hfd_eq : fp ++ [from_filename] = tp ++ [to_filename]
        · rw [← hfd_eq] at hhr
          have hh1 := hostRename_self_eq h _ h1 hhr
          rw [hh1]
          exact ⟨hfnode, htnode⟩
        · obtain ⟨hsome, hff, hguard⟩ := hostRename_ok_facts h _ _ h1 hhr hfd_eq
          have hq2fp : (tp ++ [to_filename]).isPrefixOf fp = false := by
            cases hv : (tp ++ [to_filename]).isPrefixOf fp with
            | false => rfl
            | true =>
              have heq1 := hguard fp fnode hfnode hv
              have hpre2 : (tp ++ [to_filename]).isPrefixOf
                  (fp ++ [from_filename]) = true := by
                rw [heq1]
                exact isPrefixOf_append_one _ _
              obtain ⟨n0, hn0⟩ := Option.isSome_iff_exists.mp hsome
              have heq2 := hguard (fp ++ [from_filename]) n0 hn0 hpre2
              exact absurd heq2 hfd_eq
          have hq1tp : (fp ++ [from_filename]).isPrefixOf tp = false := by
            cases hv : (fp ++ [from_filename]).isPrefixOf tp with
            | false => rfl
            | true =>
              have hpre3 : (fp ++ [from_filename]).isPrefixOf
                  (tp ++ [to_filename]) = true :=
                isPrefixOf_trans _ _ _ hv (isPrefixOf_append_one tp to_filename)
              rw [hpre3] at hff
              cases hff
          constructor
          · rw [hostRename_lookup_preserved h _ _ h1 fp hhr
              (isPrefixOf_append_one_self fp from_filename) hq2fp]
            exact hfnode
          · rw [hostRename_lookup_preserved h _ _ h1 tp hhr hq1tp
              (isPrefixOf_append_one_self tp to_filename)]
            exact htnode
      refine rename_post _ h1 f from_dirid to_dirid fent _ _ fde tde fp tp false false
        fnode tnode hne_fd hne_td ?_ ?_ hpres.1 hfty ?_ ?_ hpres.2 htty
      · exact hfde
      · exact sym_to_real_path_ext m _ fde.name _ rfl
          (internExt_trans _ _ _ (internExt_intern m.intern from_filename)
            (internExt_intern (m.intern.intern from_filename).2 to_filename)) hfrp
      · exact htde
      · exact sym_to_real_path_ext m _ tde.name _ rfl
          (internExt_trans _ _ _ (internExt_intern m.intern from_filename)
            (internExt_intern (m.intern.intern from_filename).2 to_filename)) htrp


/-- Helper: the concrete map `c4FS` satisfies P1. -/
theorem c4FS_mapsInverse : MapsInverse c4FS := by
  constructor
  · intro i e hie
    by_cases h0 : i = 0
    · subst h0
      have he := Option.some.inj hie
      rw [← he]
      decide
    · by_cases h1 : i = 1
      · subst h1
        have he := Option.some.inj hie
        rw [← he]
        decide
      · by_cases h2 : i = 2
        · subst h2
          have he := Option.some.inj hie
          rw [← he]
          decide
        · exfalso
          have hn : c4FS.id_to_path i = none := by
            unfold c4FS
            dsimp only
            rw [if_neg h0, if_neg h1, if_neg h2]
          rw [hn] at hie
          cases hie
  · intro p i hpi
    by_cases h0 : p = []
    · subst h0
      have hi := Option.some.inj hpi
      rw [← hi]
      exact ⟨_, rfl, rfl⟩
    · by_cases h1 : p = [0]
      · subst h1
        have hi := Option.some.inj hpi
        rw [← hi]
        exact ⟨_, rfl, rfl⟩
      · by_cases h2 : p = [0, 1]
        · subst h2
          have hi := Option.some.inj hpi
          rw [← hi]
          exact ⟨_, rfl, rfl⟩
        · exfalso
          have hn : c4FS.path_to_id p = none := by
            unfold c4FS
            dsimp only
            rw [if_neg h0, if_neg h1, if_neg h2]
          rw [hn] at hpi
          cases hpi

/-- C3 witness: renaming `f` to `g` inside the mount directory of the
concrete state rebinds fileid 2 from symbolic path `[0, 1]` to
`[0, 2]`. -/
theorem C3_rename_preserves_fileid_amended_witness :
    (MirrorFS.rename ⟨c4FS, false⟩ c4Host 1 "f" 1 "g").fs.path_to_id [0, 2] = some 2 ∧
    (∃ e1, (MirrorFS.rename ⟨c4FS, false⟩ c4Host 1 "f" 1 "g").fs.id_to_path 2 =
      some e1 ∧ e1.name = [0, 2]) ∧
    (MirrorFS.rename ⟨c4FS, false⟩ c4Host 1 "f" 1 "g").fs.path_to_id [0, 1] = none := by
  obtain ⟨g1, g2, g3⟩ := C3_rename_preserves_fileid_amended c4FS c4Host 1 1 2 "f" "g"
    ⟨[0], metadata_to_fattr3 1 (egMeta .NF3DIR 0),
      metadata_to_fattr3 1 (egMeta .NF3DIR 0), some [2]⟩
    ⟨[0], metadata_to_fattr3 1 (egMeta .NF3DIR 0),
      metadata_to_fattr3 1 (egMeta .NF3DIR 0), some [2]⟩
    ["srv"] ["srv"] ⟨egMeta .NF3DIR 0, [], ""⟩ ⟨egMeta .NF3DIR 0, [], ""⟩
    c4FS_mapsInverse (by decide) (by decide) (by decide) (by decide) (by decide)
    (by decide) (by decide) (by decide) (by decide) (by decide)
  exact ⟨g1, g2, g3 (by decide)⟩


/-- The C1 induction invariant: mutual inverse maps together with
freshness of the allocation counter. -/
def InvMap (s : FSMap) : Prop := MapsInverse s ∧ IdsBelow s

/-- Helper: a name-preserving entry modification keeps `InvMap`. -/
theorem invMap_modify (s : FSMap) (id : fileid3) (f : FSEntry → FSEntry)
    (hf : ∀ e, (f e).name = e.name) (h : InvMap s) : InvMap (s.modify_entry id f) := by
  obtain ⟨⟨h1, h2⟩, h3⟩ := h
  refine ⟨⟨?_, ?_⟩, ?_⟩
  · intro i e hie
    rw [(modify_entry_frame s id f).1]
    by_cases hi : i = id
    · subst hi
      rw [modify_entry_id_eq] at hie
      cases ho : s.id_to_path i with
      | none => rw [ho] at hie; cases hie
      | some e0 =>
        rw [ho] at hie
        dsimp only [Option.map] at hie
        injection hie with he
        rw [← he, hf e0]
        exact h1 i e0 ho
    · rw [modify_entry_id_ne s id f i hi] at hie
      exact h1 i e hie
  · intro p i hpi
    rw [(modify_entry_frame s id f).1] at hpi
    obtain ⟨e, he, hn⟩ := h2 p i hpi
    by_cases hi : i = id
    · subst hi
      refine ⟨f e, ?_, ?_⟩
      · rw [modify_entry_id_eq, he]
        rfl
      · rw [hf e]
        exact hn
    · exact ⟨e, by rw [modify_entry_id_ne s id f i hi]; exact he, hn⟩
  · intro i hi
    rw [(modify_entry_frame s id f).2.2.1]
    by_cases hid : i = id
    · subst hid
      rw [modify_entry_id_eq] at hi
      apply h3
      cases ho : s.id_to_path i with
      | none => rw [ho] at hi; simp at hi
      | some e0 => rfl
    · rw [modify_entry_id_ne s id f i hid] at hi
      exact h3 i hi

/-- Helper: removing a consistently bound (id, path) pair keeps
`InvMap`. -/
theorem invMap_unbind (s : FSMap) (fid : fileid3) (q : SymPath)
    (h : InvMap s) (hb : s.path_to_id q = some fid) :
    InvMap { s with
      id_to_path := fun j => if j = fid then none else s.id_to_path j,
      path_to_id := fun p => if p = q then none else s.path_to_id p } := by
  obtain ⟨⟨h1, h2⟩, h3⟩ := h
  obtain ⟨ent, hent, hqname⟩ := h2 q fid hb
  refine ⟨⟨?_, ?_⟩, ?_⟩
  · intro i e hie
    dsimp only at hie ⊢
    by_cases hi : i = fid
    · rw [if_pos hi] at hie; cases hie
    · rw [if_neg hi] at hie
      have hp := h1 i e hie
      have hne : e.name ≠ q := by
        intro hc
        rw [hc, hb] at hp
        injection hp with hp2
        exact hi hp2.symm
      rw [if_neg hne]
      exact hp
  · intro p i hpi
    dsimp only at hpi ⊢
    by_cases hp : p = q
    · rw [if_pos hp] at hpi; cases hpi
    · rw [if_neg hp] at hpi
      obtain ⟨e, he, hn⟩ := h2 p i hpi
      have hi : i ≠ fid := by
        intro hc
        rw [hc, hent] at he
        injection he with he2
        apply hp
        rw [← hn, ← he2]
        exact hqname
      refine ⟨e, ?_, hn⟩
      rw [if_neg hi]
      exact he
  · intro i hi
    dsimp only at hi
    by_cases hif : i = fid
    · rw [if_pos hif] at hi; simp at hi
    · rw [if_neg hif] at hi
      exact h3 i hi

/-- Helper: one step of the `delete_entry` loop keeps `InvMap`. -/
theorem invMap_delStep (acc : FSMap) (i : fileid3) (h : InvMap acc) :
    InvMap (delStep acc i) := by
  unfold delStep
  cases hie : acc.id_to_path i with
  | none => exact h
  | some ent => exact invMap_unbind acc i ent.name h (h.1.1 i ent hie)

/-- Helper: the `delete_entry` fold keeps `InvMap`. -/
theorem invMap_foldl_delStep (l : List fileid3) (s : FSMap) (h : InvMap s) :
    InvMap (l.foldl delStep s) := by
  induction l generalizing s with
  | nil => exact h
  | cons a rest ih => exact ih _ (invMap_delStep s a h)

/-- `delete_entry` keeps `InvMap`. -/
theorem invMap_delete_entry (s : FSMap) (id : fileid3) (h : InvMap s) :
    InvMap (s.delete_entry id) :=
  invMap_foldl_delStep _ s h

/-- `create_entry` keeps `InvMap`: it reuses a bound id in place, or
allocates the fresh id, which is live in neither map. -/
theorem invMap_create_entry (s : FSMap) (p : SymPath) (m : Meta) (h : InvMap s) :
    InvMap (s.create_entry p m).2 := by
  obtain ⟨⟨h1, h2⟩, h3⟩ := h
  unfold FSMap.create_entry
  cases hb : s.path_to_id p with
  | some chid =>
    dsimp only
    exact invMap_modify s chid _ (fun e => rfl) ⟨⟨h1, h2⟩, h3⟩
  | none =>
    dsimp only
    have hfresh : s.id_to_path s.next_fileid = none := by
      cases hf : s.id_to_path s.next_fileid with
      | none => rfl
      | some e =>
        have := h3 s.next_fileid (by rw [hf]; rfl)
        exact absurd this (lt_irrefl _)
    refine ⟨⟨?_, ?_⟩, ?_⟩
    · intro i e hie
      dsimp only at hie ⊢
      by_cases hi : i = s.next_fileid
      · rw [if_pos hi] at hie
        injection hie with he
        rw [← he]
        dsimp only
        rw [if_pos rfl, hi]
      · rw [if_neg hi] at hie
        have hp := h1 i e hie
        have hne : e.name ≠ p := by
          intro hc
          rw [hc, hb] at hp
          cases hp
        rw [if_neg hne]
        exact hp
    · intro q i hqi
      dsimp only at hqi ⊢
      by_cases hq : q = p
      · rw [if_pos hq] at hqi
        injection hqi with hi
        refine ⟨⟨p, metadata_to_fattr3 s.next_fileid m,
          metadata_to_fattr3 s.next_fileid m, none⟩, ?_, hq.symm⟩
        rw [← hi, if_pos rfl]
      · rw [if_neg hq] at hqi
        obtain ⟨e, he, hn⟩ := h2 q i hqi
        have hi : i ≠ s.next_fileid := by
          intro hc
          rw [hc, hfresh] at he
          cases he
        exact ⟨e, by rw [if_neg hi]; exact he, hn⟩
    · intro i hi
      dsimp only at hi ⊢
      by_cases hin : i = s.next_fileid
      · rw [hin]
        exact Nat.lt_succ_self _
      · rw [if_neg hin] at hi
        exact Nat.lt_succ_of_lt (h3 i hi)


/-- Helper: `find_entry` success unfolds to a map hit. -/
theorem find_entry_ok (s : FSMap) (id : fileid3) (e : FSEntry)
    (h : s.find_entry id = .ok e) : s.id_to_path id = some e := by
  unfold FSMap.find_entry at h
  cases hie : s.id_to_path id with
  | none => rw [hie] at h; cases h
  | some e0 =>
    rw [hie] at h
    injection h with h2
    rw [h2]

/-- Every successful `refresh_entry` keeps `InvMap`: the result is the
original map, a cascading delete, or an attribute-only update. -/
theorem invMap_refresh_entry (s : FSMap) (h : Host) (id : fileid3)
    (r : RefreshResult) (s1 : FSMap) (hInv : InvMap s)
    (heq : s.refresh_entry h id = .ok (r, s1)) : InvMap s1 := by
  unfold FSMap.refresh_entry at heq
  cases hie : s.id_to_path id with
  | none => rw [hie] at heq; cases heq
  | some entry =>
    rw [hie] at heq
    dsimp only at heq
    cases hrp : s.sym_to_real_path entry.name with
    | none =>
      rw [hrp] at heq
      by_cases hn : entry.name = []
      · rw [if_pos hn] at heq
        injection heq with hp
        injection hp with ha hb
        rw [← hb]
        exact hInv
      · rw [if_neg hn] at heq
        cases hname : entry.name with
        | nil =>
          rw [hname] at heq
          dsimp only at heq
          injection heq with hp
          injection hp with ha hb
          rw [← hb]
          exact hInv
        | cons s0 rest =>
          rw [hname] at heq
          cases rest with
          | nil =>
            dsimp only at heq
            by_cases hm : s.mounts = []
            · rw [if_pos hm] at heq
              injection heq with hp
              injection hp with ha hb
              rw [← hb]
              exact hInv
            · rw [if_neg hm] at heq
              cases hg : s.intern.get s0 with
              | none => rw [hg] at heq; cases heq
              | some mount_name =>
                rw [hg] at heq
                dsimp only at heq
                cases hmf : mountFor s.mounts mount_name with
                | some mres =>
                  obtain ⟨mt, source_path, mro⟩ := mres
                  rw [hmf] at heq
                  dsimp only at heq
                  by_cases hex : exists_no_traverse h source_path = true
                  · rw [if_neg (fun hc => hc hex)] at heq
                    cases hl : h.lookup source_path with
                    | none => rw [hl] at heq; cases heq
                    | some node =>
                      rw [hl] at heq
                      dsimp only at heq
                      by_cases hd : fattr3_differ (metadata_to_fattr3 id node.meta)
                          entry.fsmeta = true
                      · rw [if_pos hd] at heq
                        injection heq with hp
                        injection hp with ha hb
                        rw [← hb]
                        exact invMap_modify s id _ (fun e => rfl) hInv
                      · rw [if_neg hd] at heq
                        injection heq with hp
                        injection hp with ha hb
                        rw [← hb]
                        exact hInv
                  · rw [if_pos hex] at heq
                    injection heq with hp
                    injection hp with ha hb
                    rw [← hb]
                    exact invMap_delete_entry s id hInv
                | none =>
                  rw [hmf] at heq
                  injection heq with hp
                  injection hp with ha hb
                  rw [← hb]
                  exact hInv
          | cons s1' rest' =>
            dsimp only at heq
            injection heq with hp
            injection hp with ha hb
            rw [← hb]
            exact hInv
    | some rpb =>
      obtain ⟨real_path, rro⟩ := rpb
      rw [hrp] at heq
      dsimp only at heq
      by_cases hex : exists_no_traverse h real_path = true
      · rw [if_neg (fun hc => hc hex)] at heq
        cases hl : h.lookup real_path with
        | none => rw [hl] at heq; cases heq
        | some node =>
          rw [hl] at heq
          dsimp only at heq
          by_cases hd : fattr3_differ (metadata_to_fattr3 id node.meta) entry.fsmeta = true
          · rw [if_neg (fun hc => hc hd)] at heq
            by_cases hty : entry.fsmeta.meta.ftype = node.meta.ftype
            · rw [if_neg (fun hc => hc hty)] at heq
              injection heq with hp
              injection hp with ha hb
              rw [← hb]
              exact invMap_modify s id _ (fun e => rfl) hInv
            · rw [if_pos hty] at heq
              injection heq with hp
              injection hp with ha hb
              rw [← hb]
              exact invMap_delete_entry s id hInv
          · rw [if_pos hd] at heq
            injection heq with hp
            injection hp with ha hb
            rw [← hb]
            exact hInv
      · rw [if_pos hex] at heq
        injection heq with hp
        injection hp with ha hb
        rw [← hb]
        exact invMap_delete_entry s id hInv

/-- `refresh_entry_ign` keeps `InvMap`. -/
theorem invMap_refresh_ign (s : FSMap) (h : Host) (id : fileid3)
    (hInv : InvMap s) : InvMap (s.refresh_entry_ign h id) := by
  unfold FSMap.refresh_entry_ign
  cases heq : s.refresh_entry h id with
  | error e => exact hInv
  | ok pr =>
    obtain ⟨r, s1⟩ := pr
    exact invMap_refresh_entry s h id r s1 hInv heq

/-- `finishDirList` keeps `InvMap` (only the children set changes). -/
theorem invMap_finishDirList (s : FSMap) (id : fileid3) (nc : List fileid3)
    (hInv : InvMap s) : InvMap (finishDirList s id nc).1 := by
  unfold finishDirList
  cases hie : s.id_to_path id with
  | none => exact hInv
  | some e =>
    dsimp only
    exact invMap_modify s id _ (fun e0 => rfl) hInv

/-- Helper: a fold whose step keeps `InvMap` of the map component keeps
it. -/
theorem invMap_foldl_pair {α : Type}
    (step : FSMap × List fileid3 → α → FSMap × List fileid3)
    (hstep : ∀ acc a, InvMap acc.1 → InvMap (step acc a).1)
    (l : List α) (acc : FSMap × List fileid3) (hInv : InvMap acc.1) :
    InvMap (l.foldl step acc).1 := by
  induction l generalizing acc with
  | nil => exact hInv
  | cons a rest ih => exact ih _ (hstep acc a hInv)

/-- `refresh_dir_list` keeps `InvMap`: every collected child goes
through `create_entry` and the final write only replaces the children
set. -/
theorem invMap_refresh_dir_list (s : FSMap) (h : Host) (id : fileid3)
    (hInv : InvMap s) : InvMap (s.refresh_dir_list h id).1 := by
  unfold FSMap.refresh_dir_list
  cases hie : s.id_to_path id with
  | none => exact hInv
  | some entry =>
    dsimp only
    split
    · exact hInv
    · split
      · exact hInv
      · split
        · apply invMap_finishDirList
          apply invMap_foldl_pair _ ?_ s.mounts (s, []) hInv
          intro acc a hacc
          dsimp only
          cases hsi : acc.1.intern.intern (trimSlash a.1) with
          | mk sym it =>
            dsimp only
            split
            · cases hl : h.lookup a.2.1 with
              | some node =>
                dsimp only
                exact invMap_create_entry _ _ _ hacc
              | none =>
                dsimp only
                exact invMap_create_entry _ _ _ hacc
            · exact hacc
        · split
          · exact hInv
          · split
            · apply invMap_finishDirList
              apply invMap_foldl_pair _ ?_ _ (s, []) hInv
              intro acc a hacc
              dsimp only
              cases hsi : acc.1.intern.intern a.1 with
              | mk sym it =>
                dsimp only
                exact invMap_create_entry _ _ _ hacc
            · exact invMap_finishDirList s id [] hInv


/-- The binding update of `rename` keeps `InvMap` when the destination
path is unbound or equals the source path. -/
theorem invMap_renameBind (fs1 : FSMap) (fid : fileid3) (fent : FSEntry)
    (fromS toS : SymPath) (fd td : fileid3) (hInv : InvMap fs1)
    (hb : fs1.path_to_id fromS = some fid)
    (hfe : fs1.id_to_path fid = some fent)
    (hg : fs1.path_to_id toS = none ∨ toS = fromS) :
    InvMap (renameBind fs1 fid fent fromS toS fd td) := by
  have hfname : fent.name = fromS := by
    obtain ⟨e, he, hn⟩ := hInv.1.2 fromS fid hb
    rw [hfe] at he
    injection he with he2
    rw [he2]
    exact hn
  have hcore : InvMap { fs1 with
      id_to_path := fun j =>
        if j = fid then some { fent with name := toS } else fs1.id_to_path j,
      path_to_id := fun p =>
        if p = toS then some fid
        else if p = fromS then none
        else fs1.path_to_id p } := by
    obtain ⟨⟨h1, h2⟩, h3⟩ := hInv
    refine ⟨⟨?_, ?_⟩, ?_⟩
    · intro i e hie
      dsimp only at hie ⊢
      by_cases hi : i = fid
      · rw [if_pos hi] at hie
        injection hie with he
        rw [← he]
        dsimp only
        rw [if_pos rfl, hi]
      · rw [if_neg hi] at hie
        have hp := h1 i e hie
        have hne1 : e.name ≠ toS := by
          intro hc
          cases hg with
          | inl hnone => rw [hc, hnone] at hp; cases hp
          | inr heq2 =>
            rw [hc, heq2, hb] at hp
            injection hp with hp2
            exact hi hp2.symm
        have hne2 : e.name ≠ fromS := by
          intro hc
          rw [hc, hb] at hp
          injection hp with hp2
          exact hi hp2.symm
        rw [if_neg hne1, if_neg hne2]
        exact hp
    · intro p i hpi
      dsimp only at hpi ⊢
      by_cases hp : p = toS
      · rw [if_pos hp] at hpi
        injection hpi with hi
        refine ⟨{ fent with name := toS }, ?_, hp.symm⟩
        rw [← hi, if_pos rfl]
      · rw [if_neg hp] at hpi
        by_cases hpf : p = fromS
        · rw [if_pos hpf] at hpi
          cases hpi
        · rw [if_neg hpf] at hpi
          obtain ⟨e, he, hn⟩ := h2 p i hpi
          have hi : i ≠ fid := by
            intro hc
            rw [hc, hfe] at he
            injection he with he2
            apply hpf
            rw [← hn, ← he2]
            exact hfname
          exact ⟨e, by rw [if_neg hi]; exact he, hn⟩
    · intro i hi
      dsimp only at hi ⊢
      by_cases hif : i = fid
      · rw [hif]
        exact h3 fid (by rw [hfe]; rfl)
      · rw [if_neg hif] at hi
        exact h3 i hi
  unfold renameBind
  dsimp only
  split
  · exact invMap_modify _ _ _ (fun e => rfl) (invMap_modify _ _ _ (fun e => rfl) hcore)
  · exact hcore

/-- The trailing refreshes of `rename` keep `InvMap`. -/
theorem invMap_renameTail (fsX : FSMap) (h1 : Host) (fd td : fileid3)
    (hInv : InvMap fsX) : InvMap (renameTail fsX h1 fd td).fs := by
  unfold renameTail
  dsimp only
  split
  · exact invMap_refresh_ign _ _ _ (invMap_refresh_ign _ _ _ hInv)
  · exact invMap_refresh_ign _ _ _ hInv


/-- Changing only the interner keeps `InvMap`. -/
theorem invMap_intern (s : FSMap) (x : SymbolTable) (h : InvMap s) :
    InvMap { s with intern := x } := h

/-- Removing a bound pair (with an interner change) keeps `InvMap`
(the shape produced by `remove`). -/
theorem invMap_remove_unbind (s : FSMap) (x : SymbolTable) (fid : fileid3)
    (q : SymPath) (h : InvMap s) (hb : s.path_to_id q = some fid) :
    InvMap { s with
      intern := x,
      id_to_path := fun j => if j = fid then none else s.id_to_path j,
      path_to_id := fun p => if p = q then none else s.path_to_id p } :=
  invMap_unbind s fid q h hb

/-- The slow path of `lookup` keeps `InvMap`. -/
theorem invMap_lookupSlow (s : FSMap) (h : Host) (dirid : fileid3) (fn : String)
    (hInv : InvMap s) : InvMap (lookupSlow s h dirid fn).fs := by
  unfold lookupSlow
  cases hfd : s.find_entry dirid with
  | error e => exact hInv
  | ok dirent =>
    dsimp only
    cases hrp : s.sym_to_real_path dirent.name with
    | none =>
      dsimp only
      cases hdn : dirent.name with
      | nil => exact hInv
      | cons s0 rest =>
        cases rest with
        | nil =>
          dsimp only
          cases hg : s.intern.get s0 with
          | none => exact hInv
          | some mn =>
            dsimp only
            split
            · exact hInv
            · exact hInv
        | cons a b => exact hInv
    | some x =>
      obtain ⟨dir_path, bro⟩ := x
      dsimp only
      split
      · exact hInv
      · cases hre : s.refresh_entry h dirid with
        | error e => exact hInv
        | ok pr =>
          obtain ⟨r, fs1⟩ := pr
          have hInv1 := invMap_refresh_entry s h dirid r fs1 hInv hre
          cases r with
          | Delete => exact hInv1
          | Reload =>
            dsimp only
            split
            · exact invMap_refresh_dir_list fs1 h dirid hInv1
            · exact invMap_refresh_dir_list fs1 h dirid hInv1
          | Noop =>
            dsimp only
            split
            · exact invMap_refresh_dir_list fs1 h dirid hInv1
            · exact invMap_refresh_dir_list fs1 h dirid hInv1

/-- `lookup` keeps `InvMap`. -/
theorem invMap_lookup (s : FSMap) (h : Host) (ro : Bool) (dirid : fileid3)
    (fn : String) (hInv : InvMap s) :
    InvMap (MirrorFS.lookup ⟨s, ro⟩ h dirid fn).fs := by
  unfold MirrorFS.lookup
  dsimp only
  cases hfc : s.find_child dirid fn with
  | ok id =>
    dsimp only
    split
    · exact hInv
    · exact invMap_lookupSlow s h dirid fn hInv
  | error e => exact invMap_lookupSlow s h dirid fn hInv

/-- `getattr` keeps `InvMap`. -/
theorem invMap_getattr (s : FSMap) (h : Host) (ro : Bool) (id : fileid3)
    (hInv : InvMap s) : InvMap (MirrorFS.getattr ⟨s, ro⟩ h id).fs := by
  unfold MirrorFS.getattr
  dsimp only
  cases hre : s.refresh_entry h id with
  | error e => exact hInv
  | ok pr =>
    obtain ⟨r, fs1⟩ := pr
    have hInv1 := invMap_refresh_entry s h id r fs1 hInv hre
    cases r with
    | Delete => exact hInv1
    | Reload =>
      dsimp only
      split
      · exact hInv1
      · exact hInv1
    | Noop =>
      dsimp only
      split
      · exact hInv1
      · exact hInv1

/-- `readdir` keeps `InvMap`. -/
theorem invMap_readdir (s : FSMap) (h : Host) (ro : Bool) (dirid sa : fileid3)
    (maxe : Nat) (hInv : InvMap s) :
    InvMap (MirrorFS.readdir ⟨s, ro⟩ h dirid sa maxe).fs := by
  unfold MirrorFS.readdir
  dsimp only
  cases hre : s.refresh_entry h dirid with
  | error e => exact hInv
  | ok pr =>
    obtain ⟨r, fs1⟩ := pr
    have hInv1 := invMap_refresh_entry s h dirid r fs1 hInv hre
    dsimp only
    repeat' split
    all_goals exact invMap_refresh_dir_list fs1 h dirid hInv1

/-- `setattr` keeps `InvMap` (an attribute-only entry update). -/
theorem invMap_setattr (s : FSMap) (h : Host) (ro : Bool) (id : fileid3)
    (sa : sattr3) (hInv : InvMap s) :
    InvMap (MirrorFS.setattr ⟨s, ro⟩ h id sa).fs := by
  unfold MirrorFS.setattr
  dsimp only
  cases hfe : s.find_entry id with
  | error e => exact hInv
  | ok entry =>
    dsimp only
    cases hps : path_setattr h (s.sym_to_path entry.name) sa with
    | error e => exact hInv
    | ok h1 =>
      dsimp only
      cases hl : h1.lookup (s.sym_to_path entry.name) with
      | none => exact hInv
      | some node =>
        dsimp only
        exact invMap_modify _ _ _ (fun e => rfl) hInv

/-- `write` never changes the map. -/
theorem invMap_write (s : FSMap) (h : Host) (ro : Bool) (id : fileid3)
    (offset : Nat) (data : List Nat) (hInv : InvMap s) :
    InvMap (MirrorFS.write ⟨s, ro⟩ h id offset data).fs := by
  unfold MirrorFS.write
  dsimp only
  repeat' split
  all_goals exact hInv

/-- `create_fs_object` keeps `InvMap`. -/
theorem invMap_create_fs_object (s : FSMap) (h : Host) (ro : Bool)
    (dirid : fileid3) (name : String) (obj : CreateFSObject) (hInv : InvMap s) :
    InvMap (MirrorFS.create_fs_object ⟨s, ro⟩ h dirid name obj).fs := by
  unfold MirrorFS.create_fs_object
  dsimp only
  split
  · exact hInv
  · cases hfe : s.find_entry dirid with
    | error e => exact hInv
    | ok ent =>
      dsimp only
      cases hrp : s.sym_to_real_path ent.name with
      | none => exact hInv
      | some x =>
        obtain ⟨dir_path, dro⟩ := x
        dsimp only
        split
        · exact hInv
        · cases hcs : createSyscall h dir_path (dir_path ++ [name]) obj with
          | error e => exact hInv
          | ok h1 =>
            dsimp only
            cases hl : Host.lookup h1 (dir_path ++ [name]) with
            | none => exact invMap_intern _ _ (invMap_refresh_ign _ _ _ hInv)
            | some node =>
              dsimp only
              split
              · exact invMap_create_entry _ _ _
                  (invMap_intern _ _ (invMap_refresh_ign _ _ _ hInv))
              · exact invMap_modify _ _ _ (fun e => rfl)
                  (invMap_create_entry _ _ _
                    (invMap_intern _ _ (invMap_refresh_ign _ _ _ hInv)))

/-- `remove` keeps `InvMap`: it unbinds a consistent pair (or nothing)
and refreshes the parent. -/
theorem invMap_remove (s : FSMap) (h : Host) (ro : Bool) (dirid : fileid3)
    (fn : String) (hInv : InvMap s) :
    InvMap (MirrorFS.remove ⟨s, ro⟩ h dirid fn).fs := by
  unfold MirrorFS.remove
  dsimp only
  split
  · exact hInv
  · cases hfe : s.find_entry dirid with
    | error e => exact hInv
    | ok ent =>
      dsimp only
      cases hrp : s.sym_to_real_path ent.name with
      | none => exact hInv
      | some x =>
        obtain ⟨dir_path, dro⟩ := x
        dsimp only
        split
        · exact hInv
        · cases hl : h.lookup (dir_path ++ [fn]) with
          | none => exact hInv
          | some node =>
            dsimp only
            split
            · exact hInv
            · cases hb : s.path_to_id (ent.name ++ [(s.intern.intern fn).1]) with
              | none => exact invMap_refresh_ign _ _ _ (invMap_intern _ _ hInv)
              | some fid =>
                dsimp only
                apply invMap_refresh_ign
                refine invMap_modify _ _ _ ?_ ?_
                · intro e
                  rfl
                · exact invMap_remove_unbind s _ fid _ hInv hb

/-- `rename` under the no-orphan guard keeps `InvMap`. -/
theorem invMap_rename (s : FSMap) (h : Host) (ro : Bool) (fd : fileid3)
    (fn : String) (td : fileid3) (tn : String) (hInv : InvMap s)
    (hguard : RenameOkGuard s fd fn td tn) :
    InvMap (MirrorFS.rename ⟨s, ro⟩ h fd fn td tn).fs := by
  unfold MirrorFS.rename
  dsimp only
  split
  · exact hInv
  · cases hfd : s.find_entry fd with
    | error e => exact hInv
    | ok fde =>
      dsimp only
      cases hfrp : s.sym_to_real_path fde.name with
      | none => exact hInv
      | some x1 =>
        obtain ⟨fp, fro⟩ := x1
        cases htd : s.find_entry td with
        | error e => exact hInv
        | ok tde =>
          dsimp only
          cases htrp : s.sym_to_real_path tde.name with
          | none => exact hInv
          | some x2 =>
            obtain ⟨tp, tro⟩ := x2
            dsimp only
            split
            · exact hInv
            · split
              · exact hInv
              · split
                · exact hInv
                · cases hhr : hostRename h (fp ++ [fn]) (tp ++ [tn]) with
                  | none => exact hInv
                  | some h1 =>
                    dsimp only
                    cases hb : s.path_to_id (fde.name ++ [(s.intern.intern fn).1]) with
                    | none => exact invMap_renameTail _ _ _ _ (invMap_intern _ _ (invMap_intern _ _ hInv))
                    | some fid =>
                      dsimp only
                      cases hfe : s.id_to_path fid with
                      | none => exact invMap_intern _ _ (invMap_intern _ _ hInv)
                      | some fent =>
                        dsimp only
                        apply invMap_renameTail
                        refine invMap_renameBind _ fid fent _ _ fd td ?_ ?_ ?_ ?_
                        · exact hInv
                        · exact hb
                        · exact hfe
                        · cases hguard fde tde (find_entry_ok s fd fde hfd)
                            (find_entry_ok s td tde htd) with
                          | inl hnone => exact Or.inl hnone
                          | inr heq2 => exact Or.inr heq2


/-- `mknod` keeps `InvMap`. -/
theorem invMap_mknod (s : FSMap) (h : Host) (ro : Bool) (dirid : fileid3)
    (fn : String) (ft : ftype3) (sa : sattr3) (hInv : InvMap s) :
    InvMap (MirrorFS.mknod ⟨s, ro⟩ h dirid fn ft sa).fs := by
  unfold MirrorFS.mknod
  cases ft with
  | NF3CHR => exact invMap_create_fs_object s h ro dirid fn _ hInv
  | NF3BLK => exact invMap_create_fs_object s h ro dirid fn _ hInv
  | NF3SOCK => exact invMap_create_fs_object s h ro dirid fn _ hInv
  | NF3FIFO => exact invMap_create_fs_object s h ro dirid fn _ hInv
  | NF3REG => exact hInv
  | NF3DIR => exact hInv
  | NF3LNK => exact hInv

/-- C1 (amended): along every trace of the public operations without
`link`, with `rename` restricted to calls whose destination symbolic
path is unbound or equal to the source path, the id-to-entry and
path-to-id maps stay mutual inverses (and every live id stays below the
allocation counter).  The unrestricted claim is refuted by
`C1_maps_inverse_counterexample`: `link` deliberately binds a second
symbolic path to an existing fileid while the entry keeps its single
`name`, so the maps stop being mutual inverses. -/
theorem C1_maps_inverse_amended (ro : Bool) (s0 : FSMap) (h0 : Host)
    (st : FSMap × Host) (hInv : MapsInverse s0 ∧ IdsBelow s0)
    (hreach : ReachR ro (s0, h0) st) :
    MapsInverse st.1 ∧ IdsBelow st.1 := by
  induction hreach with
  | refl => exact hInv
  | tail hr hstep ih =>
    cases hstep with
    | lookup s h dirid fn => exact invMap_lookup s h ro dirid fn ih
    | getattr s h id => exact invMap_getattr s h ro id ih
    | readdir s h dirid sa maxe => exact invMap_readdir s h ro dirid sa maxe ih
    | setattr s h id sa => exact invMap_setattr s h ro id sa ih
    | write s h id offset data => exact invMap_write s h ro id offset data ih
    | create s h dirid fn sa => exact invMap_create_fs_object s h ro dirid fn _ ih
    | create_exclusive s h dirid fn => exact invMap_create_fs_object s h ro dirid fn _ ih
    | remove s h dirid fn => exact invMap_remove s h ro dirid fn ih
    | rename s h fd fn td tn hguard => exact invMap_rename s h ro fd fn td tn ih hguard
    | mkdir s h dirid fn sa => exact invMap_create_fs_object s h ro dirid fn _ ih
    | symlink s h dirid fn tgt sa => exact invMap_create_fs_object s h ro dirid fn _ ih
    | mknod s h dirid fn ft sa => exact invMap_mknod s h ro dirid fn ft sa ih
    | host_change s h h1 hok => exact ih


/-- Host for the reachability counterexamples: root directory `root`,
mount source directory `srv`, and a regular file `srv/f`. -/
def c1Host : Host :=
  ⟨[(["root"], ⟨egMeta .NF3DIR 0, [], ""⟩),
    (["srv"], ⟨egMeta .NF3DIR 0, [], ""⟩),
    (["srv", "f"], ⟨egMeta .NF3REG 3, [7, 8, 9], ""⟩)], 50⟩

/-- The map built by the server constructor over `c1Host` with the
single writable mount `/a` → `srv`. -/
def c1Init : FSMap := FSMap.new_with_mounts c1Host ["root"] [("/a", ["srv"], false)]

/-- State after `lookup(1, "f")` (which creates the entry for `a/f`). -/
def c1AfterLookup : OpOut fileid3 := MirrorFS.lookup ⟨c1Init, false⟩ c1Host 1 "f"

/-- State after the subsequent `link(2, 1, "l")`. -/
def c1AfterLink : OpOut Unit :=
  MirrorFS.link ⟨c1AfterLookup.fs, false⟩ c1AfterLookup.host 2 1 "l"

/-- C1 counterexample: from a freshly constructed server, `lookup`
followed by `link` reaches a state in which the maps are not mutual
inverses — the link path `[0, 2]` is bound to fileid 2 whose entry still
carries the original name `[0, 1]`. -/
theorem C1_maps_inverse_counterexample :
    Reach false (c1Init, c1Host) (c1AfterLink.fs, c1AfterLink.host) ∧
    ¬ MapsInverse c1AfterLink.fs := by
  constructor
  · exact Relation.ReflTransGen.tail
      (Relation.ReflTransGen.tail Relation.ReflTransGen.refl
        (Step.lookup c1Init c1Host 1 "f"))
      (Step.link c1AfterLookup.fs c1AfterLookup.host 2 1 "l")
  · intro hM
    obtain ⟨e, he, hn⟩ := hM.2 [0, 2] 2 (by decide)
    have hname : (c1AfterLink.fs.id_to_path 2).map (fun x => x.name) = some [0, 1] := by
      decide
    rw [he] at hname
    dsimp only [Option.map] at hname
    injection hname with hname2
    rw [hn] at hname2
    cases hname2

/-- Map of the concrete state `c4FS` is below its counter. -/
theorem c4FS_idsBelow : IdsBelow c4FS := by
  intro i hi
  by_cases h0 : i = 0
  · rw [h0]; decide
  · by_cases h1 : i = 1
    · rw [h1]; decide
    · by_cases h2 : i = 2
      · rw [h2]; decide
      · exfalso
        have hn : c4FS.id_to_path i = none := by
          unfold c4FS
          dsimp only
          rw [if_neg h0, if_neg h1, if_neg h2]
        rw [hn] at hi
        simp at hi

/-- C1 witness: one restricted step (a `getattr`) from the concrete
inverse state keeps the maps mutual inverses. -/
theorem C1_maps_inverse_amended_witness :
    MapsInverse (MirrorFS.getattr ⟨c4FS, false⟩ c4Host 2).fs ∧
    IdsBelow (MirrorFS.getattr ⟨c4FS, false⟩ c4Host 2).fs :=
  C1_maps_inverse_amended false c4FS c4Host
    ((MirrorFS.getattr ⟨c4FS, false⟩ c4Host 2).fs,
     (MirrorFS.getattr ⟨c4FS, false⟩ c4Host 2).host)
    ⟨c4FS_mapsInverse, c4FS_idsBelow⟩
    (Relation.ReflTransGen.tail Relation.ReflTransGen.refl
      (StepR.getattr c4FS c4Host 2))


/-- Host where the mount source `srv` has been removed out-of-band. -/
def c7Host : Host := ⟨[(["root"], ⟨egMeta .NF3DIR 0, [], ""⟩)], 60⟩

/-- State after `getattr(1)` against the changed host. -/
def c7After : OpOut fattr3 := MirrorFS.getattr ⟨c1Init, false⟩ c7Host 1

/-- C7 counterexample: after the mount source disappears from the host,
one `getattr` on the mount fileid deletes its entry, but the root's
children set still contains the dead fileid 1 — it is not the exact set
of live mount fileids. -/
theorem C7_root_children_counterexample :
    Reach false (c1Init, c1Host) (c7After.fs, c7After.host) ∧
    ¬ RootChildrenExact c7After.fs := by
  constructor
  · exact Relation.ReflTransGen.tail
      (Relation.ReflTransGen.tail Relation.ReflTransGen.refl
        (Step.host_change c1Init c1Host c7Host
          (by decide : Host.lookup c7Host [] = none)))
      (Step.getattr c1Init c7Host 1)
  · intro hR
    obtain ⟨e, he, hname, ch, hch, hiff⟩ := hR
    have h0 : (c7After.fs.id_to_path 0).map (fun x => x.children) = some (some [1]) := by
      decide
    rw [he] at h0
    dsimp only [Option.map] at h0
    injection h0 with h02
    rw [hch] at h02
    injection h02 with h03
    have hmem : (1 : fileid3) ∈ ch := by
      rw [h03]
      exact List.mem_singleton.mpr rfl
    obtain ⟨e1, he1, _⟩ := (hiff 1).mp hmem
    have hnone : c7After.fs.id_to_path 1 = none := by decide
    rw [hnone] at he1
    cases he1

/-- The C7 induction invariant: the root is live with the empty name,
only the root carries the empty name, the empty path is bound to 0 and
nothing else is, no children set contains 0, and the allocator is past
0. -/
def RootInv (s : FSMap) : Prop :=
  (∃ e, s.id_to_path 0 = some e ∧ e.name = []) ∧
  (∀ i e, s.id_to_path i = some e → e.name = [] → i = 0) ∧
  s.path_to_id [] = some 0 ∧
  (∀ p, s.path_to_id p = some 0 → p = []) ∧
  (∀ i e ch, s.id_to_path i = some e → e.children = some ch → 0 ∉ ch) ∧
  1 ≤ s.next_fileid


/-- Changing only the interner keeps `RootInv`. -/
theorem rootInv_intern (s : FSMap) (x : SymbolTable) (h : RootInv s) :
    RootInv { s with intern := x } := h

/-- A name-preserving, zero-safe entry modification keeps `RootInv`. -/
theorem rootInv_modify (s : FSMap) (id : fileid3) (f : FSEntry → FSEntry)
    (hfn : ∀ e, (f e).name = e.name)
    (hfc : ∀ e ch', (f e).children = some ch' →
      (∀ ch0, e.children = some ch0 → (0 : fileid3) ∉ ch0) → (0 : fileid3) ∉ ch')
    (h : RootInv s) : RootInv (s.modify_entry id f) := by
  obtain ⟨⟨e0, he0, hn0⟩, hb, hc, hd, hch, hnf⟩ := h
  refine ⟨?_, ?_, ?_, ?_, ?_, ?_⟩
  · by_cases hid : (0 : fileid3) = id
    · refine ⟨f e0, ?_, ?_⟩
      · rw [hid, modify_entry_id_eq, ← hid, he0]
        rfl
      · rw [hfn e0]
        exact hn0
    · refine ⟨e0, ?_, hn0⟩
      rw [modify_entry_id_ne s id f 0 hid]
      exact he0
  · intro i e hie hni
    by_cases hid : i = id
    · subst hid
      rw [modify_entry_id_eq] at hie
      cases ho : s.id_to_path i with
      | none => rw [ho] at hie; cases hie
      | some ei =>
        rw [ho] at hie
        dsimp only [Option.map] at hie
        injection hie with he2
        apply hb i ei ho
        rw [← hfn ei, he2]
        exact hni
    · rw [modify_entry_id_ne s id f i hid] at hie
      exact hb i e hie hni
  · rw [(modify_entry_frame s id f).1]
    exact hc
  · intro p hp
    rw [(modify_entry_frame s id f).1] at hp
    exact hd p hp
  · intro i e ch hie hch2
    by_cases hid : i = id
    · subst hid
      rw [modify_entry_id_eq] at hie
      cases ho : s.id_to_path i with
      | none => rw [ho] at hie; cases hie
      | some ei =>
        rw [ho] at hie
        dsimp only [Option.map] at hie
        injection hie with he2
        refine hfc ei ch ?_ ?_
        · rw [he2]
          exact hch2
        · intro ch0 hch0
          exact hch i ei ch0 ho hch0
    · rw [modify_entry_id_ne s id f i hid] at hie
      exact hch i e ch hie hch2
  · rw [(modify_entry_frame s id f).2.2.1]
    exact hnf

/-- Removing a non-root id and a non-empty path keeps `RootInv`. -/
theorem rootInv_unbind (s : FSMap) (fid : fileid3) (q : SymPath)
    (h : RootInv s) (hfid : fid ≠ 0) (hq : q ≠ []) :
    RootInv { s with
      id_to_path := fun j => if j = fid then none else s.id_to_path j,
      path_to_id := fun p => if p = q then none else s.path_to_id p } := by
  obtain ⟨⟨e0, he0, hn0⟩, hb, hc, hd, hch, hnf⟩ := h
  refine ⟨?_, ?_, ?_, ?_, ?_, ?_⟩
  · refine ⟨e0, ?_, hn0⟩
    dsimp only
    rw [if_neg (fun hcc => hfid hcc.symm)]
    exact he0
  · intro i e hie hni
    dsimp only at hie
    by_cases hif : i = fid
    · rw [if_pos hif] at hie; cases hie
    · rw [if_neg hif] at hie
      exact hb i e hie hni
  · dsimp only
    rw [if_neg (fun hcc => hq hcc.symm)]
    exact hc
  · intro p hp
    dsimp only at hp
    by_cases hpq : p = q
    · rw [if_pos hpq] at hp; cases hp
    · rw [if_neg hpq] at hp
      exact hd p hp
  · intro i e ch hie hch2
    dsimp only at hie
    by_cases hif : i = fid
    · rw [if_pos hif] at hie; cases hie
    · rw [if_neg hif] at hie
      exact hch i e ch hie hch2
  · exact hnf

/-- The `remove`-shaped unbinding (with an interner change) keeps
`RootInv`. -/
theorem rootInv_remove_unbind (s : FSMap) (x : SymbolTable) (fid : fileid3)
    (q : SymPath) (h : RootInv s) (hfid : fid ≠ 0) (hq : q ≠ []) :
    RootInv { s with
      intern := x,
      id_to_path := fun j => if j = fid then none else s.id_to_path j,
      path_to_id := fun p => if p = q then none else s.path_to_id p } :=
  rootInv_unbind s fid q h hfid hq

/-- One `delete_entry` step at a non-root id keeps `RootInv`. -/
theorem rootInv_delStep (acc : FSMap) (i : fileid3) (h : RootInv acc)
    (hi : i ≠ 0) : RootInv (delStep acc i) := by
  unfold delStep
  cases hie : acc.id_to_path i with
  | none => exact h
  | some ent =>
    exact rootInv_unbind acc i ent.name h hi (fun hcc => hi (h.2.1 i ent hie hcc))

/-- The collection never reaches the root when no children set contains
it and the start id is non-root. -/
theorem collectAll_ne_zero (s : FSMap)
    (he : ∀ i e ch, s.id_to_path i = some e → e.children = some ch →
      (0 : fileid3) ∉ ch) (fuel : Nat) :
    ∀ id, id ≠ 0 → (0 : fileid3) ∉ collectAll s fuel id := by
  induction fuel with
  | zero =>
    intro id hid hmem
    unfold collectAll at hmem
    exact hid (List.mem_singleton.mp hmem).symm
  | succ n ih =>
    intro id hid hmem
    unfold collectAll at hmem
    rcases List.mem_cons.mp hmem with h0 | h0
    · exact hid h0.symm
    · cases hie : s.id_to_path id with
      | none =>
        rw [hie] at h0
        simp at h0
      | some ent =>
        rw [hie] at h0
        dsimp only at h0
        cases hch : ent.children with
        | none =>
          rw [hch] at h0
          simp at h0
        | some ch =>
          rw [hch] at h0
          dsimp only at h0
          obtain ⟨j, hj, hjc⟩ := List.mem_flatMap.mp h0
          exact ih j (fun hcc => he id ent ch hie hch (hcc ▸ hj)) hjc

/-- The `delete_entry` fold over non-root ids keeps `RootInv`. -/
theorem rootInv_foldl_delStep (l : List fileid3) (s : FSMap) (h : RootInv s)
    (hl : (0 : fileid3) ∉ l) : RootInv (l.foldl delStep s) := by
  induction l generalizing s with
  | nil => exact h
  | cons a rest ih =>
    have ha : a ≠ 0 := fun hcc => hl (by rw [hcc]; exact List.mem_cons_self _ _)
    exact ih (delStep s a) (rootInv_delStep s a h ha)
      (fun hcc => hl (List.mem_cons_of_mem a hcc))

/-- `delete_entry` at a non-root id keeps `RootInv`. -/
theorem rootInv_delete_entry (s : FSMap) (id : fileid3) (h : RootInv s)
    (hid : id ≠ 0) : RootInv (s.delete_entry id) :=
  rootInv_foldl_delStep _ s h (collectAll_ne_zero s h.2.2.2.2.1 _ id hid)

/-- `create_entry` at a non-empty path keeps `RootInv`, and the
returned id is never the root. -/
theorem rootInv_create_entry (s : FSMap) (p : SymPath) (m : Meta)
    (h : RootInv s) (hp : p ≠ []) :
    RootInv (s.create_entry p m).2 ∧ (s.create_entry p m).1 ≠ 0 := by
  obtain ⟨⟨e0, he0, hn0⟩, hb, hc, hd, hch, hnf⟩ := h
  unfold FSMap.create_entry
  cases hbind : s.path_to_id p with
  | some chid =>
    dsimp only
    constructor
    · refine rootInv_modify s chid _ ?_ ?_ ⟨⟨e0, he0, hn0⟩, hb, hc, hd, hch, hnf⟩
      · intro e
        rfl
      · intro e ch' hch' hold
        exact hold ch' hch'
    · intro hc0
      rw [hc0] at hbind
      exact hp (hd p hbind)
  | none =>
    dsimp only
    have hnz : s.next_fileid ≠ 0 := by omega
    constructor
    · refine ⟨⟨e0, ?_, hn0⟩, ?_, ?_, ?_, ?_, ?_⟩
      · dsimp only
        rw [if_neg (fun hcc => hnz hcc.symm)]
        exact he0
      · intro i e hie hni
        dsimp only at hie
        by_cases hin : i = s.next_fileid
        · rw [if_pos hin] at hie
          injection hie with he2
          rw [← he2] at hni
          exact absurd hni hp
        · rw [if_neg hin] at hie
          exact hb i e hie hni
      · dsimp only
        rw [if_neg (fun hcc => hp hcc.symm)]
        exact hc
      · intro q hqp
        dsimp only at hqp
        by_cases hqq : q = p
        · rw [if_pos hqq] at hqp
          injection hqp with h2
          exact absurd h2 hnz
        · rw [if_neg hqq] at hqp
          exact hd q hqp
      · intro i e ch hie hch2
        dsimp only at hie
        by_cases hin : i = s.next_fileid
        · rw [if_pos hin] at hie
          injection hie with he2
          rw [← he2] at hch2
          cases hch2
        · rw [if_neg hin] at hie
          exact hch i e ch hie hch2
      · dsimp only
        omega
    · dsimp only
      exact hnz


/-- Every successful `refresh_entry` keeps `RootInv` (the root itself
always refreshes as a no-op; deletes start strictly below the root). -/
theorem rootInv_refresh_entry (s : FSMap) (h : Host) (id : fileid3)
    (r : RefreshResult) (s1 : FSMap) (hRoot : RootInv s)
    (heq : s.refresh_entry h id = .ok (r, s1)) : RootInv s1 := by
  unfold FSMap.refresh_entry at heq
  cases hie : s.id_to_path id with
  | none => rw [hie] at heq; cases heq
  | some entry =>
    rw [hie] at heq
    dsimp only at heq
    have hid0 : entry.name ≠ [] → id ≠ 0 := by
      intro hne hcc
      rw [hcc] at hie
      obtain ⟨e0, he0, hn0⟩ := hRoot.1
      rw [he0] at hie
      injection hie with he2
      exact hne (he2 ▸ hn0)
    cases hrp : s.sym_to_real_path entry.name with
    | none =>
      rw [hrp] at heq
      by_cases hn : entry.name = []
      · rw [if_pos hn] at heq
        injection heq with hp
        injection hp with ha hb
        rw [← hb]
        exact hRoot
      · rw [if_neg hn] at heq
        cases hname : entry.name with
        | nil =>
          rw [hname] at heq
          dsimp only at heq
          injection heq with hp
          injection hp with ha hb
          rw [← hb]
          exact hRoot
        | cons s0 rest =>
          rw [hname] at heq
          cases rest with
          | nil =>
            dsimp only at heq
            by_cases hm : s.mounts = []
            · rw [if_pos hm] at heq
              injection heq with hp
              injection hp with ha hb
              rw [← hb]
              exact hRoot
            · rw [if_neg hm] at heq
              cases hg : s.intern.get s0 with
              | none => rw [hg] at heq; cases heq
              | some mount_name =>
                rw [hg] at heq
                dsimp only at heq
                cases hmf : mountFor s.mounts mount_name with
                | some mres =>
                  obtain ⟨mt, source_path, mro⟩ := mres
                  rw [hmf] at heq
                  dsimp only at heq
                  by_cases hex : exists_no_traverse h source_path = true
                  · rw [if_neg (fun hcc => hcc hex)] at heq
                    cases hl : h.lookup source_path with
                    | none => rw [hl] at heq; cases heq
                    | some node =>
                      rw [hl] at heq
                      dsimp only at heq
                      by_cases hd : fattr3_differ (metadata_to_fattr3 id node.meta)
                          entry.fsmeta = true
                      · rw [if_pos hd] at heq
                        injection heq with hp
                        injection hp with ha hb
                        rw [← hb]
                        refine rootInv_modify s id _ ?_ ?_ hRoot
                        · intro e
                          rfl
                        · intro e ch' hch' hold
                          exact hold ch' hch'
                      · rw [if_neg hd] at heq
                        injection heq with hp
                        injection hp with ha hb
                        rw [← hb]
                        exact hRoot
                  · rw [if_pos hex] at heq
                    injection heq with hp
                    injection hp with ha hb
                    rw [← hb]
                    exact rootInv_delete_entry s id hRoot (hid0 hn)
                | none =>
                  rw [hmf] at heq
                  injection heq with hp
                  injection hp with ha hb
                  rw [← hb]
                  exact hRoot
          | cons s1' rest' =>
            dsimp only at heq
            injection heq with hp
            injection hp with ha hb
            rw [← hb]
            exact hRoot
    | some rpb =>
      obtain ⟨real_path, rro⟩ := rpb
      rw [hrp] at heq
      dsimp only at heq
      have hne : entry.name ≠ [] := by
        intro hcc
        rw [hcc] at hrp
        exact Option.noConfusion hrp
      by_cases hex : exists_no_traverse h real_path = true
      · rw [if_neg (fun hcc => hcc hex)] at heq
        cases hl : h.lookup real_path with
        | none => rw [hl] at heq; cases heq
        | some node =>
          rw [hl] at heq
          dsimp only at heq
          by_cases hd : fattr3_differ (metadata_to_fattr3 id node.meta) entry.fsmeta = true
          · rw [if_neg (fun hcc => hcc hd)] at heq
            by_cases hty : entry.fsmeta.meta.ftype = node.meta.ftype
            · rw [if_neg (fun hcc => hcc hty)] at heq
              injection heq with hp
              injection hp with ha hb
              rw [← hb]
              refine rootInv_modify s id _ ?_ ?_ hRoot
              · intro e
                rfl
              · intro e ch' hch' hold
                exact hold ch' hch'
            · rw [if_pos hty] at heq
              injection heq with hp
              injection hp with ha hb
              rw [← hb]
              exact rootInv_delete_entry s id hRoot (hid0 hne)
          · rw [if_pos hd] at heq
            injection heq with hp
            injection hp with ha hb
            rw [← hb]
            exact hRoot
      · rw [if_pos hex] at heq
        injection heq with hp
        injection hp with ha hb
        rw [← hb]
        exact rootInv_delete_entry s id hRoot (hid0 hne)

/-- `refresh_entry_ign` keeps `RootInv`. -/
theorem rootInv_refresh_ign (s : FSMap) (h : Host) (id : fileid3)
    (hRoot : RootInv s) : RootInv (s.refresh_entry_ign h id) := by
  unfold FSMap.refresh_entry_ign
  cases heq : s.refresh_entry h id with
  | error e => exact hRoot
  | ok pr =>
    obtain ⟨r, s1⟩ := pr
    exact rootInv_refresh_entry s h id r s1 hRoot heq

/-- `finishDirList` keeps `RootInv` when the stored set avoids the
root. -/
theorem rootInv_finishDirList (s : FSMap) (id : fileid3) (nc : List fileid3)
    (hRoot : RootInv s) (hnc : (0 : fileid3) ∉ nc) :
    RootInv (finishDirList s id nc).1 := by
  unfold finishDirList
  cases hie : s.id_to_path id with
  | none => exact hRoot
  | some e =>
    dsimp only
    refine rootInv_modify s id _ ?_ ?_ hRoot
    · intro e0
      rfl
    · intro e0 ch' hch' hold
      injection hch' with h2
      rw [← h2]
      intro hmem
      exact hnc ((mem_bsetOf 0 nc).mp hmem)

/-- Helper: a fold whose step keeps `RootInv` of the map and avoids the
root in the collected ids keeps both. -/
theorem rootInv_foldl_pair {α : Type}
    (step : FSMap × List fileid3 → α → FSMap × List fileid3)
    (hstep : ∀ acc a, RootInv acc.1 ∧ (0 : fileid3) ∉ acc.2 →
      RootInv (step acc a).1 ∧ (0 : fileid3) ∉ (step acc a).2)
    (l : List α) (acc : FSMap × List fileid3)
    (h : RootInv acc.1 ∧ (0 : fileid3) ∉ acc.2) :
    RootInv (l.foldl step acc).1 ∧ (0 : fileid3) ∉ (l.foldl step acc).2 := by
  induction l generalizing acc with
  | nil => exact h
  | cons a rest ih => exact ih _ (hstep acc a h)

/-- Helper: a directory-list rebuild (fold then store) keeps
`RootInv`. -/
theorem rootInv_dirlist_fold {α : Type}
    (step : FSMap × List fileid3 → α → FSMap × List fileid3)
    (l : List α) (s : FSMap) (id : fileid3)
    (hstep : ∀ acc a, RootInv acc.1 ∧ (0 : fileid3) ∉ acc.2 →
      RootInv (step acc a).1 ∧ (0 : fileid3) ∉ (step acc a).2)
    (hRoot : RootInv s) :
    RootInv (finishDirList (l.foldl step (s, [])).1 id
      (l.foldl step (s, [])).2).1 := by
  have hrun := rootInv_foldl_pair step hstep l (s, []) ⟨hRoot, by simp⟩
  exact rootInv_finishDirList _ id _ hrun.1 hrun.2

/-- `refresh_dir_list` keeps `RootInv`. -/
theorem rootInv_refresh_dir_list (s : FSMap) (h : Host) (id : fileid3)
    (hRoot : RootInv s) : RootInv (s.refresh_dir_list h id).1 := by
  unfold FSMap.refresh_dir_list
  cases hie : s.id_to_path id with
  | none => exact hRoot
  | some entry =>
    dsimp only
    split
    · exact hRoot
    · split
      · exact hRoot
      · split
        · refine rootInv_dirlist_fold _ s.mounts s id ?_ hRoot
          intro acc a hacc
          dsimp only
          cases hsi : acc.1.intern.intern (trimSlash a.1) with
          | mk sym it =>
            dsimp only
            split
            · cases hl : h.lookup a.2.1 with
              | some node =>
                dsimp only
                have hce := rootInv_create_entry ({ acc.1 with intern := it })
                  (entry.name ++ [sym]) node.meta hacc.1 (by simp)
                refine ⟨hce.1, ?_⟩
                intro hmem
                rcases List.mem_append.mp hmem with hm1 | hm1
                · exact hacc.2 hm1
                · exact hce.2 (List.mem_singleton.mp hm1).symm
              | none =>
                dsimp only
                have hce := rootInv_create_entry ({ acc.1 with intern := it })
                  (entry.name ++ [sym]) (mkMeta .NF3DIR 0 0) hacc.1 (by simp)
                refine ⟨hce.1, ?_⟩
                intro hmem
                rcases List.mem_append.mp hmem with hm1 | hm1
                · exact hacc.2 hm1
                · exact hce.2 (List.mem_singleton.mp hm1).symm
            · exact hacc
        · split
          · exact hRoot
          · split
            · refine rootInv_dirlist_fold _ _ s id ?_ hRoot
              intro acc a hacc
              dsimp only
              cases hsi : acc.1.intern.intern a.1 with
              | mk sym it =>
                dsimp only
                have hce := rootInv_create_entry ({ acc.1 with intern := it })
                  (entry.name ++ [sym]) a.2.meta hacc.1 (by simp)
                refine ⟨hce.1, ?_⟩
                intro hmem
                rcases List.mem_append.mp hmem with hm1 | hm1
                · exact hacc.2 hm1
                · exact hce.2 (List.mem_singleton.mp hm1).symm
            · exact rootInv_finishDirList s id [] hRoot (by simp)

/-- The binding update of `rename` keeps `RootInv`. -/
theorem rootInv_renameBind (fs1 : FSMap) (fid : fileid3) (fent : FSEntry)
    (fromS toS : SymPath) (fd td : fileid3) (hRoot : RootInv fs1)
    (hfe : fs1.id_to_path fid = some fent)
    (hfid : fid ≠ 0) (hfrom : fromS ≠ []) (hto : toS ≠ []) :
    RootInv (renameBind fs1 fid fent fromS toS fd td) := by
  have hcore : RootInv { fs1 with
      id_to_path := fun j =>
        if j = fid then some { fent with name := toS } else fs1.id_to_path j,
      path_to_id := fun p =>
        if p = toS then some fid
        else if p = fromS then none
        else fs1.path_to_id p } := by
    obtain ⟨⟨e0, he0, hn0⟩, hb, hc, hd, hch, hnf⟩ := hRoot
    refine ⟨?_, ?_, ?_, ?_, ?_, ?_⟩
    · refine ⟨e0, ?_, hn0⟩
      dsimp only
      rw [if_neg (fun hcc => hfid hcc.symm)]
      exact he0
    · intro i e hie hni
      dsimp only at hie
      by_cases hif : i = fid
      · rw [if_pos hif] at hie
        injection hie with he2
        rw [← he2] at hni
        exact absurd hni hto
      · rw [if_neg hif] at hie
        exact hb i e hie hni
    · dsimp only
      rw [if_neg (fun hcc => hto hcc.symm), if_neg (fun hcc => hfrom hcc.symm)]
      exact hc
    · intro p hp
      dsimp only at hp
      by_cases hpt : p = toS
      · rw [if_pos hpt] at hp
        injection hp with h2
        exact absurd h2 hfid
      · rw [if_neg hpt] at hp
        by_cases hpf : p = fromS
        · rw [if_pos hpf] at hp; cases hp
        · rw [if_neg hpf] at hp
          exact hd p hp
    · intro i e ch hie hch2
      dsimp only at hie
      by_cases hif : i = fid
      · rw [if_pos hif] at hie
        injection hie with he2
        rw [← he2] at hch2
        exact hch fid fent ch hfe hch2
      · rw [if_neg hif] at hie
        exact hch i e ch hie hch2
    · exact hnf
  unfold renameBind
  dsimp only
  split
  · refine rootInv_modify _ _ _ ?_ ?_ (rootInv_modify _ _ _ ?_ ?_ hcore)
    · intro e
      rfl
    · intro e ch' hch' hold
      cases hech : e.children with
      | none => rw [hech] at hch'; cases hch'
      | some ch0 =>
        rw [hech] at hch'
        dsimp only [Option.map] at hch'
        injection hch' with h2
        rw [← h2]
        intro hmem
        rcases (mem_bsetInsert fid 0 ch0).mp hmem with h3 | h3
        · exact hfid h3.symm
        · exact hold ch0 hech h3
    · intro e
      rfl
    · intro e ch' hch' hold
      cases hech : e.children with
      | none => rw [hech] at hch'; cases hch'
      | some ch0 =>
        rw [hech] at hch'
        dsimp only [Option.map] at hch'
        injection hch' with h2
        rw [← h2]
        intro hmem
        exact hold ch0 hech (List.mem_of_mem_erase hmem)
  · exact hcore

/-- The trailing refreshes of `rename` keep `RootInv`. -/
theorem rootInv_renameTail (fsX : FSMap) (h1 : Host) (fd td : fileid3)
    (hRoot : RootInv fsX) : RootInv (renameTail fsX h1 fd td).fs := by
  unfold renameTail
  dsimp only
  split
  · exact rootInv_refresh_ign _ _ _ (rootInv_refresh_ign _ _ _ hRoot)
  · exact rootInv_refresh_ign _ _ _ hRoot


/-- Adding a non-root binding at a non-empty path (with an interner
change) keeps `RootInv` (the shape produced by `link`). -/
theorem rootInv_bind_path (s : FSMap) (x : SymbolTable) (fid : fileid3)
    (q : SymPath) (hRoot : RootInv s) (hq : q ≠ []) (hfid : fid ≠ 0) :
    RootInv { s with
      intern := x,
      path_to_id := fun p => if p = q then some fid else s.path_to_id p } := by
  obtain ⟨⟨e0, he0, hn0⟩, hb, hc, hd, hch, hnf⟩ := hRoot
  refine ⟨⟨e0, he0, hn0⟩, hb, ?_, ?_, hch, hnf⟩
  · dsimp only
    rw [if_neg (fun hcc => hq hcc.symm)]
    exact hc
  · intro p hp
    dsimp only at hp
    by_cases hpq : p = q
    · rw [if_pos hpq] at hp
      injection hp with h2
      exact absurd h2 hfid
    · rw [if_neg hpq] at hp
      exact hd p hp

/-- The slow path of `lookup` keeps `RootInv`. -/
theorem rootInv_lookupSlow (s : FSMap) (h : Host) (dirid : fileid3) (fn : String)
    (hRoot : RootInv s) : RootInv (lookupSlow s h dirid fn).fs := by
  unfold lookupSlow
  cases hfd : s.find_entry dirid with
  | error e => exact hRoot
  | ok dirent =>
    dsimp only
    cases hrp : s.sym_to_real_path dirent.name with
    | none =>
      dsimp only
      cases hdn : dirent.name with
      | nil => exact hRoot
      | cons s0 rest =>
        cases rest with
        | nil =>
          dsimp only
          cases hg : s.intern.get s0 with
          | none => exact hRoot
          | some mn =>
            dsimp only
            split
            · exact hRoot
            · exact hRoot
        | cons a b => exact hRoot
    | some x =>
      obtain ⟨dir_path, bro⟩ := x
      dsimp only
      split
      · exact hRoot
      · cases hre : s.refresh_entry h dirid with
        | error e => exact hRoot
        | ok pr =>
          obtain ⟨r, fs1⟩ := pr
          have hR1 := rootInv_refresh_entry s h dirid r fs1 hRoot hre
          cases r with
          | Delete => exact hR1
          | Reload =>
            dsimp only
            split
            · exact rootInv_refresh_dir_list fs1 h dirid hR1
            · exact rootInv_refresh_dir_list fs1 h dirid hR1
          | Noop =>
            dsimp only
            split
            · exact rootInv_refresh_dir_list fs1 h dirid hR1
            · exact rootInv_refresh_dir_list fs1 h dirid hR1

/-- `lookup` keeps `RootInv`. -/
theorem rootInv_lookup (s : FSMap) (h : Host) (ro : Bool) (dirid : fileid3)
    (fn : String) (hRoot : RootInv s) :
    RootInv (MirrorFS.lookup ⟨s, ro⟩ h dirid fn).fs := by
  unfold MirrorFS.lookup
  dsimp only
  cases hfc : s.find_child dirid fn with
  | ok id =>
    dsimp only
    split
    · exact hRoot
    · exact rootInv_lookupSlow s h dirid fn hRoot
  | error e => exact rootInv_lookupSlow s h dirid fn hRoot

/-- `getattr` keeps `RootInv`. -/
theorem rootInv_getattr (s : FSMap) (h : Host) (ro : Bool) (id : fileid3)
    (hRoot : RootInv s) : RootInv (MirrorFS.getattr ⟨s, ro⟩ h id).fs := by
  unfold MirrorFS.getattr
  dsimp only
  cases hre : s.refresh_entry h id with
  | error e => exact hRoot
  | ok pr =>
    obtain ⟨r, fs1⟩ := pr
    have hR1 := rootInv_refresh_entry s h id r fs1 hRoot hre
    cases r with
    | Delete => exact hR1
    | Reload =>
      dsimp only
      split
      · exact hR1
      · exact hR1
    | Noop =>
      dsimp only
      split
      · exact hR1
      · exact hR1

/-- `readdir` keeps `RootInv`. -/
theorem rootInv_readdir (s : FSMap) (h : Host) (ro : Bool) (dirid sa : fileid3)
    (maxe : Nat) (hRoot : RootInv s) :
    RootInv (MirrorFS.readdir ⟨s, ro⟩ h dirid sa maxe).fs := by
  unfold MirrorFS.readdir
  dsimp only
  cases hre : s.refresh_entry h dirid with
  | error e => exact hRoot
  | ok pr =>
    obtain ⟨r, fs1⟩ := pr
    have hR1 := rootInv_refresh_entry s h dirid r fs1 hRoot hre
    dsimp only
    repeat' split
    all_goals exact rootInv_refresh_dir_list fs1 h dirid hR1

/-- `setattr` keeps `RootInv`. -/
theorem rootInv_setattr (s : FSMap) (h : Host) (ro : Bool) (id : fileid3)
    (sa : sattr3) (hRoot : RootInv s) :
    RootInv (MirrorFS.setattr ⟨s, ro⟩ h id sa).fs := by
  unfold MirrorFS.setattr
  dsimp only
  cases hfe : s.find_entry id with
  | error e => exact hRoot
  | ok entry =>
    dsimp only
    cases hps : path_setattr h (s.sym_to_path entry.name) sa with
    | error e => exact hRoot
    | ok h1 =>
      dsimp only
      cases hl : h1.lookup (s.sym_to_path entry.name) with
      | none => exact hRoot
      | some node =>
        dsimp only
        refine rootInv_modify _ _ _ ?_ ?_ hRoot
        · intro e
          rfl
        · intro e ch' hch' hold
          exact hold ch' hch'

/-- `write` never changes the map, so it keeps `RootInv`. -/
theorem rootInv_write (s : FSMap) (h : Host) (ro : Bool) (id : fileid3)
    (offset : Nat) (data : List Nat) (hRoot : RootInv s) :
    RootInv (MirrorFS.write ⟨s, ro⟩ h id offset data).fs := by
  unfold MirrorFS.write
  dsimp only
  repeat' split
  all_goals exact hRoot

/-- `create_fs_object` keeps `RootInv`. -/
theorem rootInv_create_fs_object (s : FSMap) (h : Host) (ro : Bool)
    (dirid : fileid3) (name : String) (obj : CreateFSObject) (hRoot : RootInv s) :
    RootInv (MirrorFS.create_fs_object ⟨s, ro⟩ h dirid name obj).fs := by
  unfold MirrorFS.create_fs_object
  dsimp only
  split
  · exact hRoot
  · cases hfe : s.find_entry dirid with
    | error e => exact hRoot
    | ok ent =>
      dsimp only
      cases hrp : s.sym_to_real_path ent.name with
      | none => exact hRoot
      | some x =>
        obtain ⟨dir_path, dro⟩ := x
        dsimp only
        split
        · exact hRoot
        · cases hcs : createSyscall h dir_path (dir_path ++ [name]) obj with
          | error e => exact hRoot
          | ok h1 =>
            dsimp only
            cases hl : Host.lookup h1 (dir_path ++ [name]) with
            | none => exact rootInv_intern _ _ (rootInv_refresh_ign _ _ _ hRoot)
            | some node =>
              dsimp only
              split
              · exact (rootInv_create_entry _ _ _
                  (rootInv_intern _ _ (rootInv_refresh_ign _ _ _ hRoot)) (by simp)).1
              · refine rootInv_modify _ _ _ ?_ ?_
                  ((rootInv_create_entry _ _ _
                    (rootInv_intern _ _ (rootInv_refresh_ign _ _ _ hRoot)) (by simp)).1)
                · intro e
                  rfl
                · intro e ch' hch' hold
                  cases hech : e.children with
                  | none => rw [hech] at hch'; cases hch'
                  | some ch0 =>
                    rw [hech] at hch'
                    dsimp only [Option.map] at hch'
                    injection hch' with h2
                    rw [← h2]
                    intro hmem
                    rcases (mem_bsetInsert _ 0 ch0).mp hmem with h3 | h3
                    · exact absurd h3.symm
                        ((rootInv_create_entry _ _ _
                          (rootInv_intern _ _ (rootInv_refresh_ign _ _ _ hRoot))
                          (by simp)).2)
                    · exact hold ch0 hech h3

/-- `remove` keeps `RootInv`. -/
theorem rootInv_remove (s : FSMap) (h : Host) (ro : Bool) (dirid : fileid3)
    (fn : String) (hRoot : RootInv s) :
    RootInv (MirrorFS.remove ⟨s, ro⟩ h dirid fn).fs := by
  unfold MirrorFS.remove
  dsimp only
  split
  · exact hRoot
  · cases hfe : s.find_entry dirid with
    | error e => exact hRoot
    | ok ent =>
      dsimp only
      cases hrp : s.sym_to_real_path ent.name with
      | none => exact hRoot
      | some x =>
        obtain ⟨dir_path, dro⟩ := x
        dsimp only
        split
        · exact hRoot
        · cases hl : h.lookup (dir_path ++ [fn]) with
          | none => exact hRoot
          | some node =>
            dsimp only
            split
            · exact hRoot
            · cases hb : s.path_to_id (ent.name ++ [(s.intern.intern fn).1]) with
              | none => exact rootInv_refresh_ign _ _ _ (rootInv_intern _ _ hRoot)
              | some fid =>
                dsimp only
                have hfid0 : fid ≠ 0 := by
                  intro hcc
                  rw [hcc] at hb
                  have := hRoot.2.2.2.1 _ hb
                  simp at this
                apply rootInv_refresh_ign
                refine rootInv_modify _ _ _ ?_ ?_ ?_
                · intro e
                  rfl
                · intro e ch' hch' hold
                  cases hech : e.children with
                  | none => rw [hech] at hch'; cases hch'
                  | some ch0 =>
                    rw [hech] at hch'
                    dsimp only [Option.map] at hch'
                    injection hch' with h2
                    rw [← h2]
                    intro hmem
                    exact hold ch0 hech (List.mem_of_mem_erase hmem)
                · exact rootInv_remove_unbind s _ fid _ hRoot hfid0 (by simp)

/-- `rename` (unrestricted) keeps `RootInv`. -/
theorem rootInv_rename (s : FSMap) (h : Host) (ro : Bool) (fd : fileid3)
    (fn : String) (td : fileid3) (tn : String) (hRoot : RootInv s) :
    RootInv (MirrorFS.rename ⟨s, ro⟩ h fd fn td tn).fs := by
  unfold MirrorFS.rename
  dsimp only
  split
  · exact hRoot
  · cases hfd : s.find_entry fd with
    | error e => exact hRoot
    | ok fde =>
      dsimp only
      cases hfrp : s.sym_to_real_path fde.name with
      | none => exact hRoot
      | some x1 =>
        obtain ⟨fp, fro⟩ := x1
        cases htd : s.find_entry td with
        | error e => exact hRoot
        | ok tde =>
          dsimp only
          cases htrp : s.sym_to_real_path tde.name with
          | none => exact hRoot
          | some x2 =>
            obtain ⟨tp, tro⟩ := x2
            dsimp only
            split
            · exact hRoot
            · split
              · exact hRoot
              · split
                · exact hRoot
                · cases hhr : hostRename h (fp ++ [fn]) (tp ++ [tn]) with
                  | none => exact hRoot
                  | some h1 =>
                    dsimp only
                    cases hb : s.path_to_id (fde.name ++ [(s.intern.intern fn).1]) with
                    | none =>
                      exact rootInv_renameTail _ _ _ _
                        (rootInv_intern _ _ (rootInv_intern _ _ hRoot))
                    | some fid =>
                      dsimp only
                      cases hfe : s.id_to_path fid with
                      | none => exact rootInv_intern _ _ (rootInv_intern _ _ hRoot)
                      | some fent =>
                        dsimp only
                        apply rootInv_renameTail
                        refine rootInv_renameBind _ fid fent _ _ fd td ?_ ?_ ?_ ?_ ?_
                        · exact hRoot
                        · exact hfe
                        · intro hcc
                          rw [hcc] at hb
                          have := hRoot.2.2.2.1 _ hb
                          simp at this
                        · simp
                        · simp

/-- `mknod` keeps `RootInv`. -/
theorem rootInv_mknod (s : FSMap) (h : Host) (ro : Bool) (dirid : fileid3)
    (fn : String) (ft : ftype3) (sa : sattr3) (hRoot : RootInv s) :
    RootInv (MirrorFS.mknod ⟨s, ro⟩ h dirid fn ft sa).fs := by
  unfold MirrorFS.mknod
  cases ft with
  | NF3CHR => exact rootInv_create_fs_object s h ro dirid fn _ hRoot
  | NF3BLK => exact rootInv_create_fs_object s h ro dirid fn _ hRoot
  | NF3SOCK => exact rootInv_create_fs_object s h ro dirid fn _ hRoot
  | NF3FIFO => exact rootInv_create_fs_object s h ro dirid fn _ hRoot
  | NF3REG => exact hRoot
  | NF3DIR => exact hRoot
  | NF3LNK => exact hRoot

/-- `link` keeps `RootInv` (it aliases a non-root fileid at a non-empty
path). -/
theorem rootInv_link (s : FSMap) (h : Host) (ro : Bool) (fid ldir : fileid3)
    (fn : String) (hRoot : RootInv s) :
    RootInv (MirrorFS.link ⟨s, ro⟩ h fid ldir fn).fs := by
  unfold MirrorFS.link
  dsimp only
  split
  · exact hRoot
  · cases hfe : s.find_entry fid with
    | error e => exact hRoot
    | ok file_entry =>
      dsimp only
      cases hrp : s.sym_to_real_path file_entry.name with
      | none => exact hRoot
      | some x =>
        obtain ⟨fp, fro⟩ := x
        cases hld : s.find_entry ldir with
        | error e => exact hRoot
        | ok linkdir_entry =>
          dsimp only
          cases hlrp : s.sym_to_real_path linkdir_entry.name with
          | none => exact hRoot
          | some x2 =>
            obtain ⟨lp, lro⟩ := x2
            dsimp only
            split
            · exact hRoot
            · cases hhl : hostHardLink h fp (lp ++ [fn]) with
              | error e => exact hRoot
              | ok h1 =>
                dsimp only
                have hfid0 : fid ≠ 0 := by
                  intro hcc
                  obtain ⟨e0, he0, hn0⟩ := hRoot.1
                  rw [hcc] at hfe
                  have hfe2 := find_entry_ok s 0 file_entry hfe
                  rw [he0] at hfe2
                  injection hfe2 with he2
                  rw [← he2, hn0] at hrp
                  exact Option.noConfusion hrp
                refine rootInv_modify _ _ _ ?_ ?_ ?_
                · intro e
                  rfl
                · intro e ch' hch' hold
                  cases hech : e.children with
                  | none => rw [hech] at hch'; cases hch'
                  | some ch0 =>
                    rw [hech] at hch'
                    dsimp only [Option.map] at hch'
                    injection hch' with h2
                    rw [← h2]
                    intro hmem
                    rcases (mem_bsetInsert fid 0 ch0).mp hmem with h3 | h3
                    · exact hfid0 h3.symm
                    · exact hold ch0 hech h3
                · exact rootInv_bind_path s _ fid _ hRoot (by simp) hfid0


/-- C7 (amended): in every reachable state the root survives — fileid 0
maps to an entry named by the empty symbolic path and the empty path
maps back to fileid 0.  The claim's stronger children-exactness is
refuted by `C7_root_children_counterexample`: the root's children set
can retain a dead mount fileid. -/
theorem C7_root_stability_amended (ro : Bool) (s0 : FSMap) (h0 : Host)
    (st : FSMap × Host) (hRoot : RootInv s0) (hreach : Reach ro (s0, h0) st) :
    ∃ e, st.1.id_to_path 0 = some e ∧ e.name = [] ∧ st.1.path_to_id [] = some 0 := by
  suffices hR : RootInv st.1 by
    obtain ⟨⟨e, he, hn⟩, _, hc, _⟩ := hR
    exact ⟨e, he, hn, hc⟩
  induction hreach with
  | refl => exact hRoot
  | tail hr hstep ih =>
    cases hstep with
    | lookup s h dirid fn => exact rootInv_lookup s h ro dirid fn ih
    | getattr s h id => exact rootInv_getattr s h ro id ih
    | readdir s h dirid sa maxe => exact rootInv_readdir s h ro dirid sa maxe ih
    | setattr s h id sa => exact rootInv_setattr s h ro id sa ih
    | write s h id offset data => exact rootInv_write s h ro id offset data ih
    | create s h dirid fn sa => exact rootInv_create_fs_object s h ro dirid fn _ ih
    | create_exclusive s h dirid fn => exact rootInv_create_fs_object s h ro dirid fn _ ih
    | remove s h dirid fn => exact rootInv_remove s h ro dirid fn ih
    | rename s h fd fn td tn => exact rootInv_rename s h ro fd fn td tn ih
    | mkdir s h dirid fn sa => exact rootInv_create_fs_object s h ro dirid fn _ ih
    | symlink s h dirid fn tgt sa => exact rootInv_create_fs_object s h ro dirid fn _ ih
    | mknod s h dirid fn ft sa => exact rootInv_mknod s h ro dirid fn ft sa ih
    | link s h fid ldir fn => exact rootInv_link s h ro fid ldir fn ih
    | host_change s h h1 hok => exact ih

/-- The concrete state `c4FS` satisfies the root invariant. -/
theorem c4FS_rootInv : RootInv c4FS := by
  refine ⟨⟨⟨[], metadata_to_fattr3 0 (egMeta .NF3DIR 0),
    metadata_to_fattr3 0 (egMeta .NF3DIR 0), some [1]⟩, by decide, rfl⟩,
    ?_, by decide, ?_, ?_, by decide⟩
  · intro i e hie hni
    by_cases h0 : i = 0
    · exact h0
    · by_cases h1 : i = 1
      · subst h1
        have he := Option.some.inj hie
        rw [← he] at hni
        cases hni
      · by_cases h2 : i = 2
        · subst h2
          have he := Option.some.inj hie
          rw [← he] at hni
          cases hni
        · exfalso
          have hn : c4FS.id_to_path i = none := by
            unfold c4FS
            dsimp only
            rw [if_neg h0, if_neg h1, if_neg h2]
          rw [hn] at hie
          cases hie
  · intro p hp
    by_cases h0 : p = []
    · exact h0
    · by_cases h1 : p = [0]
      · subst h1
        have := Option.some.inj hp
        cases this
      · by_cases h2 : p = [0, 1]
        · subst h2
          have := Option.some.inj hp
          cases this
        · exfalso
          have hn : c4FS.path_to_id p = none := by
            unfold c4FS
            dsimp only
            rw [if_neg h0, if_neg h1, if_neg h2]
          rw [hn] at hp
          cases hp
  · intro i e ch hie hch
    by_cases h0 : i = 0
    · subst h0
      have he := Option.some.inj hie
      rw [← he] at hch
      have := Option.some.inj hch
      rw [← this]
      decide
    · by_cases h1 : i = 1
      · subst h1
        have he := Option.some.inj hie
        rw [← he] at hch
        have := Option.some.inj hch
        rw [← this]
        decide
      · by_cases h2 : i = 2
        · subst h2
          have he := Option.some.inj hie
          rw [← he] at hch
          cases hch
        · exfalso
          have hn : c4FS.id_to_path i = none := by
            unfold c4FS
            dsimp only
            rw [if_neg h0, if_neg h1, if_neg h2]
          rw [hn] at hie
          cases hie

/-- C7 witness: after one `lookup` step from the concrete state, the
root is still bound both ways. -/
theorem C7_root_stability_amended_witness :
    ∃ e, (MirrorFS.lookup ⟨c4FS, false⟩ c4Host 1 "f").fs.id_to_path 0 = some e ∧
      e.name = [] ∧
      (MirrorFS.lookup ⟨c4FS, false⟩ c4Host 1 "f").fs.path_to_id [] = some 0 :=
  C7_root_stability_amended false c4FS c4Host
    ((MirrorFS.lookup ⟨c4FS, false⟩ c4Host 1 "f").fs,
     (MirrorFS.lookup ⟨c4FS, false⟩ c4Host 1 "f").host)
    c4FS_rootInv
    (Relation.ReflTransGen.tail Relation.ReflTransGen.refl
      (Step.lookup c4FS c4Host 1 "f"))

end NFSMirror
